import Mathlib

/-!
# ibex: functions and compiled functions (level1)

A shallow embedding of `src/level1/ibex_CompiledFunction.h`: the compiler that
flattens an expression into four parallel arrays (`nodes`, `code`, `nb_args`,
`args`) and the two interpreters `forward` and `backward` that replay them
against an algorithm; of `src/level1/ibex_Function.cpp`: the declaration
of symbols, `set_expr` and `decorate`; and of
`src/numeric/ibex_LinearRelaxCombo.cpp`: the dispatch of the combined linear
relaxation to its two sub-relaxations.

Conventions of the embedding.

* An expression DAG is represented by its unfolding into a tree; a node shared
  by several parents appears once per parent edge, each time with the same
  `id` and the same `deco`.
* A C++ array is a `List (Option α)`; `none` is an element that has never been
  written.  A store outside the bounds of an array has no defined result and
  is modelled by `none` in the `Option` monad.
* A pointer to a label (`ExprLabel*`) is a `Slot`, the address of the label.
-/

namespace ibex

/-! ## Expression nodes -/

/-- Modelled from the spec: the class `Dim` (declared in `ibex_Dim.h`, absent
from the sources at hand).  The spec gives a node's dimension as "one of
scalar, vector(n), matrix(r,c)". -/
inductive Dim where
  | scalar
  | vector (n : Nat)
  | matrix (r c : Nat)
  deriving DecidableEq, Repr

/-- Modelled from the spec: `Dim::is_scalar()`. -/
def Dim.is_scalar : Dim → Bool
  | .scalar => true
  | _ => false

/-- Modelled from the spec: `Dim::is_vector()`. -/
def Dim.is_vector : Dim → Bool
  | .vector _ => true
  | _ => false

/-- Address of a label: the value of an `ExprLabel*`. -/
abbrev Slot := Nat

/-- The fields of the base class `ExprNode` that the compiled function reads:
`id`, `dim`, `deco` (the label pointer installed by the decorator) and `size`
(read on the root only, to size the arrays and to bound both interpreter
loops).  The class is declared in `ibex_Expr.h`, which is not among the
sources; the fields are therefore taken as given. -/
structure ExprHeader where
  id : Nat
  dim : Dim
  deco : Slot
  size : Nat
  deriving DecidableEq, Repr

/-- The subclasses of `ExprNAryOp`. -/
inductive NAryTag where
  | ExprVector
  | ExprApply
  deriving DecidableEq, Repr

/-- The subclasses of `ExprBinaryOp`. -/
inductive BinaryTag where
  | ExprAdd | ExprMul | ExprSub | ExprDiv | ExprMax | ExprMin | ExprAtan2
  deriving DecidableEq, Repr

/-- The subclasses of `ExprUnaryOp`. -/
inductive UnaryTag where
  | ExprMinus | ExprSign | ExprAbs | ExprPower
  | ExprSqr | ExprSqrt | ExprExp | ExprLog
  | ExprCos | ExprSin | ExprTan | ExprCosh | ExprSinh | ExprTanh
  | ExprAcos | ExprAsin | ExprAtan | ExprAcosh | ExprAsinh | ExprAtanh
  deriving DecidableEq, Repr

/-- An expression node together with everything below it.  `ExprNAryOp.nb_args`
is the length of `args`. -/
inductive ExprNode where
  | ExprIndex (h : ExprHeader) (expr : ExprNode) (index : Nat)
  | ExprSymbol (h : ExprHeader) (name : String) (key : Nat)
  | ExprConstant (h : ExprHeader) (value : Int)
  | ExprNAryOp (tag : NAryTag) (h : ExprHeader) (args : List ExprNode)
  | ExprBinaryOp (tag : BinaryTag) (h : ExprHeader) (left right : ExprNode)
  | ExprUnaryOp (tag : UnaryTag) (h : ExprHeader) (expr : ExprNode)

namespace ExprNode

/-- The base-class fields of a node. -/
def header : ExprNode → ExprHeader
  | ExprIndex h _ _ => h
  | ExprSymbol h _ _ => h
  | ExprConstant h _ => h
  | ExprNAryOp _ h _ => h
  | ExprBinaryOp _ h _ _ => h
  | ExprUnaryOp _ h _ => h

/-- Field `id`. -/
def id (e : ExprNode) : Nat := e.header.id

/-- Field `dim`. -/
def dim (e : ExprNode) : Dim := e.header.dim

/-- Field `deco`. -/
def deco (e : ExprNode) : Slot := e.header.deco

/-- Field `size`. -/
def size (e : ExprNode) : Nat := e.header.size

/-- The operand nodes of a node, left to right. -/
def children : ExprNode → List ExprNode
  | ExprIndex _ e _ => [e]
  | ExprSymbol _ _ _ => []
  | ExprConstant _ _ => []
  | ExprNAryOp _ _ as => as
  | ExprBinaryOp _ _ l r => [l, r]
  | ExprUnaryOp _ _ e => [e]

end ExprNode

/-! ## The compiled function -/

/-- The enumeration `CompiledFunction::operation`. -/
inductive operation where
  | IDX | VEC | SYM | CST | APPLY
  | ADD | MUL | SUB | DIV | MAX | MIN | ATAN2
  | MINUS | SIGN | ABS | POWER
  | SQR | SQRT | EXP | LOG
  | COS | SIN | TAN | ACOS | ASIN | ATAN
  | COSH | SINH | TANH | ACOSH | ASINH | ATANH
  | ADD_V | ADD_M | SUB_V | SUB_M
  | MUL_SV | MUL_SM | MUL_VV | MUL_MV | MUL_MM
  deriving DecidableEq, Repr

/-- The object `CompiledFunction<T>`: the root `expr`, the four parallel arrays
and the write pointer `ptr`.  `written` is a ghost field, absent from the C++
object: the history of the indices at which an instruction has been stored. -/
structure CompiledFunction where
  expr : ExprNode
  nodes : List (Option ExprNode)
  code : List (Option operation)
  nb_args : List (Option Nat)
  args : List (Option (List (Option Slot)))
  ptr : Nat
  written : List Nat

/-- The store `a[i] = v` into a C++ array. -/
def store {α : Type} (a : List (Option α)) (i : Nat) (v : α) : Option (List (Option α)) :=
  if i < a.length then some (a.set i (some v)) else none

/-- The body that all `visit` methods share: the four stores at index `ptr`
followed by `ptr++`.  `slots` is the array allocated for `args[ptr]`, already
filled. -/
def CompiledFunction.emit (cf : CompiledFunction) (op : operation) (node : ExprNode)
    (n : Nat) (slots : List (Option Slot)) : Option CompiledFunction := do
  let code ← store cf.code cf.ptr op
  let nodes ← store cf.nodes cf.ptr node
  let nb_args ← store cf.nb_args cf.ptr n
  let args ← store cf.args cf.ptr slots
  pure { cf with
    code := code, nodes := nodes, nb_args := nb_args, args := args,
    ptr := cf.ptr + 1, written := cf.written ++ [cf.ptr] }

/-- The array built for `args[ptr]` by `visit(const ExprNAryOp&, operation)`:
`new ExprLabel*[nb_args+1]`, then `[0] = e.deco`, then the loop
`for (i=1; i<nb_args; i++) args[ptr][i] = e.arg(i).deco`. -/
def nary_slots (deco : Slot) (args : List ExprNode) : List (Option Slot) :=
  (List.range' 1 (args.length - 1)).foldl
    (fun a i => a.set i (args[i]?.map ExprNode.deco))
    ((List.replicate (args.length + 1) none).set 0 (some deco))

/-- The opcode chosen by `visit(const ExprVector&)` and `visit(const ExprApply&)`. -/
def visit_nary : NAryTag → operation
  | .ExprVector => .VEC
  | .ExprApply => .APPLY

/-- The opcode chosen by `visit(const ExprAdd&)` from the node's own dimension. -/
def visit_ExprAdd (dim : Dim) : operation :=
  if dim.is_scalar then .ADD
  else if dim.is_vector then .ADD_V
  else .ADD_M

/-- The opcode chosen by `visit(const ExprMul&)` from the operands' dimensions. -/
def visit_ExprMul (left right : Dim) : operation :=
  if left.is_scalar then
    if right.is_scalar then .MUL
    else if right.is_vector then .MUL_SV
    else .MUL_SM
  else if left.is_vector then .MUL_VV
  else if right.is_vector then .MUL_MV
  else .MUL_MM

/-- The opcode chosen by `visit(const ExprSub&)` from the node's own dimension. -/
def visit_ExprSub (dim : Dim) : operation :=
  if dim.is_scalar then .SUB
  else if dim.is_vector then .SUB_V
  else .SUB_M

/-- The opcode that the `visit` overload of each binary class passes on to
`visit(const ExprBinaryOp&, operation)`; `dim` is the node's own dimension,
`left` and `right` those of its operands. -/
def visit_binary : BinaryTag → (dim left right : Dim) → operation
  | .ExprAdd, dim, _, _ => visit_ExprAdd dim
  | .ExprMul, _, left, right => visit_ExprMul left right
  | .ExprSub, dim, _, _ => visit_ExprSub dim
  | .ExprDiv, _, _, _ => .DIV
  | .ExprMax, _, _, _ => .MAX
  | .ExprMin, _, _, _ => .MIN
  | .ExprAtan2, _, _, _ => .ATAN2

/-- The opcode that the `visit` overload of each unary class passes on to
`visit(const ExprUnaryOp&, operation)`. -/
def visit_unary : UnaryTag → operation
  | .ExprMinus => .MINUS
  | .ExprSign => .SIGN
  | .ExprAbs => .ABS
  | .ExprPower => .POWER
  | .ExprSqr => .SQR
  | .ExprSqrt => .SQRT
  | .ExprExp => .EXP
  | .ExprLog => .LOG
  | .ExprCos => .COS
  | .ExprSin => .SIN
  | .ExprTan => .TAN
  | .ExprCosh => .COSH
  | .ExprSinh => .SINH
  | .ExprTanh => .TANH
  | .ExprAcos => .ACOS
  | .ExprAsin => .ASIN
  | .ExprAtan => .ATAN
  | .ExprAcosh => .ACOSH
  | .ExprAsinh => .ASINH
  | .ExprAtanh => .ATANH

mutual
/-- The method `CompiledFunction::visit(const ExprNode&)` after double dispatch:
store the instruction of the node at `ptr`, advance `ptr`, then visit the
operands left to right.  No record is kept of the nodes already visited. -/
def visit : ExprNode → CompiledFunction → Option CompiledFunction
  | .ExprIndex h e index, cf =>
      (cf.emit .IDX (.ExprIndex h e index) 1 [some h.deco, some e.deco]).bind (visit e)
  | .ExprSymbol h name key, cf =>
      cf.emit .SYM (.ExprSymbol h name key) 0 [some h.deco]
  | .ExprConstant h value, cf =>
      cf.emit .CST (.ExprConstant h value) 0 [some h.deco]
  | .ExprNAryOp tag h as, cf =>
      (cf.emit (visit_nary tag) (.ExprNAryOp tag h as) as.length
        (nary_slots h.deco as)).bind (visit_args as)
  | .ExprBinaryOp tag h l r, cf =>
      ((cf.emit (visit_binary tag h.dim l.dim r.dim) (.ExprBinaryOp tag h l r) 2
        [some h.deco, some l.deco, some r.deco]).bind (visit l)).bind (visit r)
  | .ExprUnaryOp tag h e, cf =>
      (cf.emit (visit_unary tag) (.ExprUnaryOp tag h e) 1
        [some h.deco, some e.deco]).bind (visit e)
/-- The loop `for (i=0; i<e.nb_args; i++) visit(e.arg(i))`. -/
def visit_args : List ExprNode → CompiledFunction → Option CompiledFunction
  | [], cf => some cf
  | a :: as, cf => (visit a cf).bind (visit_args as)
end

/-- The constructor `CompiledFunction(f, d)`, for a function whose root `expr`
carries the labels installed by `d.decorate(f)`: four arrays of `expr.size`
elements, `ptr = 0`, then `visit(expr)`. -/
def compile (expr : ExprNode) : Option CompiledFunction :=
  visit expr
    { expr := expr,
      nodes := List.replicate expr.size none,
      code := List.replicate expr.size none,
      nb_args := List.replicate expr.size none,
      args := List.replicate expr.size none,
      ptr := 0,
      written := [] }


/-! ## The interpreters -/

/-- The element `args[i][k]` of a slot array, as the interpreter reads it: `none`
when that element has never been written. -/
def slot (a : List (Option Slot)) (k : Nat) : Option Slot :=
  a[k]?.join

/-- The interface `FwdAlgorithm<T>` as `forward` uses it: one callback per case
of its switch.  A callback receives the node, the label references of the
operands and the label reference of the result, and acts on the state `σ` of
everything it can reach (the labels and the algorithm itself).  The n-ary
callbacks receive `&(args[i][1])`: the slot array from position 1 on. -/
structure FwdAlgorithm (σ : Type) where
  index_fwd : ExprNode → Option Slot → Option Slot → σ → σ
  vector_fwd : ExprNode → List (Option Slot) → Option Slot → σ → σ
  symbol_fwd : ExprNode → Option Slot → σ → σ
  cst_fwd : ExprNode → Option Slot → σ → σ
  apply_fwd : ExprNode → List (Option Slot) → Option Slot → σ → σ
  add_fwd : ExprNode → Option Slot → Option Slot → Option Slot → σ → σ
  add_V_fwd : ExprNode → Option Slot → Option Slot → Option Slot → σ → σ
  add_M_fwd : ExprNode → Option Slot → Option Slot → Option Slot → σ → σ
  mul_fwd : ExprNode → Option Slot → Option Slot → Option Slot → σ → σ
  mul_SV_fwd : ExprNode → Option Slot → Option Slot → Option Slot → σ → σ
  mul_SM_fwd : ExprNode → Option Slot → Option Slot → Option Slot → σ → σ
  mul_VV_fwd : ExprNode → Option Slot → Option Slot → Option Slot → σ → σ
  mul_MV_fwd : ExprNode → Option Slot → Option Slot → Option Slot → σ → σ
  mul_MM_fwd : ExprNode → Option Slot → Option Slot → Option Slot → σ → σ
  sub_fwd : ExprNode → Option Slot → Option Slot → Option Slot → σ → σ
  sub_V_fwd : ExprNode → Option Slot → Option Slot → Option Slot → σ → σ
  sub_M_fwd : ExprNode → Option Slot → Option Slot → Option Slot → σ → σ
  div_fwd : ExprNode → Option Slot → Option Slot → Option Slot → σ → σ
  max_fwd : ExprNode → Option Slot → Option Slot → Option Slot → σ → σ
  min_fwd : ExprNode → Option Slot → Option Slot → Option Slot → σ → σ
  atan2_fwd : ExprNode → Option Slot → Option Slot → Option Slot → σ → σ
  minus_fwd : ExprNode → Option Slot → Option Slot → σ → σ
  sign_fwd : ExprNode → Option Slot → Option Slot → σ → σ
  abs_fwd : ExprNode → Option Slot → Option Slot → σ → σ
  power_fwd : ExprNode → Option Slot → Option Slot → σ → σ
  sqr_fwd : ExprNode → Option Slot → Option Slot → σ → σ
  sqrt_fwd : ExprNode → Option Slot → Option Slot → σ → σ
  exp_fwd : ExprNode → Option Slot → Option Slot → σ → σ
  log_fwd : ExprNode → Option Slot → Option Slot → σ → σ
  cos_fwd : ExprNode → Option Slot → Option Slot → σ → σ
  sin_fwd : ExprNode → Option Slot → Option Slot → σ → σ
  tan_fwd : ExprNode → Option Slot → Option Slot → σ → σ
  cosh_fwd : ExprNode → Option Slot → Option Slot → σ → σ
  sinh_fwd : ExprNode → Option Slot → Option Slot → σ → σ
  tanh_fwd : ExprNode → Option Slot → Option Slot → σ → σ
  acos_fwd : ExprNode → Option Slot → Option Slot → σ → σ
  asin_fwd : ExprNode → Option Slot → Option Slot → σ → σ
  atan_fwd : ExprNode → Option Slot → Option Slot → σ → σ
  acosh_fwd : ExprNode → Option Slot → Option Slot → σ → σ
  asinh_fwd : ExprNode → Option Slot → Option Slot → σ → σ
  atanh_fwd : ExprNode → Option Slot → Option Slot → σ → σ

/-- The interface `BwdAlgorithm<T>` as `backward` uses it.  The n-ary callbacks
receive `&(*args[i][1])`, which is the pointer `args[i][1]` itself. -/
structure BwdAlgorithm (σ : Type) where
  index_bwd : ExprNode → Option Slot → Option Slot → σ → σ
  vector_bwd : ExprNode → Option Slot → Option Slot → σ → σ
  symbol_bwd : ExprNode → Option Slot → σ → σ
  cst_bwd : ExprNode → Option Slot → σ → σ
  apply_bwd : ExprNode → Option Slot → Option Slot → σ → σ
  add_bwd : ExprNode → Option Slot → Option Slot → Option Slot → σ → σ
  add_V_bwd : ExprNode → Option Slot → Option Slot → Option Slot → σ → σ
  add_M_bwd : ExprNode → Option Slot → Option Slot → Option Slot → σ → σ
  mul_bwd : ExprNode → Option Slot → Option Slot → Option Slot → σ → σ
  mul_SV_bwd : ExprNode → Option Slot → Option Slot → Option Slot → σ → σ
  mul_SM_bwd : ExprNode → Option Slot → Option Slot → Option Slot → σ → σ
  mul_VV_bwd : ExprNode → Option Slot → Option Slot → Option Slot → σ → σ
  mul_MV_bwd : ExprNode → Option Slot → Option Slot → Option Slot → σ → σ
  mul_MM_bwd : ExprNode → Option Slot → Option Slot → Option Slot → σ → σ
  sub_bwd : ExprNode → Option Slot → Option Slot → Option Slot → σ → σ
  sub_V_bwd : ExprNode → Option Slot → Option Slot → Option Slot → σ → σ
  sub_M_bwd : ExprNode → Option Slot → Option Slot → Option Slot → σ → σ
  div_bwd : ExprNode → Option Slot → Option Slot → Option Slot → σ → σ
  max_bwd : ExprNode → Option Slot → Option Slot → Option Slot → σ → σ
  min_bwd : ExprNode → Option Slot → Option Slot → Option Slot → σ → σ
  atan2_bwd : ExprNode → Option Slot → Option Slot → Option Slot → σ → σ
  minus_bwd : ExprNode → Option Slot → Option Slot → σ → σ
  sign_bwd : ExprNode → Option Slot → Option Slot → σ → σ
  abs_bwd : ExprNode → Option Slot → Option Slot → σ → σ
  power_bwd : ExprNode → Option Slot → Option Slot → σ → σ
  sqr_bwd : ExprNode → Option Slot → Option Slot → σ → σ
  sqrt_bwd : ExprNode → Option Slot → Option Slot → σ → σ
  exp_bwd : ExprNode → Option Slot → Option Slot → σ → σ
  log_bwd : ExprNode → Option Slot → Option Slot → σ → σ
  cos_bwd : ExprNode → Option Slot → Option Slot → σ → σ
  sin_bwd : ExprNode → Option Slot → Option Slot → σ → σ
  tan_bwd : ExprNode → Option Slot → Option Slot → σ → σ
  cosh_bwd : ExprNode → Option Slot → Option Slot → σ → σ
  sinh_bwd : ExprNode → Option Slot → Option Slot → σ → σ
  tanh_bwd : ExprNode → Option Slot → Option Slot → σ → σ
  acos_bwd : ExprNode → Option Slot → Option Slot → σ → σ
  asin_bwd : ExprNode → Option Slot → Option Slot → σ → σ
  atan_bwd : ExprNode → Option Slot → Option Slot → σ → σ
  acosh_bwd : ExprNode → Option Slot → Option Slot → σ → σ
  asinh_bwd : ExprNode → Option Slot → Option Slot → σ → σ
  atanh_bwd : ExprNode → Option Slot → Option Slot → σ → σ

/-- The switch of `CompiledFunction::forward`. -/
def forward_dispatch {σ : Type} (algo : FwdAlgorithm σ) (op : operation) (node : ExprNode)
    (a : List (Option Slot)) (s : σ) : σ :=
  match op with
  | .IDX => algo.index_fwd node (slot a 1) (slot a 0) s
  | .VEC => algo.vector_fwd node (a.drop 1) (slot a 0) s
  | .SYM => algo.symbol_fwd node (slot a 0) s
  | .CST => algo.cst_fwd node (slot a 0) s
  | .APPLY => algo.apply_fwd node (a.drop 1) (slot a 0) s
  | .ADD => algo.add_fwd node (slot a 1) (slot a 2) (slot a 0) s
  | .ADD_V => algo.add_V_fwd node (slot a 1) (slot a 2) (slot a 0) s
  | .ADD_M => algo.add_M_fwd node (slot a 1) (slot a 2) (slot a 0) s
  | .MUL => algo.mul_fwd node (slot a 1) (slot a 2) (slot a 0) s
  | .MUL_SV => algo.mul_SV_fwd node (slot a 1) (slot a 2) (slot a 0) s
  | .MUL_SM => algo.mul_SM_fwd node (slot a 1) (slot a 2) (slot a 0) s
  | .MUL_VV => algo.mul_VV_fwd node (slot a 1) (slot a 2) (slot a 0) s
  | .MUL_MV => algo.mul_MV_fwd node (slot a 1) (slot a 2) (slot a 0) s
  | .MUL_MM => algo.mul_MM_fwd node (slot a 1) (slot a 2) (slot a 0) s
  | .SUB => algo.sub_fwd node (slot a 1) (slot a 2) (slot a 0) s
  | .SUB_V => algo.sub_V_fwd node (slot a 1) (slot a 2) (slot a 0) s
  | .SUB_M => algo.sub_M_fwd node (slot a 1) (slot a 2) (slot a 0) s
  | .DIV => algo.div_fwd node (slot a 1) (slot a 2) (slot a 0) s
  | .MAX => algo.max_fwd node (slot a 1) (slot a 2) (slot a 0) s
  | .MIN => algo.min_fwd node (slot a 1) (slot a 2) (slot a 0) s
  | .ATAN2 => algo.atan2_fwd node (slot a 1) (slot a 2) (slot a 0) s
  | .MINUS => algo.minus_fwd node (slot a 1) (slot a 0) s
  | .SIGN => algo.sign_fwd node (slot a 1) (slot a 0) s
  | .ABS => algo.abs_fwd node (slot a 1) (slot a 0) s
  | .POWER => algo.power_fwd node (slot a 1) (slot a 0) s
  | .SQR => algo.sqr_fwd node (slot a 1) (slot a 0) s
  | .SQRT => algo.sqrt_fwd node (slot a 1) (slot a 0) s
  | .EXP => algo.exp_fwd node (slot a 1) (slot a 0) s
  | .LOG => algo.log_fwd node (slot a 1) (slot a 0) s
  | .COS => algo.cos_fwd node (slot a 1) (slot a 0) s
  | .SIN => algo.sin_fwd node (slot a 1) (slot a 0) s
  | .TAN => algo.tan_fwd node (slot a 1) (slot a 0) s
  | .COSH => algo.cosh_fwd node (slot a 1) (slot a 0) s
  | .SINH => algo.sinh_fwd node (slot a 1) (slot a 0) s
  | .TANH => algo.tanh_fwd node (slot a 1) (slot a 0) s
  | .ACOS => algo.acos_fwd node (slot a 1) (slot a 0) s
  | .ASIN => algo.asin_fwd node (slot a 1) (slot a 0) s
  | .ATAN => algo.atan_fwd node (slot a 1) (slot a 0) s
  | .ACOSH => algo.acosh_fwd node (slot a 1) (slot a 0) s
  | .ASINH => algo.asinh_fwd node (slot a 1) (slot a 0) s
  | .ATANH => algo.atanh_fwd node (slot a 1) (slot a 0) s

/-- The switch of `CompiledFunction::backward`. -/
def backward_dispatch {σ : Type} (algo : BwdAlgorithm σ) (op : operation) (node : ExprNode)
    (a : List (Option Slot)) (s : σ) : σ :=
  match op with
  | .IDX => algo.index_bwd node (slot a 1) (slot a 0) s
  | .VEC => algo.vector_bwd node (slot a 1) (slot a 0) s
  | .SYM => algo.symbol_bwd node (slot a 0) s
  | .CST => algo.cst_bwd node (slot a 0) s
  | .APPLY => algo.apply_bwd node (slot a 1) (slot a 0) s
  | .ADD => algo.add_bwd node (slot a 1) (slot a 2) (slot a 0) s
  | .ADD_V => algo.add_V_bwd node (slot a 1) (slot a 2) (slot a 0) s
  | .ADD_M => algo.add_M_bwd node (slot a 1) (slot a 2) (slot a 0) s
  | .MUL => algo.mul_bwd node (slot a 1) (slot a 2) (slot a 0) s
  | .MUL_SV => algo.mul_SV_bwd node (slot a 1) (slot a 2) (slot a 0) s
  | .MUL_SM => algo.mul_SM_bwd node (slot a 1) (slot a 2) (slot a 0) s
  | .MUL_VV => algo.mul_VV_bwd node (slot a 1) (slot a 2) (slot a 0) s
  | .MUL_MV => algo.mul_MV_bwd node (slot a 1) (slot a 2) (slot a 0) s
  | .MUL_MM => algo.mul_MM_bwd node (slot a 1) (slot a 2) (slot a 0) s
  | .SUB => algo.sub_bwd node (slot a 1) (slot a 2) (slot a 0) s
  | .SUB_V => algo.sub_V_bwd node (slot a 1) (slot a 2) (slot a 0) s
  | .SUB_M => algo.sub_M_bwd node (slot a 1) (slot a 2) (slot a 0) s
  | .DIV => algo.div_bwd node (slot a 1) (slot a 2) (slot a 0) s
  | .MAX => algo.max_bwd node (slot a 1) (slot a 2) (slot a 0) s
  | .MIN => algo.min_bwd node (slot a 1) (slot a 2) (slot a 0) s
  | .ATAN2 => algo.atan2_bwd node (slot a 1) (slot a 2) (slot a 0) s
  | .MINUS => algo.minus_bwd node (slot a 1) (slot a 0) s
  | .SIGN => algo.sign_bwd node (slot a 1) (slot a 0) s
  | .ABS => algo.abs_bwd node (slot a 1) (slot a 0) s
  | .POWER => algo.power_bwd node (slot a 1) (slot a 0) s
  | .SQR => algo.sqr_bwd node (slot a 1) (slot a 0) s
  | .SQRT => algo.sqrt_bwd node (slot a 1) (slot a 0) s
  | .EXP => algo.exp_bwd node (slot a 1) (slot a 0) s
  | .LOG => algo.log_bwd node (slot a 1) (slot a 0) s
  | .COS => algo.cos_bwd node (slot a 1) (slot a 0) s
  | .SIN => algo.sin_bwd node (slot a 1) (slot a 0) s
  | .TAN => algo.tan_bwd node (slot a 1) (slot a 0) s
  | .COSH => algo.cosh_bwd node (slot a 1) (slot a 0) s
  | .SINH => algo.sinh_bwd node (slot a 1) (slot a 0) s
  | .TANH => algo.tanh_bwd node (slot a 1) (slot a 0) s
  | .ACOS => algo.acos_bwd node (slot a 1) (slot a 0) s
  | .ASIN => algo.asin_bwd node (slot a 1) (slot a 0) s
  | .ATAN => algo.atan_bwd node (slot a 1) (slot a 0) s
  | .ACOSH => algo.acosh_bwd node (slot a 1) (slot a 0) s
  | .ASINH => algo.asinh_bwd node (slot a 1) (slot a 0) s
  | .ATANH => algo.atanh_bwd node (slot a 1) (slot a 0) s

/-- One iteration of the loop of `forward`, at index `i`: read `code[i]`,
`nodes[i]` and `args[i]` and dispatch.  Reading an element that was never
written has no defined result. -/
def forward_step {σ : Type} (algo : FwdAlgorithm σ) (cf : CompiledFunction) (i : Nat)
    (s : σ) : Option σ :=
  match cf.code[i]?.join, cf.nodes[i]?.join, cf.args[i]?.join with
  | some op, some node, some a => some (forward_dispatch algo op node a s)
  | _, _, _ => none

/-- One iteration of the loop of `backward`, at index `i`. -/
def backward_step {σ : Type} (algo : BwdAlgorithm σ) (cf : CompiledFunction) (i : Nat)
    (s : σ) : Option σ :=
  match cf.code[i]?.join, cf.nodes[i]?.join, cf.args[i]?.join with
  | some op, some node, some a => some (backward_dispatch algo op node a s)
  | _, _, _ => none

/-- The loop `for (i=n-1; i>=0; i--)` of `forward`. -/
def forward_loop {σ : Type} (algo : FwdAlgorithm σ) (cf : CompiledFunction) : Nat → σ → Option σ
  | 0, s => some s
  | i + 1, s => (forward_step algo cf i s).bind (forward_loop algo cf i)

/-- The loop `for (; i<size; i++)` of `backward`, entered at index `i` with
`n = size - i` iterations left. -/
def backward_loop {σ : Type} (algo : BwdAlgorithm σ) (cf : CompiledFunction) (i : Nat) :
    Nat → σ → Option σ
  | 0, s => some s
  | n + 1, s => (backward_step algo cf i s).bind (backward_loop algo cf (i + 1) n)

/-- The method `CompiledFunction::forward`: the loop over `expr.size` indices,
then the reference `*expr.deco` is returned, here with the state in which the
loop ends. -/
def forward {σ : Type} (algo : FwdAlgorithm σ) (cf : CompiledFunction) (s : σ) :
    Option (Slot × σ) :=
  (forward_loop algo cf cf.expr.size s).map (fun s1 => (cf.expr.deco, s1))

/-- The method `CompiledFunction::backward`. -/
def backward {σ : Type} (algo : BwdAlgorithm σ) (cf : CompiledFunction) (s : σ) : Option σ :=
  backward_loop algo cf 0 cf.expr.size s

/-! ## Instrumented algorithms -/

/-- One recorded callback invocation: the callback (named by the opcode whose
case calls it), the node and the result label it was handed. -/
structure Call where
  callback : operation
  node : ExprNode
  result : Option Slot

/-- Instrumentation of a forward algorithm: it behaves like `algo` and appends
every callback invocation to a log. -/
def FwdAlgorithm.instrument {σ : Type} (algo : FwdAlgorithm σ) : FwdAlgorithm (σ × List Call) where
  index_fwd := fun n x y s => (algo.index_fwd n x y s.1, s.2 ++ [⟨.IDX, n, y⟩])
  vector_fwd := fun n xs y s => (algo.vector_fwd n xs y s.1, s.2 ++ [⟨.VEC, n, y⟩])
  symbol_fwd := fun n y s => (algo.symbol_fwd n y s.1, s.2 ++ [⟨.SYM, n, y⟩])
  cst_fwd := fun n y s => (algo.cst_fwd n y s.1, s.2 ++ [⟨.CST, n, y⟩])
  apply_fwd := fun n xs y s => (algo.apply_fwd n xs y s.1, s.2 ++ [⟨.APPLY, n, y⟩])
  add_fwd := fun n x1 x2 y s => (algo.add_fwd n x1 x2 y s.1, s.2 ++ [⟨.ADD, n, y⟩])
  add_V_fwd := fun n x1 x2 y s => (algo.add_V_fwd n x1 x2 y s.1, s.2 ++ [⟨.ADD_V, n, y⟩])
  add_M_fwd := fun n x1 x2 y s => (algo.add_M_fwd n x1 x2 y s.1, s.2 ++ [⟨.ADD_M, n, y⟩])
  mul_fwd := fun n x1 x2 y s => (algo.mul_fwd n x1 x2 y s.1, s.2 ++ [⟨.MUL, n, y⟩])
  mul_SV_fwd := fun n x1 x2 y s => (algo.mul_SV_fwd n x1 x2 y s.1, s.2 ++ [⟨.MUL_SV, n, y⟩])
  mul_SM_fwd := fun n x1 x2 y s => (algo.mul_SM_fwd n x1 x2 y s.1, s.2 ++ [⟨.MUL_SM, n, y⟩])
  mul_VV_fwd := fun n x1 x2 y s => (algo.mul_VV_fwd n x1 x2 y s.1, s.2 ++ [⟨.MUL_VV, n, y⟩])
  mul_MV_fwd := fun n x1 x2 y s => (algo.mul_MV_fwd n x1 x2 y s.1, s.2 ++ [⟨.MUL_MV, n, y⟩])
  mul_MM_fwd := fun n x1 x2 y s => (algo.mul_MM_fwd n x1 x2 y s.1, s.2 ++ [⟨.MUL_MM, n, y⟩])
  sub_fwd := fun n x1 x2 y s => (algo.sub_fwd n x1 x2 y s.1, s.2 ++ [⟨.SUB, n, y⟩])
  sub_V_fwd := fun n x1 x2 y s => (algo.sub_V_fwd n x1 x2 y s.1, s.2 ++ [⟨.SUB_V, n, y⟩])
  sub_M_fwd := fun n x1 x2 y s => (algo.sub_M_fwd n x1 x2 y s.1, s.2 ++ [⟨.SUB_M, n, y⟩])
  div_fwd := fun n x1 x2 y s => (algo.div_fwd n x1 x2 y s.1, s.2 ++ [⟨.DIV, n, y⟩])
  max_fwd := fun n x1 x2 y s => (algo.max_fwd n x1 x2 y s.1, s.2 ++ [⟨.MAX, n, y⟩])
  min_fwd := fun n x1 x2 y s => (algo.min_fwd n x1 x2 y s.1, s.2 ++ [⟨.MIN, n, y⟩])
  atan2_fwd := fun n x1 x2 y s => (algo.atan2_fwd n x1 x2 y s.1, s.2 ++ [⟨.ATAN2, n, y⟩])
  minus_fwd := fun n x y s => (algo.minus_fwd n x y s.1, s.2 ++ [⟨.MINUS, n, y⟩])
  sign_fwd := fun n x y s => (algo.sign_fwd n x y s.1, s.2 ++ [⟨.SIGN, n, y⟩])
  abs_fwd := fun n x y s => (algo.abs_fwd n x y s.1, s.2 ++ [⟨.ABS, n, y⟩])
  power_fwd := fun n x y s => (algo.power_fwd n x y s.1, s.2 ++ [⟨.POWER, n, y⟩])
  sqr_fwd := fun n x y s => (algo.sqr_fwd n x y s.1, s.2 ++ [⟨.SQR, n, y⟩])
  sqrt_fwd := fun n x y s => (algo.sqrt_fwd n x y s.1, s.2 ++ [⟨.SQRT, n, y⟩])
  exp_fwd := fun n x y s => (algo.exp_fwd n x y s.1, s.2 ++ [⟨.EXP, n, y⟩])
  log_fwd := fun n x y s => (algo.log_fwd n x y s.1, s.2 ++ [⟨.LOG, n, y⟩])
  cos_fwd := fun n x y s => (algo.cos_fwd n x y s.1, s.2 ++ [⟨.COS, n, y⟩])
  sin_fwd := fun n x y s => (algo.sin_fwd n x y s.1, s.2 ++ [⟨.SIN, n, y⟩])
  tan_fwd := fun n x y s => (algo.tan_fwd n x y s.1, s.2 ++ [⟨.TAN, n, y⟩])
  cosh_fwd := fun n x y s => (algo.cosh_fwd n x y s.1, s.2 ++ [⟨.COSH, n, y⟩])
  sinh_fwd := fun n x y s => (algo.sinh_fwd n x y s.1, s.2 ++ [⟨.SINH, n, y⟩])
  tanh_fwd := fun n x y s => (algo.tanh_fwd n x y s.1, s.2 ++ [⟨.TANH, n, y⟩])
  acos_fwd := fun n x y s => (algo.acos_fwd n x y s.1, s.2 ++ [⟨.ACOS, n, y⟩])
  asin_fwd := fun n x y s => (algo.asin_fwd n x y s.1, s.2 ++ [⟨.ASIN, n, y⟩])
  atan_fwd := fun n x y s => (algo.atan_fwd n x y s.1, s.2 ++ [⟨.ATAN, n, y⟩])
  acosh_fwd := fun n x y s => (algo.acosh_fwd n x y s.1, s.2 ++ [⟨.ACOSH, n, y⟩])
  asinh_fwd := fun n x y s => (algo.asinh_fwd n x y s.1, s.2 ++ [⟨.ASINH, n, y⟩])
  atanh_fwd := fun n x y s => (algo.atanh_fwd n x y s.1, s.2 ++ [⟨.ATANH, n, y⟩])

/-- Instrumentation of a backward algorithm. -/
def BwdAlgorithm.instrument {σ : Type} (algo : BwdAlgorithm σ) : BwdAlgorithm (σ × List Call) where
  index_bwd := fun n x y s => (algo.index_bwd n x y s.1, s.2 ++ [⟨.IDX, n, y⟩])
  vector_bwd := fun n xs y s => (algo.vector_bwd n xs y s.1, s.2 ++ [⟨.VEC, n, y⟩])
  symbol_bwd := fun n y s => (algo.symbol_bwd n y s.1, s.2 ++ [⟨.SYM, n, y⟩])
  cst_bwd := fun n y s => (algo.cst_bwd n y s.1, s.2 ++ [⟨.CST, n, y⟩])
  apply_bwd := fun n xs y s => (algo.apply_bwd n xs y s.1, s.2 ++ [⟨.APPLY, n, y⟩])
  add_bwd := fun n x1 x2 y s => (algo.add_bwd n x1 x2 y s.1, s.2 ++ [⟨.ADD, n, y⟩])
  add_V_bwd := fun n x1 x2 y s => (algo.add_V_bwd n x1 x2 y s.1, s.2 ++ [⟨.ADD_V, n, y⟩])
  add_M_bwd := fun n x1 x2 y s => (algo.add_M_bwd n x1 x2 y s.1, s.2 ++ [⟨.ADD_M, n, y⟩])
  mul_bwd := fun n x1 x2 y s => (algo.mul_bwd n x1 x2 y s.1, s.2 ++ [⟨.MUL, n, y⟩])
  mul_SV_bwd := fun n x1 x2 y s => (algo.mul_SV_bwd n x1 x2 y s.1, s.2 ++ [⟨.MUL_SV, n, y⟩])
  mul_SM_bwd := fun n x1 x2 y s => (algo.mul_SM_bwd n x1 x2 y s.1, s.2 ++ [⟨.MUL_SM, n, y⟩])
  mul_VV_bwd := fun n x1 x2 y s => (algo.mul_VV_bwd n x1 x2 y s.1, s.2 ++ [⟨.MUL_VV, n, y⟩])
  mul_MV_bwd := fun n x1 x2 y s => (algo.mul_MV_bwd n x1 x2 y s.1, s.2 ++ [⟨.MUL_MV, n, y⟩])
  mul_MM_bwd := fun n x1 x2 y s => (algo.mul_MM_bwd n x1 x2 y s.1, s.2 ++ [⟨.MUL_MM, n, y⟩])
  sub_bwd := fun n x1 x2 y s => (algo.sub_bwd n x1 x2 y s.1, s.2 ++ [⟨.SUB, n, y⟩])
  sub_V_bwd := fun n x1 x2 y s => (algo.sub_V_bwd n x1 x2 y s.1, s.2 ++ [⟨.SUB_V, n, y⟩])
  sub_M_bwd := fun n x1 x2 y s => (algo.sub_M_bwd n x1 x2 y s.1, s.2 ++ [⟨.SUB_M, n, y⟩])
  div_bwd := fun n x1 x2 y s => (algo.div_bwd n x1 x2 y s.1, s.2 ++ [⟨.DIV, n, y⟩])
  max_bwd := fun n x1 x2 y s => (algo.max_bwd n x1 x2 y s.1, s.2 ++ [⟨.MAX, n, y⟩])
  min_bwd := fun n x1 x2 y s => (algo.min_bwd n x1 x2 y s.1, s.2 ++ [⟨.MIN, n, y⟩])
  atan2_bwd := fun n x1 x2 y s => (algo.atan2_bwd n x1 x2 y s.1, s.2 ++ [⟨.ATAN2, n, y⟩])
  minus_bwd := fun n x y s => (algo.minus_bwd n x y s.1, s.2 ++ [⟨.MINUS, n, y⟩])
  sign_bwd := fun n x y s => (algo.sign_bwd n x y s.1, s.2 ++ [⟨.SIGN, n, y⟩])
  abs_bwd := fun n x y s => (algo.abs_bwd n x y s.1, s.2 ++ [⟨.ABS, n, y⟩])
  power_bwd := fun n x y s => (algo.power_bwd n x y s.1, s.2 ++ [⟨.POWER, n, y⟩])
  sqr_bwd := fun n x y s => (algo.sqr_bwd n x y s.1, s.2 ++ [⟨.SQR, n, y⟩])
  sqrt_bwd := fun n x y s => (algo.sqrt_bwd n x y s.1, s.2 ++ [⟨.SQRT, n, y⟩])
  exp_bwd := fun n x y s => (algo.exp_bwd n x y s.1, s.2 ++ [⟨.EXP, n, y⟩])
  log_bwd := fun n x y s => (algo.log_bwd n x y s.1, s.2 ++ [⟨.LOG, n, y⟩])
  cos_bwd := fun n x y s => (algo.cos_bwd n x y s.1, s.2 ++ [⟨.COS, n, y⟩])
  sin_bwd := fun n x y s => (algo.sin_bwd n x y s.1, s.2 ++ [⟨.SIN, n, y⟩])
  tan_bwd := fun n x y s => (algo.tan_bwd n x y s.1, s.2 ++ [⟨.TAN, n, y⟩])
  cosh_bwd := fun n x y s => (algo.cosh_bwd n x y s.1, s.2 ++ [⟨.COSH, n, y⟩])
  sinh_bwd := fun n x y s => (algo.sinh_bwd n x y s.1, s.2 ++ [⟨.SINH, n, y⟩])
  tanh_bwd := fun n x y s => (algo.tanh_bwd n x y s.1, s.2 ++ [⟨.TANH, n, y⟩])
  acos_bwd := fun n x y s => (algo.acos_bwd n x y s.1, s.2 ++ [⟨.ACOS, n, y⟩])
  asin_bwd := fun n x y s => (algo.asin_bwd n x y s.1, s.2 ++ [⟨.ASIN, n, y⟩])
  atan_bwd := fun n x y s => (algo.atan_bwd n x y s.1, s.2 ++ [⟨.ATAN, n, y⟩])
  acosh_bwd := fun n x y s => (algo.acosh_bwd n x y s.1, s.2 ++ [⟨.ACOSH, n, y⟩])
  asinh_bwd := fun n x y s => (algo.asinh_bwd n x y s.1, s.2 ++ [⟨.ASINH, n, y⟩])
  atanh_bwd := fun n x y s => (algo.atanh_bwd n x y s.1, s.2 ++ [⟨.ATANH, n, y⟩])


/-! ## Vocabulary of the specification -/

mutual
/-- Number of node-visits of the depth-first traversal: one for the node plus
the visits of each operand, shared or not. -/
def ExprNode.visits : ExprNode → Nat
  | .ExprIndex _ e _ => 1 + e.visits
  | .ExprSymbol _ _ _ => 1
  | .ExprConstant _ _ => 1
  | .ExprNAryOp _ _ as => 1 + visits_list as
  | .ExprBinaryOp _ _ l r => 1 + l.visits + r.visits
  | .ExprUnaryOp _ _ e => 1 + e.visits
/-- Number of node-visits below a list of operands. -/
def visits_list : List ExprNode → Nat
  | [] => 0
  | a :: as => a.visits + visits_list as
end

mutual
/-- The pre-order listing of an expression in the words of the specification:
the parent first, then its children left to right. -/
def ExprNode.preorder : ExprNode → List ExprNode
  | .ExprIndex h e index => .ExprIndex h e index :: e.preorder
  | .ExprSymbol h name key => [.ExprSymbol h name key]
  | .ExprConstant h value => [.ExprConstant h value]
  | .ExprNAryOp tag h as => .ExprNAryOp tag h as :: preorder_list as
  | .ExprBinaryOp tag h l r => .ExprBinaryOp tag h l r :: (l.preorder ++ r.preorder)
  | .ExprUnaryOp tag h e => .ExprUnaryOp tag h e :: e.preorder
/-- The pre-order listing of a sequence of operands. -/
def preorder_list : List ExprNode → List ExprNode
  | [] => []
  | a :: as => a.preorder ++ preorder_list as
end

/-- The opcode that one visit of a node stores in `code[ptr]`. -/
def instr_code : ExprNode → operation
  | .ExprIndex _ _ _ => .IDX
  | .ExprSymbol _ _ _ => .SYM
  | .ExprConstant _ _ => .CST
  | .ExprNAryOp tag _ _ => visit_nary tag
  | .ExprBinaryOp tag h l r => visit_binary tag h.dim l.dim r.dim
  | .ExprUnaryOp tag _ _ => visit_unary tag

/-- The arity that one visit of a node stores in `nb_args[ptr]`. -/
def instr_nb_args : ExprNode → Nat
  | .ExprIndex _ _ _ => 1
  | .ExprSymbol _ _ _ => 0
  | .ExprConstant _ _ => 0
  | .ExprNAryOp _ _ as => as.length
  | .ExprBinaryOp _ _ _ _ => 2
  | .ExprUnaryOp _ _ _ => 1

/-- The slot array that one visit of a node stores in `args[ptr]`. -/
def instr_args : ExprNode → List (Option Slot)
  | .ExprIndex h e _ => [some h.deco, some e.deco]
  | .ExprSymbol h _ _ => [some h.deco]
  | .ExprConstant h _ => [some h.deco]
  | .ExprNAryOp _ h as => nary_slots h.deco as
  | .ExprBinaryOp _ h l r => [some h.deco, some l.deco, some r.deco]
  | .ExprUnaryOp _ h e => [some h.deco, some e.deco]

/-- The array `a` with the elements from index `p` on replaced by those of `b`. -/
def overwrite {α : Type} (a : List α) (p : Nat) (b : List α) : List α :=
  a.take p ++ b ++ a.drop (p + b.length)

/-- There is room for `n` more instructions in each of the four arrays. -/
def CompiledFunction.room (cf : CompiledFunction) (n : Nat) : Prop :=
  cf.ptr + n ≤ cf.code.length ∧ cf.ptr + n ≤ cf.nodes.length ∧
  cf.ptr + n ≤ cf.nb_args.length ∧ cf.ptr + n ≤ cf.args.length

/-- The state `cf1` is `cf` after the instructions of the nodes `es` have been
stored, in that order, from `cf.ptr` on. -/
structure Emitted (cf cf1 : CompiledFunction) (es : List ExprNode) : Prop where
  expr : cf1.expr = cf.expr
  ptr : cf1.ptr = cf.ptr + es.length
  nodes : cf1.nodes = overwrite cf.nodes cf.ptr (es.map some)
  code : cf1.code = overwrite cf.code cf.ptr (es.map (fun e => some (instr_code e)))
  nb_args : cf1.nb_args = overwrite cf.nb_args cf.ptr (es.map (fun e => some (instr_nb_args e)))
  args : cf1.args = overwrite cf.args cf.ptr (es.map (fun e => some (instr_args e)))
  written : cf1.written = cf.written ++ List.range' cf.ptr es.length

/-- The state in which the constructor leaves a compiled function of root `e`:
the instructions of the pre-order listing of `e`, followed by the elements of
the arrays that were never written. -/
structure Compiled (e : ExprNode) (cf : CompiledFunction) : Prop where
  expr : cf.expr = e
  ptr : cf.ptr = e.visits
  nodes : cf.nodes = e.preorder.map some ++ List.replicate (e.size - e.visits) none
  code : cf.code = e.preorder.map (fun n => some (instr_code n))
    ++ List.replicate (e.size - e.visits) none
  nb_args : cf.nb_args = e.preorder.map (fun n => some (instr_nb_args n))
    ++ List.replicate (e.size - e.visits) none
  args : cf.args = e.preorder.map (fun n => some (instr_args n))
    ++ List.replicate (e.size - e.visits) none
  written : cf.written = List.range e.visits

/-- The multiply row of the opcode table, in the words of the specification. -/
def mul_table : Dim → Dim → operation
  | .scalar, .scalar => .MUL
  | .scalar, .vector _ => .MUL_SV
  | .scalar, .matrix _ _ => .MUL_SM
  | .vector _, _ => .MUL_VV
  | .matrix _ _, .vector _ => .MUL_MV
  | .matrix _ _, _ => .MUL_MM

/-- The add row of the opcode table, in the words of the specification: by the
node's own dimension. -/
def add_table : Dim → operation
  | .scalar => .ADD
  | .vector _ => .ADD_V
  | .matrix _ _ => .ADD_M

/-- The subtract row of the opcode table, in the words of the specification. -/
def sub_table : Dim → operation
  | .scalar => .SUB
  | .vector _ => .SUB_V
  | .matrix _ _ => .SUB_M

/-- The slot bundle and the arity of an instruction in the words of the
specification, for the node kinds with a fixed number of operands: the node's
own decoration, then those of its operands left to right. -/
def bundle_table : ExprNode → Option (List Slot × Nat)
  | .ExprSymbol h _ _ => some ([h.deco], 0)
  | .ExprConstant h _ => some ([h.deco], 0)
  | .ExprIndex h e _ => some ([h.deco, e.deco], 1)
  | .ExprUnaryOp _ h e => some ([h.deco, e.deco], 1)
  | .ExprBinaryOp _ h l r => some ([h.deco, l.deco, r.deco], 2)
  | .ExprNAryOp _ _ _ => none

/-! ## Sample expressions -/

/-- The symbol `x` (key 0) with its label at `dx`. -/
def sample_x (dx : Slot) : ExprNode := .ExprSymbol ⟨0, .scalar, dx, 1⟩ "x" 0

/-- The symbol `y` (key 1) with its label at `dy`. -/
def sample_y (dy : Slot) : ExprNode := .ExprSymbol ⟨1, .scalar, dy, 1⟩ "y" 1

/-- The product `y*y`; the node `y` is shared by both operands. -/
def sample_yy (dy dm : Slot) : ExprNode :=
  .ExprBinaryOp .ExprMul ⟨2, .scalar, dm, 3⟩ (sample_y dy) (sample_y dy)

/-- The function `f(x,y) = x + y*y` over scalar symbols; `dx`, `dy`, `dm`, `da`
are the labels of `x`, `y`, `y*y` and the sum. -/
def sample_f (dx dy dm da : Slot) : ExprNode :=
  .ExprBinaryOp .ExprAdd ⟨3, .scalar, da, 5⟩ (sample_x dx) (sample_yy dy dm)

/-- The tape of `sample_f`. -/
def tape_f (dx dy dm da : Slot) : CompiledFunction where
  expr := sample_f dx dy dm da
  nodes := [some (sample_f dx dy dm da), some (sample_x dx), some (sample_yy dy dm),
    some (sample_y dy), some (sample_y dy)]
  code := [some .ADD, some .SYM, some .MUL, some .SYM, some .SYM]
  nb_args := [some 2, some 0, some 2, some 0, some 0]
  args := [some [some da, some dx, some dm], some [some dx],
    some [some dm, some dy, some dy], some [some dy], some [some dy]]
  ptr := 5
  written := [0, 1, 2, 3, 4]

/-- The symbol `a` (key 0) with its label at address 100. -/
def sample_a : ExprNode := .ExprSymbol ⟨0, .scalar, 100, 1⟩ "a" 0

/-- The symbol `b` (key 1) with its label at address 101. -/
def sample_b : ExprNode := .ExprSymbol ⟨1, .scalar, 101, 1⟩ "b" 1

/-- The symbol `c` (key 2) with its label at address 102. -/
def sample_c : ExprNode := .ExprSymbol ⟨2, .scalar, 102, 1⟩ "c" 2

/-- The vector `(a, b, c)` built from three scalar symbols, with its own label
at address 103. -/
def sample_vec : ExprNode :=
  .ExprNAryOp .ExprVector ⟨3, .vector 3, 103, 4⟩ [sample_a, sample_b, sample_c]

/-- The tape of `sample_vec`. -/
def tape_vec : CompiledFunction where
  expr := sample_vec
  nodes := [some sample_vec, some sample_a, some sample_b, some sample_c]
  code := [some .VEC, some .SYM, some .SYM, some .SYM]
  nb_args := [some 3, some 0, some 0, some 0]
  args := [some [some 103, some 101, some 102, none], some [some 100], some [some 101],
    some [some 102]]
  ptr := 4
  written := [0, 1, 2, 3]

/-- The expression `(s * v) + ((m * v) - k)` mixing the three shapes: `s` is a
scalar, `v` a vector of 2, `m` a 2x2 matrix and `k` a constant vector. -/
def sample_mixed : ExprNode :=
  .ExprBinaryOp .ExprAdd ⟨8, .vector 2, 208, 9⟩
    (.ExprBinaryOp .ExprMul ⟨3, .vector 2, 203, 3⟩
      (.ExprSymbol ⟨0, .scalar, 200, 1⟩ "s" 0)
      (.ExprSymbol ⟨1, .vector 2, 201, 1⟩ "v" 1))
    (.ExprBinaryOp .ExprSub ⟨7, .vector 2, 207, 5⟩
      (.ExprBinaryOp .ExprMul ⟨4, .vector 2, 204, 3⟩
        (.ExprSymbol ⟨2, .matrix 2 2, 202, 1⟩ "m" 2)
        (.ExprSymbol ⟨1, .vector 2, 201, 1⟩ "v" 1))
      (.ExprConstant ⟨6, .vector 2, 206, 1⟩ 0))

/-- The callback invocation that the instruction at tape index `i` stands for:
the callback of the opcode `code[i]`, on the node `nodes[i]`, with the result
label `args[i][0]`. -/
def CompiledFunction.call (cf : CompiledFunction) (i : Nat) : Option Call :=
  match cf.code[i]?.join, cf.nodes[i]?.join, cf.args[i]?.join with
  | some op, some node, some a => some ⟨op, node, slot a 0⟩
  | _, _, _ => none

/-! ## Sample algorithms -/

/-- The forward algorithm all of whose callbacks leave the state as it is. -/
def FwdAlgorithm.skip {σ : Type} : FwdAlgorithm σ where
  index_fwd := fun _ _ _ s => s
  vector_fwd := fun _ _ _ s => s
  symbol_fwd := fun _ _ s => s
  cst_fwd := fun _ _ s => s
  apply_fwd := fun _ _ _ s => s
  add_fwd := fun _ _ _ _ s => s
  add_V_fwd := fun _ _ _ _ s => s
  add_M_fwd := fun _ _ _ _ s => s
  mul_fwd := fun _ _ _ _ s => s
  mul_SV_fwd := fun _ _ _ _ s => s
  mul_SM_fwd := fun _ _ _ _ s => s
  mul_VV_fwd := fun _ _ _ _ s => s
  mul_MV_fwd := fun _ _ _ _ s => s
  mul_MM_fwd := fun _ _ _ _ s => s
  sub_fwd := fun _ _ _ _ s => s
  sub_V_fwd := fun _ _ _ _ s => s
  sub_M_fwd := fun _ _ _ _ s => s
  div_fwd := fun _ _ _ _ s => s
  max_fwd := fun _ _ _ _ s => s
  min_fwd := fun _ _ _ _ s => s
  atan2_fwd := fun _ _ _ _ s => s
  minus_fwd := fun _ _ _ s => s
  sign_fwd := fun _ _ _ s => s
  abs_fwd := fun _ _ _ s => s
  power_fwd := fun _ _ _ s => s
  sqr_fwd := fun _ _ _ s => s
  sqrt_fwd := fun _ _ _ s => s
  exp_fwd := fun _ _ _ s => s
  log_fwd := fun _ _ _ s => s
  cos_fwd := fun _ _ _ s => s
  sin_fwd := fun _ _ _ s => s
  tan_fwd := fun _ _ _ s => s
  cosh_fwd := fun _ _ _ s => s
  sinh_fwd := fun _ _ _ s => s
  tanh_fwd := fun _ _ _ s => s
  acos_fwd := fun _ _ _ s => s
  asin_fwd := fun _ _ _ s => s
  atan_fwd := fun _ _ _ s => s
  acosh_fwd := fun _ _ _ s => s
  asinh_fwd := fun _ _ _ s => s
  atanh_fwd := fun _ _ _ s => s

/-- The backward algorithm all of whose callbacks leave the state as it is. -/
def BwdAlgorithm.skip {σ : Type} : BwdAlgorithm σ where
  index_bwd := fun _ _ _ s => s
  vector_bwd := fun _ _ _ s => s
  symbol_bwd := fun _ _ s => s
  cst_bwd := fun _ _ s => s
  apply_bwd := fun _ _ _ s => s
  add_bwd := fun _ _ _ _ s => s
  add_V_bwd := fun _ _ _ _ s => s
  add_M_bwd := fun _ _ _ _ s => s
  mul_bwd := fun _ _ _ _ s => s
  mul_SV_bwd := fun _ _ _ _ s => s
  mul_SM_bwd := fun _ _ _ _ s => s
  mul_VV_bwd := fun _ _ _ _ s => s
  mul_MV_bwd := fun _ _ _ _ s => s
  mul_MM_bwd := fun _ _ _ _ s => s
  sub_bwd := fun _ _ _ _ s => s
  sub_V_bwd := fun _ _ _ _ s => s
  sub_M_bwd := fun _ _ _ _ s => s
  div_bwd := fun _ _ _ _ s => s
  max_bwd := fun _ _ _ _ s => s
  min_bwd := fun _ _ _ _ s => s
  atan2_bwd := fun _ _ _ _ s => s
  minus_bwd := fun _ _ _ s => s
  sign_bwd := fun _ _ _ s => s
  abs_bwd := fun _ _ _ s => s
  power_bwd := fun _ _ _ s => s
  sqr_bwd := fun _ _ _ s => s
  sqrt_bwd := fun _ _ _ s => s
  exp_bwd := fun _ _ _ s => s
  log_bwd := fun _ _ _ s => s
  cos_bwd := fun _ _ _ s => s
  sin_bwd := fun _ _ _ s => s
  tan_bwd := fun _ _ _ s => s
  cosh_bwd := fun _ _ _ s => s
  sinh_bwd := fun _ _ _ s => s
  tanh_bwd := fun _ _ _ s => s
  acos_bwd := fun _ _ _ s => s
  asin_bwd := fun _ _ _ s => s
  atan_bwd := fun _ _ _ s => s
  acosh_bwd := fun _ _ _ s => s
  asinh_bwd := fun _ _ _ s => s
  atanh_bwd := fun _ _ _ s => s

/-- An evaluation algorithm over plain numbers: the state is the label store;
the symbol callback writes the argument bound to the key of the symbol, the
scalar add and multiply callbacks write the sum and the product of their
operand labels; the other callbacks do nothing. -/
def eval_fwd {R : Type} [Add R] [Mul R] (argv : Nat → R) : FwdAlgorithm (Slot → R) :=
  { (FwdAlgorithm.skip : FwdAlgorithm (Slot → R)) with
    symbol_fwd := fun n y s =>
      match n, y with
      | .ExprSymbol _ _ key, some y => Function.update s y (argv key)
      | _, _ => s
    add_fwd := fun _ x1 x2 y s =>
      match x1, x2, y with
      | some x1, some x2, some y => Function.update s y (s x1 + s x2)
      | _, _, _ => s
    mul_fwd := fun _ x1 x2 y s =>
      match x1, x2, y with
      | some x1, some x2, some y => Function.update s y (s x1 * s x2)
      | _, _, _ => s }

/-- The arguments `x = 2`, `y = 3`. -/
def argv_2_3 : Nat → Int := fun k => if k = 0 then 2 else 3

/-- The arguments `a = 1`, `b = 2`, `c = 3`. -/
def argv_1_2_3 : Nat → Int := fun k => if k = 0 then 1 else if k = 1 then 2 else 3


/-- An evaluation algorithm for vectors over plain numbers.  The state is the
label store together with the operand labels that the vector callback was
handed last (`none` for an operand slot that was never written). -/
def eval_vec_fwd (argv : Nat → Int) : FwdAlgorithm ((Slot → Int) × List (Option Int)) :=
  { (FwdAlgorithm.skip : FwdAlgorithm ((Slot → Int) × List (Option Int))) with
    symbol_fwd := fun n y s =>
      match n, y with
      | .ExprSymbol _ _ key, some y => (Function.update s.1 y (argv key), s.2)
      | _, _ => s
    vector_fwd := fun _ xs _ s => (s.1, xs.map (fun x => x.map s.1)) }

/-! ## Further vocabulary for the compiled function -/

deriving instance Fintype for operation

/-- The identities of the nodes whose instruction is on the tape, in index
order. -/
def CompiledFunction.emitted_ids (cf : CompiledFunction) : List Nat :=
  cf.nodes.filterMap (fun n => n.map ExprNode.id)

/-- The operators whose `visit` overload passes one fixed opcode on, whatever
the dimensions: all but add, subtract and multiply. -/
inductive Operator where
  | binary (tag : BinaryTag)
  | unary (tag : UnaryTag)
  deriving DecidableEq, Repr

/-- The operators other than add, subtract and multiply. -/
def Operator.dimension_free : Operator → Bool
  | .binary .ExprAdd => false
  | .binary .ExprSub => false
  | .binary .ExprMul => false
  | _ => true

/-- The opcode that the compiler stores for an operator applied at the
dimensions `dim` (own), `left` and `right`. -/
def Operator.opcode (dim left right : Dim) : Operator → operation
  | .binary tag => visit_binary tag dim left right
  | .unary tag => visit_unary tag

/-- The operator of a binary or unary node. -/
def ExprNode.operator : ExprNode → Option Operator
  | .ExprBinaryOp tag _ _ _ => some (.binary tag)
  | .ExprUnaryOp tag _ _ => some (.unary tag)
  | _ => none

/-- Every backward callback of `algo` leaves the observation `obs` of the state
(the label store, say) as it found it. -/
structure BwdAlgorithm.Preserves {σ L : Type} (algo : BwdAlgorithm σ) (obs : σ → L) : Prop where
  index_bwd : ∀ n x y s, obs (algo.index_bwd n x y s) = obs s
  vector_bwd : ∀ n x y s, obs (algo.vector_bwd n x y s) = obs s
  symbol_bwd : ∀ n y s, obs (algo.symbol_bwd n y s) = obs s
  cst_bwd : ∀ n y s, obs (algo.cst_bwd n y s) = obs s
  apply_bwd : ∀ n x y s, obs (algo.apply_bwd n x y s) = obs s
  add_bwd : ∀ n x1 x2 y s, obs (algo.add_bwd n x1 x2 y s) = obs s
  add_V_bwd : ∀ n x1 x2 y s, obs (algo.add_V_bwd n x1 x2 y s) = obs s
  add_M_bwd : ∀ n x1 x2 y s, obs (algo.add_M_bwd n x1 x2 y s) = obs s
  mul_bwd : ∀ n x1 x2 y s, obs (algo.mul_bwd n x1 x2 y s) = obs s
  mul_SV_bwd : ∀ n x1 x2 y s, obs (algo.mul_SV_bwd n x1 x2 y s) = obs s
  mul_SM_bwd : ∀ n x1 x2 y s, obs (algo.mul_SM_bwd n x1 x2 y s) = obs s
  mul_VV_bwd : ∀ n x1 x2 y s, obs (algo.mul_VV_bwd n x1 x2 y s) = obs s
  mul_MV_bwd : ∀ n x1 x2 y s, obs (algo.mul_MV_bwd n x1 x2 y s) = obs s
  mul_MM_bwd : ∀ n x1 x2 y s, obs (algo.mul_MM_bwd n x1 x2 y s) = obs s
  sub_bwd : ∀ n x1 x2 y s, obs (algo.sub_bwd n x1 x2 y s) = obs s
  sub_V_bwd : ∀ n x1 x2 y s, obs (algo.sub_V_bwd n x1 x2 y s) = obs s
  sub_M_bwd : ∀ n x1 x2 y s, obs (algo.sub_M_bwd n x1 x2 y s) = obs s
  div_bwd : ∀ n x1 x2 y s, obs (algo.div_bwd n x1 x2 y s) = obs s
  max_bwd : ∀ n x1 x2 y s, obs (algo.max_bwd n x1 x2 y s) = obs s
  min_bwd : ∀ n x1 x2 y s, obs (algo.min_bwd n x1 x2 y s) = obs s
  atan2_bwd : ∀ n x1 x2 y s, obs (algo.atan2_bwd n x1 x2 y s) = obs s
  minus_bwd : ∀ n x y s, obs (algo.minus_bwd n x y s) = obs s
  sign_bwd : ∀ n x y s, obs (algo.sign_bwd n x y s) = obs s
  abs_bwd : ∀ n x y s, obs (algo.abs_bwd n x y s) = obs s
  power_bwd : ∀ n x y s, obs (algo.power_bwd n x y s) = obs s
  sqr_bwd : ∀ n x y s, obs (algo.sqr_bwd n x y s) = obs s
  sqrt_bwd : ∀ n x y s, obs (algo.sqrt_bwd n x y s) = obs s
  exp_bwd : ∀ n x y s, obs (algo.exp_bwd n x y s) = obs s
  log_bwd : ∀ n x y s, obs (algo.log_bwd n x y s) = obs s
  cos_bwd : ∀ n x y s, obs (algo.cos_bwd n x y s) = obs s
  sin_bwd : ∀ n x y s, obs (algo.sin_bwd n x y s) = obs s
  tan_bwd : ∀ n x y s, obs (algo.tan_bwd n x y s) = obs s
  cosh_bwd : ∀ n x y s, obs (algo.cosh_bwd n x y s) = obs s
  sinh_bwd : ∀ n x y s, obs (algo.sinh_bwd n x y s) = obs s
  tanh_bwd : ∀ n x y s, obs (algo.tanh_bwd n x y s) = obs s
  acos_bwd : ∀ n x y s, obs (algo.acos_bwd n x y s) = obs s
  asin_bwd : ∀ n x y s, obs (algo.asin_bwd n x y s) = obs s
  atan_bwd : ∀ n x y s, obs (algo.atan_bwd n x y s) = obs s
  acosh_bwd : ∀ n x y s, obs (algo.acosh_bwd n x y s) = obs s
  asinh_bwd : ∀ n x y s, obs (algo.asinh_bwd n x y s) = obs s
  atanh_bwd : ∀ n x y s, obs (algo.atanh_bwd n x y s) = obs s

/-- The operands that a callback is handed: label references one by one
(`labels`), the pointer `&(args[i][1])` to the slot array from position 1 on
(`slots_from`), or the label pointer `args[i][1]` itself, cast to `T**`
(`slot_value`). -/
inductive Operands where
  | labels (xs : List (Option Slot))
  | slots_from (xs : List (Option Slot))
  | slot_value (x : Option Slot)
  deriving DecidableEq, Repr

/-- Everything that one callback invocation is handed: the callback (named by
the opcode family), the node, the operands and the result label. -/
structure Handed where
  callback : operation
  node : ExprNode
  operands : Operands
  result : Option Slot

/-- The forward algorithm that records what each callback is handed. -/
def FwdAlgorithm.record : FwdAlgorithm (List Handed) where
  index_fwd := fun n x y s => s ++ [⟨.IDX, n, .labels [x], y⟩]
  vector_fwd := fun n xs y s => s ++ [⟨.VEC, n, .slots_from xs, y⟩]
  symbol_fwd := fun n y s => s ++ [⟨.SYM, n, .labels [], y⟩]
  cst_fwd := fun n y s => s ++ [⟨.CST, n, .labels [], y⟩]
  apply_fwd := fun n xs y s => s ++ [⟨.APPLY, n, .slots_from xs, y⟩]
  add_fwd := fun n x1 x2 y s => s ++ [⟨.ADD, n, .labels [x1, x2], y⟩]
  add_V_fwd := fun n x1 x2 y s => s ++ [⟨.ADD_V, n, .labels [x1, x2], y⟩]
  add_M_fwd := fun n x1 x2 y s => s ++ [⟨.ADD_M, n, .labels [x1, x2], y⟩]
  mul_fwd := fun n x1 x2 y s => s ++ [⟨.MUL, n, .labels [x1, x2], y⟩]
  mul_SV_fwd := fun n x1 x2 y s => s ++ [⟨.MUL_SV, n, .labels [x1, x2], y⟩]
  mul_SM_fwd := fun n x1 x2 y s => s ++ [⟨.MUL_SM, n, .labels [x1, x2], y⟩]
  mul_VV_fwd := fun n x1 x2 y s => s ++ [⟨.MUL_VV, n, .labels [x1, x2], y⟩]
  mul_MV_fwd := fun n x1 x2 y s => s ++ [⟨.MUL_MV, n, .labels [x1, x2], y⟩]
  mul_MM_fwd := fun n x1 x2 y s => s ++ [⟨.MUL_MM, n, .labels [x1, x2], y⟩]
  sub_fwd := fun n x1 x2 y s => s ++ [⟨.SUB, n, .labels [x1, x2], y⟩]
  sub_V_fwd := fun n x1 x2 y s => s ++ [⟨.SUB_V, n, .labels [x1, x2], y⟩]
  sub_M_fwd := fun n x1 x2 y s => s ++ [⟨.SUB_M, n, .labels [x1, x2], y⟩]
  div_fwd := fun n x1 x2 y s => s ++ [⟨.DIV, n, .labels [x1, x2], y⟩]
  max_fwd := fun n x1 x2 y s => s ++ [⟨.MAX, n, .labels [x1, x2], y⟩]
  min_fwd := fun n x1 x2 y s => s ++ [⟨.MIN, n, .labels [x1, x2], y⟩]
  atan2_fwd := fun n x1 x2 y s => s ++ [⟨.ATAN2, n, .labels [x1, x2], y⟩]
  minus_fwd := fun n x y s => s ++ [⟨.MINUS, n, .labels [x], y⟩]
  sign_fwd := fun n x y s => s ++ [⟨.SIGN, n, .labels [x], y⟩]
  abs_fwd := fun n x y s => s ++ [⟨.ABS, n, .labels [x], y⟩]
  power_fwd := fun n x y s => s ++ [⟨.POWER, n, .labels [x], y⟩]
  sqr_fwd := fun n x y s => s ++ [⟨.SQR, n, .labels [x], y⟩]
  sqrt_fwd := fun n x y s => s ++ [⟨.SQRT, n, .labels [x], y⟩]
  exp_fwd := fun n x y s => s ++ [⟨.EXP, n, .labels [x], y⟩]
  log_fwd := fun n x y s => s ++ [⟨.LOG, n, .labels [x], y⟩]
  cos_fwd := fun n x y s => s ++ [⟨.COS, n, .labels [x], y⟩]
  sin_fwd := fun n x y s => s ++ [⟨.SIN, n, .labels [x], y⟩]
  tan_fwd := fun n x y s => s ++ [⟨.TAN, n, .labels [x], y⟩]
  cosh_fwd := fun n x y s => s ++ [⟨.COSH, n, .labels [x], y⟩]
  sinh_fwd := fun n x y s => s ++ [⟨.SINH, n, .labels [x], y⟩]
  tanh_fwd := fun n x y s => s ++ [⟨.TANH, n, .labels [x], y⟩]
  acos_fwd := fun n x y s => s ++ [⟨.ACOS, n, .labels [x], y⟩]
  asin_fwd := fun n x y s => s ++ [⟨.ASIN, n, .labels [x], y⟩]
  atan_fwd := fun n x y s => s ++ [⟨.ATAN, n, .labels [x], y⟩]
  acosh_fwd := fun n x y s => s ++ [⟨.ACOSH, n, .labels [x], y⟩]
  asinh_fwd := fun n x y s => s ++ [⟨.ASINH, n, .labels [x], y⟩]
  atanh_fwd := fun n x y s => s ++ [⟨.ATANH, n, .labels [x], y⟩]

/-- The backward algorithm that records what each callback is handed. -/
def BwdAlgorithm.record : BwdAlgorithm (List Handed) where
  index_bwd := fun n x y s => s ++ [⟨.IDX, n, .labels [x], y⟩]
  vector_bwd := fun n xs y s => s ++ [⟨.VEC, n, .slot_value xs, y⟩]
  symbol_bwd := fun n y s => s ++ [⟨.SYM, n, .labels [], y⟩]
  cst_bwd := fun n y s => s ++ [⟨.CST, n, .labels [], y⟩]
  apply_bwd := fun n xs y s => s ++ [⟨.APPLY, n, .slot_value xs, y⟩]
  add_bwd := fun n x1 x2 y s => s ++ [⟨.ADD, n, .labels [x1, x2], y⟩]
  add_V_bwd := fun n x1 x2 y s => s ++ [⟨.ADD_V, n, .labels [x1, x2], y⟩]
  add_M_bwd := fun n x1 x2 y s => s ++ [⟨.ADD_M, n, .labels [x1, x2], y⟩]
  mul_bwd := fun n x1 x2 y s => s ++ [⟨.MUL, n, .labels [x1, x2], y⟩]
  mul_SV_bwd := fun n x1 x2 y s => s ++ [⟨.MUL_SV, n, .labels [x1, x2], y⟩]
  mul_SM_bwd := fun n x1 x2 y s => s ++ [⟨.MUL_SM, n, .labels [x1, x2], y⟩]
  mul_VV_bwd := fun n x1 x2 y s => s ++ [⟨.MUL_VV, n, .labels [x1, x2], y⟩]
  mul_MV_bwd := fun n x1 x2 y s => s ++ [⟨.MUL_MV, n, .labels [x1, x2], y⟩]
  mul_MM_bwd := fun n x1 x2 y s => s ++ [⟨.MUL_MM, n, .labels [x1, x2], y⟩]
  sub_bwd := fun n x1 x2 y s => s ++ [⟨.SUB, n, .labels [x1, x2], y⟩]
  sub_V_bwd := fun n x1 x2 y s => s ++ [⟨.SUB_V, n, .labels [x1, x2], y⟩]
  sub_M_bwd := fun n x1 x2 y s => s ++ [⟨.SUB_M, n, .labels [x1, x2], y⟩]
  div_bwd := fun n x1 x2 y s => s ++ [⟨.DIV, n, .labels [x1, x2], y⟩]
  max_bwd := fun n x1 x2 y s => s ++ [⟨.MAX, n, .labels [x1, x2], y⟩]
  min_bwd := fun n x1 x2 y s => s ++ [⟨.MIN, n, .labels [x1, x2], y⟩]
  atan2_bwd := fun n x1 x2 y s => s ++ [⟨.ATAN2, n, .labels [x1, x2], y⟩]
  minus_bwd := fun n x y s => s ++ [⟨.MINUS, n, .labels [x], y⟩]
  sign_bwd := fun n x y s => s ++ [⟨.SIGN, n, .labels [x], y⟩]
  abs_bwd := fun n x y s => s ++ [⟨.ABS, n, .labels [x], y⟩]
  power_bwd := fun n x y s => s ++ [⟨.POWER, n, .labels [x], y⟩]
  sqr_bwd := fun n x y s => s ++ [⟨.SQR, n, .labels [x], y⟩]
  sqrt_bwd := fun n x y s => s ++ [⟨.SQRT, n, .labels [x], y⟩]
  exp_bwd := fun n x y s => s ++ [⟨.EXP, n, .labels [x], y⟩]
  log_bwd := fun n x y s => s ++ [⟨.LOG, n, .labels [x], y⟩]
  cos_bwd := fun n x y s => s ++ [⟨.COS, n, .labels [x], y⟩]
  sin_bwd := fun n x y s => s ++ [⟨.SIN, n, .labels [x], y⟩]
  tan_bwd := fun n x y s => s ++ [⟨.TAN, n, .labels [x], y⟩]
  cosh_bwd := fun n x y s => s ++ [⟨.COSH, n, .labels [x], y⟩]
  sinh_bwd := fun n x y s => s ++ [⟨.SINH, n, .labels [x], y⟩]
  tanh_bwd := fun n x y s => s ++ [⟨.TANH, n, .labels [x], y⟩]
  acos_bwd := fun n x y s => s ++ [⟨.ACOS, n, .labels [x], y⟩]
  asin_bwd := fun n x y s => s ++ [⟨.ASIN, n, .labels [x], y⟩]
  atan_bwd := fun n x y s => s ++ [⟨.ATAN, n, .labels [x], y⟩]
  acosh_bwd := fun n x y s => s ++ [⟨.ACOSH, n, .labels [x], y⟩]
  asinh_bwd := fun n x y s => s ++ [⟨.ASINH, n, .labels [x], y⟩]
  atanh_bwd := fun n x y s => s ++ [⟨.ATANH, n, .labels [x], y⟩]


deriving instance Fintype for BinaryTag

deriving instance Fintype for UnaryTag

deriving instance Fintype for Operator

/-- The expression `sqrt(max(x / y, -x))` over scalar symbols: operators whose
opcode is fixed. -/
def sample_ops : ExprNode :=
  .ExprUnaryOp .ExprSqrt ⟨6, .scalar, 306, 7⟩
    (.ExprBinaryOp .ExprMax ⟨5, .scalar, 305, 6⟩
      (.ExprBinaryOp .ExprDiv ⟨3, .scalar, 303, 3⟩ (sample_x 300) (sample_y 301))
      (.ExprUnaryOp .ExprMinus ⟨4, .scalar, 304, 2⟩ (sample_x 300)))

/-! ## Functions (`ibex_Function.cpp`)

A call on a function returns the function object as the call leaves it,
together with what the call returned or how it ended.  Assertions are taken
as enabled.  Nodes are values: the pointers kept in `root`, `order2info`,
`id2info` and `exprnodes` are represented by the nodes they point to. -/

/-- The null pointer. -/
def NULL : Slot := 0

/-- How a call can end other than by returning: the exception thrown by
`add_symbol`, a failed `assert`, or an access outside the bounds of a vector
(which has no defined result). -/
inductive Failure where
  | NonRecoverableException (msg : String)
  | assertion (condition : String)
  | out_of_range
  deriving DecidableEq, Repr

/-- An object of class `ExprSymbol`: the base-class fields, the name and the
key (the declaration index). -/
structure ExprSymbol where
  h : ExprHeader
  name : String
  key : Nat
  deriving DecidableEq, Repr

/-- The symbol seen as an expression node. -/
def ExprSymbol.node (s : ExprSymbol) : ExprNode := .ExprSymbol s.h s.name s.key

/-- Modelled from the spec: the class `SymbolMap` of `id2info` (declared in an
absent header): a table with "name lookup by string", here the list of the
entries in insertion order. -/
abbrev SymbolMap := List (String × ExprSymbol)

/-- Modelled from the spec: `SymbolMap::used(id)`, whether the name has an
entry. -/
def SymbolMap.used (m : SymbolMap) (id : String) : Bool :=
  m.any (fun p => p.1 == id)

/-- Modelled from the spec: `SymbolMap::insert_new(id, sbl)`. -/
def SymbolMap.insert_new (m : SymbolMap) (id : String) (sbl : ExprSymbol) : SymbolMap :=
  m ++ [(id, sbl)]

/-- The fields of class `Function` that `ibex_Function.cpp` reads or writes.
The member `cf` (the compiled form) belongs to the state on which the
parameters of `decorate` act. -/
structure Function where
  name : String
  root : Option ExprNode
  key_count : Nat
  id2info : SymbolMap
  order2info : List ExprSymbol
  is_used : List Bool
  exprnodes : List ExprNode

namespace Function

/-- The constructor `Function::Function(const char* name)`; the constructor
without argument is `Function.new_ "anonymous"`. -/
def new_ (name : String) : Function :=
  { name := name, root := none, key_count := 0, id2info := [], order2info := [],
    is_used := [], exprnodes := [] }

/-- The method `Function::nb_nodes`. -/
def nb_nodes (f : Function) : Nat := f.exprnodes.length

/-- The method `Function::add_node`. -/
def add_node (f : Function) (expr : ExprNode) : Function :=
  { f with exprnodes := f.exprnodes ++ [expr] }

end Function

/-- Modelled from the spec: `ExprSymbol::new_(f, name, dim, key)` (defined in the
absent `ibex_Expr.cpp`): "constructing a node yields a stable id
(monotonically assigned within the owning Function, starting at 0) and a fixed
dim"; the symbol carries "its declaration index", is registered with the
function through `add_node`, has no label yet and counts for one visit. -/
def ExprSymbol.new_ (f : Function) (name : String) (dim : Dim) (key : Nat) :
    Function × ExprSymbol :=
  let sbl : ExprSymbol := { h := ⟨f.nb_nodes, dim, NULL, 1⟩, name := name, key := key }
  (f.add_node sbl.node, sbl)

namespace Function

/-- The method `Function::add_symbol(const char* id, const Dim& dim)`. -/
def add_symbol (f : Function) (id : String) (dim : Dim) : Function × Except Failure ExprSymbol :=
  if f.id2info.used id then
    (f, .error (.NonRecoverableException ("Redeclared symbol \"" ++ id ++ "\"")))
  else
    let num := f.key_count
    let (f1, sbl) := ExprSymbol.new_ f id dim num
    let f2 := { f1 with id2info := f1.id2info.insert_new id sbl }
    let f3 := { f2 with key_count := f2.key_count + 1 }
    let f4 := { f3 with order2info := f3.order2info ++ [sbl] }
    let f5 := { f4 with is_used := f4.is_used ++ [false] }
    (f5, .ok sbl)

/-- The method `Function::symbol_name(int i)`; `none` when `i` is outside
`order2info`. -/
def symbol_name (f : Function) (i : Nat) : Option String :=
  f.order2info[i]?.map (fun sbl => sbl.name)

end Function

namespace FindSymbolsUsed

mutual
/-- The visitor `FindSymbolsUsed`: `keys` is its member of that name, and every
symbol met appends its key.  A node of a binary, unary or n-ary class is taken
to reach the `visit` overload of its base class. -/
def visit : ExprNode → List Nat → List Nat
  | .ExprIndex _ e _, keys => visit e keys
  | .ExprSymbol _ _ key, keys => keys ++ [key]
  | .ExprConstant _ _, keys => keys
  | .ExprNAryOp _ _ as, keys => visit_args as keys
  | .ExprBinaryOp _ _ l r, keys => visit r (visit l keys)
  | .ExprUnaryOp _ _ e, keys => visit e keys
/-- The loop `for (i=0; i<e.nb_args; i++) visit(*e.args[i])`. -/
def visit_args : List ExprNode → List Nat → List Nat
  | [], keys => keys
  | a :: as, keys => visit_args as (visit a keys)
end

/-- The member `keys` after the constructor `FindSymbolsUsed(e)`. -/
def keys (e : ExprNode) : List Nat := visit e []

end FindSymbolsUsed

namespace Function

/-- The loop of `set_expr` over `fsu.keys`: `is_used[*it] = true`. -/
def mark_used : List Bool → List Nat → List Bool × Except Failure Unit
  | is_used, [] => (is_used, .ok ())
  | is_used, k :: ks =>
    if k < is_used.length then mark_used (is_used.set k true) ks
    else (is_used, .error .out_of_range)

/-- The method `Function::set_expr`. -/
def set_expr (f : Function) (expr : ExprNode) : Function × Except Failure Unit :=
  match f.root with
  | some _ => (f, .error (.assertion "root==NULL"))
  | none =>
    let f1 := { f with root := some expr }
    let r := mark_used f1.is_used (FindSymbolsUsed.keys expr)
    ({ f1 with is_used := r.1 }, r.2)

/-- The method `Function::decorate(const Decorator& d)`.  The decorator and the
member `cf` are not among the sources: `d` stands for `d.decorate(*this)` and
`cf_compile` for `cf.compile(*this)`, both acting on the function and on the
rest of the state `σ` (the labels, `cf`). -/
def decorate {σ : Type} (d : Function × σ → Function × σ)
    (cf_compile : Function × σ → Function × σ) (f : Function) (s : σ) :
    (Function × σ) × Except Failure Unit :=
  match f.root with
  | none => ((f, s), .error (.assertion "root!=NULL"))
  | some root =>
    if root.deco ≠ NULL then ((f, s), .ok ())
    else (cf_compile (d (f, s)), .ok ())

end Function

/-- One call on a function object. -/
inductive FunctionCall where
  | add_symbol (id : String) (dim : Dim)
  | set_expr (expr : ExprNode)

/-- The function object and the outcome of one call. -/
def Function.call (f : Function) : FunctionCall → Function × Except Failure Unit
  | .add_symbol id dim => ((f.add_symbol id dim).1, (f.add_symbol id dim).2.map (fun _ => ()))
  | .set_expr expr => f.set_expr expr

/-- The function object after a sequence of calls.  The caller catches the
exception of a redeclaration and goes on; a failed assertion or an access out
of range ends the program, and there is no later state. -/
def Function.run (f : Function) : List FunctionCall → Option Function
  | [] => some f
  | c :: cs =>
    match f.call c with
    | (f1, .ok _) => Function.run f1 cs
    | (f1, .error (.NonRecoverableException _)) => Function.run f1 cs
    | (_, .error _) => none

/-- Which step of `decorate` ran. -/
inductive DecorateStep where
  | decorator
  | compile
  deriving DecidableEq, Repr

/-- A step of `decorate` made to append its name to a log when it runs. -/
def logged {σ : Type} (step : DecorateStep) (g : Function × σ → Function × σ) :
    Function × (σ × List DecorateStep) → Function × (σ × List DecorateStep) :=
  fun p => ((g (p.1, p.2.1)).1, ((g (p.1, p.2.1)).2, p.2.2 ++ [step]))

/-- What holds of a function object between calls: the name table and the
declaration-order list name the same symbols in the same order, `key_count`
and the two lists agree in length, the symbol at position `k` has key `k`, and
no flag is set as long as no root is. -/
structure Function.Inv (f : Function) : Prop where
  names : f.id2info.map Prod.fst = f.order2info.map (fun s => s.name)
  count : f.key_count = f.order2info.length
  flags : f.is_used.length = f.order2info.length
  keys : ∀ (k : Nat) (sbl : ExprSymbol), f.order2info[k]? = some sbl → sbl.key = k
  unused : f.root = none → ∀ b, b ∈ f.is_used → b = false

/-- The key of a symbol node. -/
def own_key : ExprNode → Option Nat
  | .ExprSymbol _ _ key => some key
  | _ => none

/-- The function `f` after `add_symbol("x")`, `add_symbol("y")` and
`add_symbol("z")`, all scalar, and before `set_expr`. -/
def sample_declared : Function where
  name := "f"
  root := none
  key_count := 3
  id2info := [("x", ⟨⟨0, .scalar, NULL, 1⟩, "x", 0⟩), ("y", ⟨⟨1, .scalar, NULL, 1⟩, "y", 1⟩),
    ("z", ⟨⟨2, .scalar, NULL, 1⟩, "z", 2⟩)]
  order2info := [⟨⟨0, .scalar, NULL, 1⟩, "x", 0⟩, ⟨⟨1, .scalar, NULL, 1⟩, "y", 1⟩,
    ⟨⟨2, .scalar, NULL, 1⟩, "z", 2⟩]
  is_used := [false, false, false]
  exprnodes := [.ExprSymbol ⟨0, .scalar, NULL, 1⟩ "x" 0, .ExprSymbol ⟨1, .scalar, NULL, 1⟩ "y" 1,
    .ExprSymbol ⟨2, .scalar, NULL, 1⟩ "z" 2]

/-- The calls that build `sample_declared`. -/
def sample_calls : List FunctionCall :=
  [.add_symbol "x" .scalar, .add_symbol "y" .scalar, .add_symbol "z" .scalar]

/-- The function `f(x,y,z) = x + y*y` once decorated: the root carries the label
at address 103. -/
def sample_decorated : Function :=
  { sample_declared with root := some (sample_f 100 101 102 103), is_used := [true, true, false] }

/-! ## Further vocabulary: multiply shapes, declarations -/

/-- Modelled from the spec: whether a dimension is "matrix(r,c)". -/
def Dim.is_matrix : Dim → Bool
  | .matrix _ _ => true
  | _ => false

/-- The product `v * m` of a vector of 2 by a 2x2 matrix. -/
def sample_vm : ExprNode :=
  .ExprBinaryOp .ExprMul ⟨2, .vector 2, 402, 3⟩
    (.ExprSymbol ⟨0, .vector 2, 400, 1⟩ "v" 0)
    (.ExprSymbol ⟨1, .matrix 2 2, 401, 1⟩ "m" 1)

/-- The product `m * s` of a 2x2 matrix by a scalar. -/
def sample_ms : ExprNode :=
  .ExprBinaryOp .ExprMul ⟨2, .matrix 2 2, 412, 3⟩
    (.ExprSymbol ⟨0, .matrix 2 2, 410, 1⟩ "m" 0)
    (.ExprSymbol ⟨1, .scalar, 411, 1⟩ "s" 1)

/-- The symbols that the calls of `add_symbol` in a sequence of calls returned,
in call order: one per declaration that succeeded. -/
def Function.returned (f : Function) : List FunctionCall → List ExprSymbol
  | [] => []
  | .add_symbol id dim :: cs =>
    match (f.add_symbol id dim).2 with
    | .ok sbl => sbl :: Function.returned (f.add_symbol id dim).1 cs
    | .error _ => Function.returned (f.add_symbol id dim).1 cs
  | .set_expr expr :: cs => Function.returned (f.set_expr expr).1 cs

/-- A sequence of calls with a redeclaration and a `set_expr` in it. -/
def sample_calls_mixed : List FunctionCall :=
  [.add_symbol "x" .scalar, .add_symbol "y" .scalar, .add_symbol "x" (.vector 3),
   .set_expr (sample_f NULL NULL NULL NULL), .add_symbol "z" .scalar]

/-- The function object after `sample_calls_mixed`. -/
def sample_after_mixed : Function :=
  { sample_declared with root := some (sample_f NULL NULL NULL NULL),
                         is_used := [true, true, false] }

/-! ## Combined linear relaxation (`ibex_LinearRelaxCombo.cpp`)

The two sub-relaxations (`LinearRelaxAffine2`, `LinearRelaxXTaylor`) are
classes that are not among the sources: their constructors and their three
methods are parameters.  A method acts on the LP solver it is handed by
reference; `σ` is the state of that solver (and of whatever else a
sub-relaxation can reach), `B` the type of the box. -/

/-- The enumeration `LinearRelaxCombo::linear_mode`. -/
inductive linear_mode where
  | ART | AFFINE2 | XNEWTON | TAYLOR | HANSEN | COMPO
  deriving DecidableEq, Repr

deriving instance Fintype for linear_mode

/-- The values of `LinearRelaxXTaylor::corner_point` that the constructor uses. -/
inductive corner_point where
  | RANDOM | RANDOM_INV
  deriving DecidableEq, Repr

/-- The values of `LinearRelaxXTaylor::linear_mode` that the constructor uses. -/
inductive xtaylor_mode where
  | TAYLOR | HANSEN
  deriving DecidableEq, Repr

/-- How a method of the combined relaxation can end other than by returning:
a call through a null pointer, or an `int` addition that leaves the range of
`int` (neither has a defined result). -/
inductive RelaxFailure where
  | null_pointer
  | int_overflow
  deriving DecidableEq, Repr

/-- The interface `LinearRelax` as the combined relaxation uses it: the three
virtual methods, each taking the box and acting on the LP solver. -/
structure LinearRelax (B σ : Type) where
  linearization : B → σ → Int × σ
  inlinearization : B → σ → Int × σ
  goal_linearization : B → σ → Bool × σ

/-- The parts of the absent classes that the constructor of the combined
relaxation uses: the two constructors and the constant
`LinearRelaxXTaylor::default_max_diam_deriv`. -/
structure SubRelaxations (Sys D B σ : Type) where
  LinearRelaxAffine2 : Sys → LinearRelax B σ
  LinearRelaxXTaylor : Sys → List corner_point → xtaylor_mode → D → LinearRelax B σ
  default_max_diam_deriv : D

/-- The members of `LinearRelaxCombo`: the mode, the two pointers (`none` is
`NULL`) and the corner points. -/
structure LinearRelaxCombo (B σ : Type) where
  lmode : linear_mode
  myart : Option (LinearRelax B σ)
  myxnewton : Option (LinearRelax B σ)
  cpoints : List corner_point

/-- The least value of `int` (32 bits). -/
def INT_MIN : Int := -2147483648

/-- The greatest value of `int` (32 bits). -/
def INT_MAX : Int := 2147483647

/-- The addition `a + b` of two `int`. -/
def int_add (a b : Int) : Except RelaxFailure Int :=
  if INT_MIN ≤ a + b ∧ a + b ≤ INT_MAX then .ok (a + b) else .error .int_overflow

/-- The use `p->...` of a pointer. -/
def deref {α : Type} (p : Option α) : Except RelaxFailure α :=
  match p with
  | some a => .ok a
  | none => .error .null_pointer

namespace LinearRelaxCombo

/-- The constructor `LinearRelaxCombo(sys1, lmode1)`. -/
def new_ {Sys D B σ : Type} (sub : SubRelaxations Sys D B σ) (sys1 : Sys)
    (lmode1 : linear_mode) : LinearRelaxCombo B σ :=
  let c : LinearRelaxCombo B σ :=
    { lmode := lmode1, myart := none, myxnewton := none, cpoints := [] }
  match lmode1 with
  | .ART => { c with myart := some (sub.LinearRelaxAffine2 sys1) }
  | .AFFINE2 => { c with myart := some (sub.LinearRelaxAffine2 sys1) }
  | .XNEWTON =>
    let cpoints := (c.cpoints ++ [.RANDOM]) ++ [.RANDOM_INV]
    { c with cpoints := cpoints,
             myxnewton := some (sub.LinearRelaxXTaylor sys1 cpoints .HANSEN
               sub.default_max_diam_deriv) }
  | .TAYLOR =>
    let cpoints := (c.cpoints ++ [.RANDOM]) ++ [.RANDOM_INV]
    { c with cpoints := cpoints,
             myxnewton := some (sub.LinearRelaxXTaylor sys1 cpoints .TAYLOR
               sub.default_max_diam_deriv) }
  | .HANSEN =>
    let cpoints := (c.cpoints ++ [.RANDOM]) ++ [.RANDOM_INV]
    { c with cpoints := cpoints,
             myxnewton := some (sub.LinearRelaxXTaylor sys1 cpoints .HANSEN
               sub.default_max_diam_deriv) }
  | .COMPO =>
    let c1 := { c with myart := some (sub.LinearRelaxAffine2 sys1) }
    let cpoints := (c1.cpoints ++ [.RANDOM]) ++ [.RANDOM_INV]
    { c1 with cpoints := cpoints,
              myxnewton := some (sub.LinearRelaxXTaylor sys1 cpoints .HANSEN
                sub.default_max_diam_deriv) }

/-- The method `LinearRelaxCombo::inlinearization`. -/
def inlinearization {B σ : Type} (c : LinearRelaxCombo B σ) (box : B) (lp_solver : σ) :
    Except RelaxFailure (Int × σ) :=
  match c.lmode with
  | .ART | .AFFINE2 => do
    let art ← deref c.myart
    pure (art.inlinearization box lp_solver)
  | .XNEWTON | .TAYLOR | .HANSEN => do
    let xnewton ← deref c.myxnewton
    pure (xnewton.inlinearization box lp_solver)
  | .COMPO => do
    let xnewton ← deref c.myxnewton
    let cont := xnewton.inlinearization box lp_solver
    if cont.1 < 0 then do
      let art ← deref c.myart
      pure (art.inlinearization box cont.2)
    else
      pure cont

/-- The method `LinearRelaxCombo::goal_linearization`. -/
def goal_linearization {B σ : Type} (c : LinearRelaxCombo B σ) (box : B) (lp_solver : σ) :
    Except RelaxFailure (Bool × σ) :=
  match c.lmode with
  | .ART | .AFFINE2 => do
    let art ← deref c.myart
    pure (art.goal_linearization box lp_solver)
  | .XNEWTON | .TAYLOR | .HANSEN => do
    let xnewton ← deref c.myxnewton
    pure (xnewton.goal_linearization box lp_solver)
  | .COMPO => do
    let xnewton ← deref c.myxnewton
    let cont := xnewton.goal_linearization box lp_solver
    if !cont.1 then do
      let art ← deref c.myart
      pure (art.goal_linearization box cont.2)
    else
      pure cont

/-- The method `LinearRelaxCombo::linearization`. -/
def linearization {B σ : Type} (c : LinearRelaxCombo B σ) (box : B) (lp_solver : σ) :
    Except RelaxFailure (Int × σ) :=
  match c.lmode with
  | .ART | .AFFINE2 => do
    let art ← deref c.myart
    pure (art.linearization box lp_solver)
  | .XNEWTON | .TAYLOR | .HANSEN => do
    let xnewton ← deref c.myxnewton
    pure (xnewton.linearization box lp_solver)
  | .COMPO => do
    let xnewton ← deref c.myxnewton
    let cont := xnewton.linearization box lp_solver
    let art ← deref c.myart
    let more := art.linearization box cont.2
    let sum ← int_add cont.1 more.1
    pure (sum, more.2)

end LinearRelaxCombo

/-- The two sub-relaxations. -/
inductive SubRelax where
  | Affine2 | XTaylor
  deriving DecidableEq, Repr

/-- A sub-relaxation made to append its name to a log each time one of its
methods is called. -/
def LinearRelax.logged {B σ : Type} (tag : SubRelax) (r : LinearRelax B σ) :
    LinearRelax B (σ × List SubRelax) where
  linearization := fun box s =>
    ((r.linearization box s.1).1, ((r.linearization box s.1).2, s.2 ++ [tag]))
  inlinearization := fun box s =>
    ((r.inlinearization box s.1).1, ((r.inlinearization box s.1).2, s.2 ++ [tag]))
  goal_linearization := fun box s =>
    ((r.goal_linearization box s.1).1, ((r.goal_linearization box s.1).2, s.2 ++ [tag]))

/-- The constructors of the sub-relaxations made to build logging objects. -/
def SubRelaxations.instrument {Sys D B σ : Type} (sub : SubRelaxations Sys D B σ) :
    SubRelaxations Sys D B (σ × List SubRelax) where
  LinearRelaxAffine2 := fun sys => (sub.LinearRelaxAffine2 sys).logged .Affine2
  LinearRelaxXTaylor := fun sys cpoints mode d =>
    (sub.LinearRelaxXTaylor sys cpoints mode d).logged .XTaylor
  default_max_diam_deriv := sub.default_max_diam_deriv

/-- The sub-relaxations that the constructor creates in a mode, in the words of
the specification: the Affine2 relaxation for ART, AFFINE2 and COMPO, the
XTaylor relaxation for XNEWTON, TAYLOR, HANSEN and COMPO. -/
def created_for : linear_mode → List SubRelax
  | .ART => [.Affine2]
  | .AFFINE2 => [.Affine2]
  | .XNEWTON => [.XTaylor]
  | .TAYLOR => [.XTaylor]
  | .HANSEN => [.XTaylor]
  | .COMPO => [.Affine2, .XTaylor]

/-- The mode of the XTaylor relaxation that the constructor asks for. -/
def xtaylor_mode_for : linear_mode → xtaylor_mode
  | .TAYLOR => .TAYLOR
  | _ => .HANSEN

/-- Sample sub-relaxations over an LP solver that is a list of constraint
counts: Affine2 adds `box` constraints and succeeds, XTaylor adds `box - 3` of
them and fails (returns a negative count, or false) when that is negative. -/
def sample_sub : SubRelaxations Unit Unit Int (List Int) where
  LinearRelaxAffine2 := fun _ =>
    { linearization := fun box lp => (box, lp ++ [box]),
      inlinearization := fun box lp => (box, lp ++ [box]),
      goal_linearization := fun box lp => (true, lp ++ [box]) }
  LinearRelaxXTaylor := fun _ _ _ _ =>
    { linearization := fun box lp => (box - 3, lp ++ [box - 3]),
      inlinearization := fun box lp => (box - 3, lp ++ [box - 3]),
      goal_linearization := fun box lp => (decide (0 ≤ box - 3), lp ++ [box - 3]) }
  default_max_diam_deriv := ()

/-- The Affine2 relaxation as the constructor of the combined relaxation
builds it. -/
def SubRelaxations.art {Sys D B σ : Type} (sub : SubRelaxations Sys D B σ) (sys : Sys) :
    LinearRelax B σ :=
  sub.LinearRelaxAffine2 sys

/-- The XTaylor relaxation as the constructor of the combined relaxation builds
it in a mode: on the corner points RANDOM and RANDOM_INV, with the default
maximal diameter. -/
def SubRelaxations.xnewton {Sys D B σ : Type} (sub : SubRelaxations Sys D B σ) (sys : Sys)
    (mode : linear_mode) : LinearRelax B σ :=
  sub.LinearRelaxXTaylor sys [.RANDOM, .RANDOM_INV] (xtaylor_mode_for mode)
    sub.default_max_diam_deriv

/-! ## Arrays -/

theorem overwrite_nil {α : Type} (a : List α) (p : Nat) : overwrite a p [] = a := by
  simp [overwrite]

theorem overwrite_length {α : Type} (a b : List α) (p : Nat) (h : p + b.length ≤ a.length) :
    (overwrite a p b).length = a.length := by
  simp [overwrite]; omega

theorem set_eq_overwrite {α : Type} (a : List α) (p : Nat) (v : α) (h : p < a.length) :
    a.set p v = overwrite a p [v] := by
  induction a generalizing p with
  | nil => simp at h
  | cons x xs ih =>
    cases p with
    | zero => simp [overwrite]
    | succ p =>
      have := ih p (by simpa using h)
      simp [overwrite] at this ⊢
      exact this

theorem overwrite_overwrite {α : Type} (a b c : List α) (p : Nat) (h : p + b.length ≤ a.length) :
    overwrite (overwrite a p b) (p + b.length) c = overwrite a p (b ++ c) := by
  unfold overwrite
  have h1 : (a.take p).length = p := by simp; omega
  have e1 : List.take (p + b.length) (List.take p a ++ b ++ List.drop (p + b.length) a)
      = List.take p a ++ b := by
    rw [List.take_append_eq_append_take]
    simp [h1]
  have e2 : List.drop (p + b.length + c.length) (List.take p a ++ b ++ List.drop (p + b.length) a)
      = List.drop (p + b.length + c.length) a := by
    rw [List.drop_append_eq_append_drop]
    have : List.drop (p + b.length + c.length) (List.take p a ++ b) = [] := by
      apply List.drop_eq_nil_of_le; simp [h1]
    rw [this]
    simp [h1]
  rw [e1, e2]
  simp [Nat.add_assoc]

/-! ## Induction over expressions -/

mutual
theorem ExprNode.induction_children (P : ExprNode → Prop)
    (step : ∀ e : ExprNode, (∀ c, c ∈ e.children → P c) → P e) : ∀ e, P e
  | .ExprIndex h e index =>
      step (.ExprIndex h e index) (fun c hc => by
        have hc1 : c = e := by simpa [ExprNode.children] using hc
        exact hc1 ▸ ExprNode.induction_children P step e)
  | .ExprSymbol h name key =>
      step (.ExprSymbol h name key) (fun c hc => by simp [ExprNode.children] at hc)
  | .ExprConstant h value =>
      step (.ExprConstant h value) (fun c hc => by simp [ExprNode.children] at hc)
  | .ExprNAryOp tag h as =>
      step (.ExprNAryOp tag h as) (fun c hc => induction_children_list P step as c hc)
  | .ExprBinaryOp tag h l r =>
      step (.ExprBinaryOp tag h l r) (fun c hc => by
        have hc1 : c = l ∨ c = r := by simpa [ExprNode.children] using hc
        exact hc1.elim (fun e1 => e1 ▸ ExprNode.induction_children P step l)
          (fun e1 => e1 ▸ ExprNode.induction_children P step r))
  | .ExprUnaryOp tag h e =>
      step (.ExprUnaryOp tag h e) (fun c hc => by
        have hc1 : c = e := by simpa [ExprNode.children] using hc
        exact hc1 ▸ ExprNode.induction_children P step e)
theorem induction_children_list (P : ExprNode → Prop)
    (step : ∀ e : ExprNode, (∀ c, c ∈ e.children → P c) → P e) :
    ∀ (as : List ExprNode) (c : ExprNode), c ∈ as → P c
  | [], _, hc => by simp at hc
  | a :: as, c, hc => by
      have hc1 : c = a ∨ c ∈ as := by simpa using hc
      exact hc1.elim (fun e1 => e1 ▸ ExprNode.induction_children P step a)
        (fun h1 => induction_children_list P step as c h1)
end

theorem visit_unfold (e : ExprNode) (cf : CompiledFunction) :
    visit e cf
      = (cf.emit (instr_code e) e (instr_nb_args e) (instr_args e)).bind (visit_args e.children) := by
  cases e <;> simp [visit, visit_args, instr_code, instr_nb_args, instr_args, ExprNode.children,
    Option.bind_assoc]

theorem preorder_unfold (e : ExprNode) : e.preorder = e :: preorder_list e.children := by
  cases e <;> simp [ExprNode.preorder, preorder_list, ExprNode.children]

theorem visits_unfold (e : ExprNode) : e.visits = 1 + visits_list e.children := by
  cases e <;> simp [ExprNode.visits, visits_list, ExprNode.children, Nat.add_assoc]

theorem preorder_list_length (as : List ExprNode)
    (h : ∀ c, c ∈ as → c.preorder.length = c.visits) :
    (preorder_list as).length = visits_list as := by
  induction as with
  | nil => simp [preorder_list, visits_list]
  | cons a as ih =>
    simp only [preorder_list, visits_list, List.length_append]
    rw [h a (by simp), ih (fun c hc => h c (by simp [hc]))]

theorem preorder_length (e : ExprNode) : e.preorder.length = e.visits := by
  induction e using ExprNode.induction_children with
  | step e ih =>
    rw [preorder_unfold, visits_unfold, List.length_cons, preorder_list_length _ ih]
    omega

/-! ## What the compiler stores -/

theorem Emitted.nil (cf : CompiledFunction) : Emitted cf cf [] := by
  constructor <;> simp [overwrite_nil]

theorem Emitted.room {cf cf1 : CompiledFunction} {es : List ExprNode} (n : Nat)
    (h : Emitted cf cf1 es) (hr : cf.room (es.length + n)) : cf1.room n := by
  obtain ⟨h1, h2, h3, h4⟩ := hr
  refine ⟨?_, ?_, ?_, ?_⟩
  · rw [h.code, h.ptr, overwrite_length _ _ _ (by simp; omega)]; omega
  · rw [h.nodes, h.ptr, overwrite_length _ _ _ (by simp; omega)]; omega
  · rw [h.nb_args, h.ptr, overwrite_length _ _ _ (by simp; omega)]; omega
  · rw [h.args, h.ptr, overwrite_length _ _ _ (by simp; omega)]; omega

theorem Emitted.append {cf cf1 cf2 : CompiledFunction} {es1 es2 : List ExprNode}
    (h1 : Emitted cf cf1 es1) (h2 : Emitted cf1 cf2 es2) (hr : cf.room es1.length) :
    Emitted cf cf2 (es1 ++ es2) := by
  obtain ⟨r1, r2, r3, r4⟩ := hr
  constructor
  · rw [h2.expr, h1.expr]
  · rw [h2.ptr, h1.ptr, List.length_append]; omega
  · rw [h2.nodes, h1.nodes, h1.ptr, List.map_append]
    have := overwrite_overwrite cf.nodes (es1.map some) (es2.map some) cf.ptr (by simpa using r2)
    simpa using this
  · rw [h2.code, h1.code, h1.ptr, List.map_append]
    have := overwrite_overwrite cf.code (es1.map (fun e => some (instr_code e)))
      (es2.map (fun e => some (instr_code e))) cf.ptr (by simpa using r1)
    simpa using this
  · rw [h2.nb_args, h1.nb_args, h1.ptr, List.map_append]
    have := overwrite_overwrite cf.nb_args (es1.map (fun e => some (instr_nb_args e)))
      (es2.map (fun e => some (instr_nb_args e))) cf.ptr (by simpa using r3)
    simpa using this
  · rw [h2.args, h1.args, h1.ptr, List.map_append]
    have := overwrite_overwrite cf.args (es1.map (fun e => some (instr_args e)))
      (es2.map (fun e => some (instr_args e))) cf.ptr (by simpa using r4)
    simpa using this
  · rw [h2.written, h1.written, h1.ptr, List.append_assoc, List.length_append]
    congr 1
    rw [List.range'_append_1, Nat.add_comm]

theorem emit_emitted (cf : CompiledFunction) (e : ExprNode) (hr : cf.room 1) :
    ∃ cf1, cf.emit (instr_code e) e (instr_nb_args e) (instr_args e) = some cf1 ∧
      Emitted cf cf1 [e] := by
  obtain ⟨r1, r2, r3, r4⟩ := hr
  have l1 : cf.ptr < cf.code.length := by omega
  have l2 : cf.ptr < cf.nodes.length := by omega
  have l3 : cf.ptr < cf.nb_args.length := by omega
  have l4 : cf.ptr < cf.args.length := by omega
  refine ⟨{ cf with
    code := cf.code.set cf.ptr (some (instr_code e)),
    nodes := cf.nodes.set cf.ptr (some e),
    nb_args := cf.nb_args.set cf.ptr (some (instr_nb_args e)),
    args := cf.args.set cf.ptr (some (instr_args e)),
    ptr := cf.ptr + 1, written := cf.written ++ [cf.ptr] }, ?_, ?_⟩
  · simp only [CompiledFunction.emit, store, l1, l2, l3, l4, if_true]
    rfl
  · constructor <;> simp [set_eq_overwrite, l1, l2, l3, l4]

theorem visit_args_emitted (as : List ExprNode)
    (ih : ∀ c, c ∈ as → ∀ cf : CompiledFunction, cf.room c.visits →
      ∃ cf1, visit c cf = some cf1 ∧ Emitted cf cf1 c.preorder) :
    ∀ cf : CompiledFunction, cf.room (visits_list as) →
      ∃ cf1, visit_args as cf = some cf1 ∧ Emitted cf cf1 (preorder_list as) := by
  induction as with
  | nil =>
    intro cf _
    exact ⟨cf, by simp [visit_args], by simpa [preorder_list] using Emitted.nil cf⟩
  | cons a as ih2 =>
    intro cf hr
    have hra : cf.room a.visits := by
      obtain ⟨r1, r2, r3, r4⟩ := hr
      simp only [visits_list] at r1 r2 r3 r4
      exact ⟨by omega, by omega, by omega, by omega⟩
    obtain ⟨cf1, hv1, he1⟩ := ih a (by simp) cf hra
    have hr1 : cf1.room (visits_list as) := by
      apply he1.room
      rw [preorder_length]
      simpa [visits_list] using hr
    obtain ⟨cf2, hv2, he2⟩ := ih2 (fun c hc => ih c (by simp [hc])) cf1 hr1
    refine ⟨cf2, by simp [visit_args, hv1, hv2], ?_⟩
    simp only [preorder_list]
    exact he1.append he2 (by rw [preorder_length]; exact hra)

theorem visit_emitted (e : ExprNode) :
    ∀ cf : CompiledFunction, cf.room e.visits →
      ∃ cf1, visit e cf = some cf1 ∧ Emitted cf cf1 e.preorder := by
  induction e using ExprNode.induction_children with
  | step e ih =>
    intro cf hr
    rw [visits_unfold] at hr
    have hr0 : cf.room 1 := by
      obtain ⟨r1, r2, r3, r4⟩ := hr
      exact ⟨by omega, by omega, by omega, by omega⟩
    obtain ⟨cf1, hv1, he1⟩ := emit_emitted cf e hr0
    have hr1 : cf1.room (visits_list e.children) := he1.room _ (by simpa using hr)
    obtain ⟨cf2, hv2, he2⟩ := visit_args_emitted e.children ih cf1 hr1
    refine ⟨cf2, by rw [visit_unfold, hv1]; simpa using hv2, ?_⟩
    rw [preorder_unfold]
    exact he1.append he2 (by simpa using hr0)

theorem compile_compiled (e : ExprNode) (h : e.visits ≤ e.size) :
    ∃ cf, compile e = some cf ∧ Compiled e cf := by
  have hr : CompiledFunction.room
      { expr := e, nodes := List.replicate e.size none, code := List.replicate e.size none,
        nb_args := List.replicate e.size none, args := List.replicate e.size none,
        ptr := 0, written := [] } e.visits := by
    simp [CompiledFunction.room, h]
  obtain ⟨cf, hv, he⟩ := visit_emitted e _ hr
  refine ⟨cf, hv, ?_⟩
  have hl := preorder_length e
  constructor
  · exact he.expr
  · rw [he.ptr, hl]; simp
  · rw [he.nodes]; simp [overwrite, hl]
  · rw [he.code]; simp [overwrite, hl]
  · rw [he.nb_args]; simp [overwrite, hl]
  · rw [he.args]; simp [overwrite, hl]
  · rw [he.written, hl]; simp [List.range_eq_range']

/-- Every position of the pre-order listing is a tape index holding the
instruction of the node listed there. -/
theorem Compiled.at_index {e : ExprNode} {cf : CompiledFunction} (hc : Compiled e cf)
    {i : Nat} {n : ExprNode} (hn : e.preorder[i]? = some n) :
    cf.nodes[i]? = some (some n) ∧ cf.code[i]? = some (some (instr_code n)) ∧
    cf.nb_args[i]? = some (some (instr_nb_args n)) ∧
    cf.args[i]? = some (some (instr_args n)) := by
  have hi : i < e.preorder.length := by
    rcases Nat.lt_or_ge i e.preorder.length with h | h
    · exact h
    · rw [List.getElem?_eq_none h] at hn; cases hn
  refine ⟨?_, ?_, ?_, ?_⟩
  · rw [hc.nodes, List.getElem?_append_left (by simpa using hi), List.getElem?_map, hn]; rfl
  · rw [hc.code, List.getElem?_append_left (by simpa using hi), List.getElem?_map, hn]; rfl
  · rw [hc.nb_args, List.getElem?_append_left (by simpa using hi), List.getElem?_map, hn]; rfl
  · rw [hc.args, List.getElem?_append_left (by simpa using hi), List.getElem?_map, hn]; rfl

/-- A tape index that holds a node is a position of the pre-order listing. -/
theorem Compiled.of_index {e : ExprNode} {cf : CompiledFunction} (hc : Compiled e cf)
    {i : Nat} {n : ExprNode} (hn : cf.nodes[i]? = some (some n)) :
    e.preorder[i]? = some n := by
  rw [hc.nodes] at hn
  rcases Nat.lt_or_ge i e.preorder.length with h | h
  · rw [List.getElem?_append_left (by simpa using h), List.getElem?_map] at hn
    cases hp : e.preorder[i]? with
    | none => rw [hp] at hn; cases hn
    | some m => rw [hp] at hn; simp at hn; rw [hn]
  · rw [List.getElem?_append_right (by simpa using h)] at hn
    rw [List.getElem?_replicate] at hn
    split at hn <;> cases hn

/-! ## Shape of the pre-order listing -/

theorem preorder_list_local (as : List ExprNode)
    (ih : ∀ c, c ∈ as → ∀ (i : Nat) (n : ExprNode), c.preorder[i]? = some n →
      ∃ rest, c.preorder.drop i = n.preorder ++ rest) :
    ∀ (i : Nat) (n : ExprNode), (preorder_list as)[i]? = some n →
      ∃ rest, (preorder_list as).drop i = n.preorder ++ rest := by
  induction as with
  | nil => intro i n hn; simp [preorder_list] at hn
  | cons a as ih2 =>
    intro i n hn
    simp only [preorder_list] at hn ⊢
    rcases Nat.lt_or_ge i a.preorder.length with h | h
    · rw [List.getElem?_append_left h] at hn
      obtain ⟨rest, hr⟩ := ih a (by simp) i n hn
      refine ⟨rest ++ preorder_list as, ?_⟩
      rw [List.drop_append_of_le_length (Nat.le_of_lt h), hr, List.append_assoc]
    · rw [List.getElem?_append_right h] at hn
      obtain ⟨rest, hr⟩ := ih2 (fun c hc => ih c (by simp [hc])) _ n hn
      refine ⟨rest, ?_⟩
      rw [List.drop_append_eq_append_drop, List.drop_eq_nil_of_le h, List.nil_append, hr]

/-- The listing of a sub-expression occupies a contiguous stretch of the listing
of the expression, starting where the sub-expression is listed. -/
theorem preorder_local (e : ExprNode) :
    ∀ (i : Nat) (n : ExprNode), e.preorder[i]? = some n →
      ∃ rest, e.preorder.drop i = n.preorder ++ rest := by
  induction e using ExprNode.induction_children with
  | step e ih =>
    intro i n hn
    cases i with
    | zero =>
      rw [preorder_unfold] at hn
      simp at hn
      subst hn
      exact ⟨[], by simp⟩
    | succ i =>
      rw [preorder_unfold] at hn ⊢
      simp only [List.getElem?_cons_succ] at hn
      obtain ⟨rest, hr⟩ := preorder_list_local e.children ih i n hn
      exact ⟨rest, by simpa using hr⟩

/-- The `k`-th operand is listed after the listings of the operands before it. -/
theorem preorder_list_child (as : List ExprNode) :
    ∀ (k : Nat) (c : ExprNode), as[k]? = some c →
      (preorder_list as)[visits_list (as.take k)]? = some c := by
  induction as with
  | nil => intro k c hc; simp at hc
  | cons a as ih =>
    intro k c hc
    cases k with
    | zero =>
      simp at hc
      subst hc
      simp [preorder_list, visits_list, preorder_unfold a]
    | succ k =>
      simp only [List.getElem?_cons_succ] at hc
      have := ih k c hc
      simp only [List.take_succ_cons, visits_list, preorder_list]
      rw [List.getElem?_append_right (by rw [preorder_length]; omega), preorder_length,
        Nat.add_sub_cancel_left]
      exact this

theorem preorder_child (e : ExprNode) (i : Nat) (n : ExprNode) (hn : e.preorder[i]? = some n)
    (k : Nat) (c : ExprNode) (hc : n.children[k]? = some c) :
    e.preorder[i + 1 + visits_list (n.children.take k)]? = some c := by
  obtain ⟨rest, hr⟩ := preorder_local e i n hn
  have h1 := preorder_list_child n.children k c hc
  have h2 : (e.preorder.drop i)[1 + visits_list (n.children.take k)]? = some c := by
    rw [hr, preorder_unfold n, List.cons_append, Nat.add_comm 1, List.getElem?_cons_succ]
    have hlt : visits_list (n.children.take k) < (preorder_list n.children).length := by
      rcases Nat.lt_or_ge (visits_list (n.children.take k)) (preorder_list n.children).length
        with h | h
      · exact h
      · rw [List.getElem?_eq_none h] at h1; cases h1
    rw [List.getElem?_append_left hlt]
    exact h1
  rw [List.getElem?_drop] at h2
  rw [Nat.add_assoc]
  exact h2

theorem visit_ExprMul_eq_table (left right : Dim) : visit_ExprMul left right = mul_table left right := by
  cases left <;> cases right <;> rfl

theorem visit_ExprAdd_eq_table (dim : Dim) : visit_ExprAdd dim = add_table dim := by
  cases dim <;> rfl

theorem visit_ExprSub_eq_table (dim : Dim) : visit_ExprSub dim = sub_table dim := by
  cases dim <;> rfl

theorem bundle_table_instr (n : ExprNode) (slots : List Slot) (k : Nat)
    (h : bundle_table n = some (slots, k)) :
    instr_args n = slots.map some ∧ instr_nb_args n = k := by
  cases n <;> simp [bundle_table] at h <;> obtain ⟨h1, h2⟩ := h <;> subst h1 h2 <;>
    simp [instr_args, instr_nb_args]

theorem count_range (n i : Nat) : (List.range n).count i = if i < n then 1 else 0 := by
  rw [List.count_eq_of_nodup (List.nodup_range n)]
  simp

/-! ## The interpreter loops -/

theorem forward_dispatch_instrument {σ : Type} (algo : FwdAlgorithm σ) (op : operation)
    (node : ExprNode) (a : List (Option Slot)) (s : σ) (log : List Call) :
    forward_dispatch algo.instrument op node a (s, log)
      = (forward_dispatch algo op node a s, log ++ [⟨op, node, slot a 0⟩]) := by
  cases op <;> rfl

theorem backward_dispatch_instrument {σ : Type} (algo : BwdAlgorithm σ) (op : operation)
    (node : ExprNode) (a : List (Option Slot)) (s : σ) (log : List Call) :
    backward_dispatch algo.instrument op node a (s, log)
      = (backward_dispatch algo op node a s, log ++ [⟨op, node, slot a 0⟩]) := by
  cases op <;> rfl

theorem forward_step_instrument {σ : Type} (algo : FwdAlgorithm σ) (cf : CompiledFunction)
    (i : Nat) (c : Call) (hc : cf.call i = some c) (s : σ) (log : List Call) :
    ∃ s1, forward_step algo cf i s = some s1 ∧
      forward_step algo.instrument cf i (s, log) = some (s1, log ++ [c]) := by
  unfold CompiledFunction.call at hc
  unfold forward_step
  generalize cf.code[i]?.join = x1 at hc ⊢
  generalize cf.nodes[i]?.join = x2 at hc ⊢
  generalize cf.args[i]?.join = x3 at hc ⊢
  cases x1 <;> cases x2 <;> cases x3 <;> simp at hc ⊢
  subst hc
  exact forward_dispatch_instrument algo _ _ _ s log

theorem backward_step_instrument {σ : Type} (algo : BwdAlgorithm σ) (cf : CompiledFunction)
    (i : Nat) (c : Call) (hc : cf.call i = some c) (s : σ) (log : List Call) :
    ∃ s1, backward_step algo cf i s = some s1 ∧
      backward_step algo.instrument cf i (s, log) = some (s1, log ++ [c]) := by
  unfold CompiledFunction.call at hc
  unfold backward_step
  generalize cf.code[i]?.join = x1 at hc ⊢
  generalize cf.nodes[i]?.join = x2 at hc ⊢
  generalize cf.args[i]?.join = x3 at hc ⊢
  cases x1 <;> cases x2 <;> cases x3 <;> simp at hc ⊢
  subst hc
  exact backward_dispatch_instrument algo _ _ _ s log

/-- The loop of `forward` over a tape whose first `k` instructions are all
stored: the callbacks of the indices `k-1`, ..., `0` run in that order. -/
theorem forward_loop_calls {σ : Type} (algo : FwdAlgorithm σ) (cf : CompiledFunction) :
    ∀ (k : Nat), (∀ i, i < k → ∃ c, cf.call i = some c) → ∀ (s : σ) (log : List Call),
      ∃ s1 calls, forward_loop algo cf k s = some s1 ∧
        forward_loop algo.instrument cf k (s, log) = some (s1, log ++ calls) ∧
        calls.map some = (List.range k).reverse.map cf.call := by
  intro k
  induction k with
  | zero => intro _ s log; exact ⟨s, [], by simp [forward_loop]⟩
  | succ k ih =>
    intro hall s log
    obtain ⟨c, hc⟩ := hall k (Nat.lt_succ_self k)
    obtain ⟨s1, h1, h2⟩ := forward_step_instrument algo cf k c hc s log
    obtain ⟨s2, calls, h3, h4, h5⟩ :=
      ih (fun i hi => hall i (Nat.lt_succ_of_lt hi)) s1 (log ++ [c])
    refine ⟨s2, c :: calls, ?_, ?_, ?_⟩
    · simp [forward_loop, h1, h3]
    · simp [forward_loop, h2, h4]
    · simp [List.range_succ, h5, hc]

/-- The loop of `backward` entered at index `i` with `n` iterations left, over a
tape whose instructions `i`, ..., `i+n-1` are all stored: their callbacks run in
that order. -/
theorem backward_loop_calls {σ : Type} (algo : BwdAlgorithm σ) (cf : CompiledFunction) :
    ∀ (n i : Nat), (∀ m, i ≤ m → m < i + n → ∃ c, cf.call m = some c) →
      ∀ (s : σ) (log : List Call),
      ∃ s1 calls, backward_loop algo cf i n s = some s1 ∧
        backward_loop algo.instrument cf i n (s, log) = some (s1, log ++ calls) ∧
        calls.map some = (List.range' i n).map cf.call := by
  intro n
  induction n with
  | zero => intro i _ s log; exact ⟨s, [], by simp [backward_loop]⟩
  | succ n ih =>
    intro i hall s log
    obtain ⟨c, hc⟩ := hall i (Nat.le_refl i) (by omega)
    obtain ⟨s1, h1, h2⟩ := backward_step_instrument algo cf i c hc s log
    obtain ⟨s2, calls, h3, h4, h5⟩ :=
      ih (i + 1) (fun m hm1 hm2 => hall m (by omega) (by omega)) s1 (log ++ [c])
    refine ⟨s2, c :: calls, ?_, ?_, ?_⟩
    · simp [backward_loop, h1, h3]
    · simp [backward_loop, h2, h4]
    · simp [List.range'_succ, h5, hc]

theorem foldl_set_get {β : Type} (f : Nat → β) (is : List Nat) :
    ∀ (init : List β) (j : Nat),
      (is.foldl (fun a i => a.set i (f i)) init)[j]?
        = if j ∈ is then (if j < init.length then some (f j) else none) else init[j]? := by
  induction is with
  | nil => intro init j; simp
  | cons i is ih =>
    intro init j
    rw [List.foldl_cons, ih]
    by_cases hj : j ∈ is
    · simp [hj]
    · by_cases hij : i = j
      · subst hij
        simp [hj, List.getElem?_set]
      · have hji : ¬ j = i := fun h => hij h.symm
        simp [hj, hji, List.getElem?_set, hij]

/-- What the n-ary `visit` leaves in the slot array of a node with at least one
argument: the node's own decoration, the decorations of the arguments from the
second one on, and a last element that is never written. -/
theorem nary_slots_cons (d : Slot) (a : ExprNode) (as : List ExprNode) :
    nary_slots d (a :: as) = some d :: as.map (fun c => some c.deco) ++ [none] := by
  apply List.ext_getElem?
  intro j
  unfold nary_slots
  rw [foldl_set_get (fun i => ((a :: as)[i]?).map ExprNode.deco)]
  cases j with
  | zero => simp
  | succ j =>
    have hmem : (j + 1 ∈ List.range' 1 ((a :: as).length - 1)) ↔ j < as.length := by
      rw [List.mem_range'_1]; simp; omega
    rcases Nat.lt_trichotomy j as.length with h | h | h
    · rw [if_pos (hmem.2 h), if_pos (by simp; omega)]
      simp [h, List.getElem?_append_left]
    · rw [if_neg (fun hh => by have := hmem.1 hh; omega)]
      subst h
      simp [List.getElem?_append_right]
    · rw [if_neg (fun hh => by have := hmem.1 hh; omega)]
      rw [List.getElem?_eq_none (by simp; omega), List.getElem?_eq_none (by simp; omega)]

theorem nary_slots_nil (d : Slot) : nary_slots d [] = [some d] := by
  simp [nary_slots]

theorem instr_args_result (e : ExprNode) : slot (instr_args e) 0 = some e.deco := by
  cases e with
  | ExprNAryOp tag h as =>
    cases as with
    | nil => simp [instr_args, nary_slots_nil, slot, ExprNode.deco, ExprNode.header]
    | cons a as => simp [instr_args, nary_slots_cons, slot, ExprNode.deco, ExprNode.header]
  | _ => simp [instr_args, slot, ExprNode.deco, ExprNode.header]

theorem Compiled.call_at {e : ExprNode} {cf : CompiledFunction} (hc : Compiled e cf)
    {i : Nat} {n : ExprNode} (hn : e.preorder[i]? = some n) :
    cf.call i = some ⟨instr_code n, n, some n.deco⟩ := by
  obtain ⟨h1, h2, _, h4⟩ := hc.at_index hn
  simp [CompiledFunction.call, h1, h2, h4, instr_args_result]

theorem Compiled.call_defined {e : ExprNode} {cf : CompiledFunction} (hc : Compiled e cf)
    (hsize : e.size = e.visits) (i : Nat) (hi : i < cf.expr.size) :
    ∃ c, cf.call i = some c := by
  rw [hc.expr, hsize, ← preorder_length] at hi
  exact ⟨_, hc.call_at (List.getElem?_eq_getElem hi)⟩

theorem range_reverse_get (n m : Nat) (h : m < n) :
    (List.range n).reverse[m]? = some (n - 1 - m) := by
  rw [List.getElem?_reverse (by simpa using h)]
  simp only [List.length_range]
  rw [List.getElem?_range (by omega)]

theorem forward_calls_get (calls : List Call) (cf : CompiledFunction) (n : Nat)
    (h : calls.map some = (List.range n).reverse.map cf.call) (k : Nat) (hk : k < n) :
    ∃ c, cf.call k = some c ∧ calls[n - 1 - k]? = some c := by
  have h1 := congrArg (fun l => l[n - 1 - k]?) h
  simp only [List.getElem?_map, range_reverse_get n (n - 1 - k) (by omega)] at h1
  have h2 : n - 1 - (n - 1 - k) = k := by omega
  rw [h2] at h1
  cases hc : calls[n - 1 - k]? with
  | none => rw [hc] at h1; simp at h1
  | some c => rw [hc] at h1; simp at h1; exact ⟨c, h1.symm, rfl⟩

theorem backward_calls_get (calls : List Call) (cf : CompiledFunction) (n : Nat)
    (h : calls.map some = (List.range n).map cf.call) (k : Nat) (hk : k < n) :
    ∃ c, cf.call k = some c ∧ calls[k]? = some c := by
  have h1 := congrArg (fun l => l[k]?) h
  simp only [List.getElem?_map, List.getElem?_range hk] at h1
  cases hc : calls[k]? with
  | none => rw [hc] at h1; simp at h1
  | some c => rw [hc] at h1; simp at h1; exact ⟨c, h1.symm, rfl⟩

/-! ## The claims -/

/-- C3: on every expression whose `size` leaves room for its visits the
compiler succeeds, and the nodes it records on the tape, read from index 0 to
`ptr`, are the pre-order listing of the expression (parent first, then the
children left to right); index 0 holds the instruction of the root; and for
the instruction at any index `i`, the instruction of its `k`-th child sits at
the strictly larger index `i + 1 + (visits of the children before it)`. -/
theorem compile_preorder (e : ExprNode) (h : e.visits ≤ e.size) :
    ∃ cf, compile e = some cf ∧
      cf.ptr = e.preorder.length ∧
      cf.nodes.take cf.ptr = e.preorder.map some ∧
      cf.nodes[0]? = some (some e) ∧ cf.code[0]? = some (some (instr_code e)) ∧
      ∀ (i : Nat) (n : ExprNode), cf.nodes[i]? = some (some n) →
        ∀ (k : Nat) (c : ExprNode), n.children[k]? = some c →
          ∃ j, j = i + 1 + visits_list (n.children.take k) ∧ i < j ∧
            cf.nodes[j]? = some (some c) ∧ cf.code[j]? = some (some (instr_code c)) := by
  obtain ⟨cf, hcf, hc⟩ := compile_compiled e h
  have h0 : e.preorder[0]? = some e := by rw [preorder_unfold]; simp
  refine ⟨cf, hcf, ?_, ?_, (hc.at_index h0).1, (hc.at_index h0).2.1, ?_⟩
  · rw [hc.ptr, preorder_length]
  · rw [hc.nodes, hc.ptr, ← preorder_length]
    simp
  · intro i n hn k c hk
    have hp := preorder_child e i n (hc.of_index hn) k c hk
    exact ⟨_, rfl, by omega, (hc.at_index hp).1, (hc.at_index hp).2.1⟩

/-- Witness of C3 on `f(x,y) = x + y*y`. -/
theorem compile_preorder_witness :
    ∃ cf, compile (sample_f 100 101 102 103) = some cf ∧
      cf.ptr = (sample_f 100 101 102 103).preorder.length ∧
      cf.nodes.take cf.ptr = (sample_f 100 101 102 103).preorder.map some ∧
      cf.nodes[0]? = some (some (sample_f 100 101 102 103)) ∧
      cf.code[0]? = some (some (instr_code (sample_f 100 101 102 103))) ∧
      ∀ (i : Nat) (n : ExprNode), cf.nodes[i]? = some (some n) →
        ∀ (k : Nat) (c : ExprNode), n.children[k]? = some c →
          ∃ j, j = i + 1 + visits_list (n.children.take k) ∧ i < j ∧
            cf.nodes[j]? = some (some c) ∧ cf.code[j]? = some (some (instr_code c)) :=
  compile_preorder (sample_f 100 101 102 103) (by decide)

/-- C4: in every compiled expression, the opcode stored for a multiply node,
at whatever tape index the node is emitted, is the entry of the multiply table
for the pair (left.dim, right.dim): MUL for scalar*scalar, MUL_SV for
scalar*vector, MUL_SM for scalar*matrix, MUL_VV for a vector left operand,
MUL_MV for matrix*vector and MUL_MM for a matrix left operand otherwise. -/
theorem compile_mul_opcode (e : ExprNode) (h : e.visits ≤ e.size) :
    ∃ cf, compile e = some cf ∧
      ∀ (i : Nat) (hd : ExprHeader) (l r : ExprNode),
        e.preorder[i]? = some (.ExprBinaryOp .ExprMul hd l r) →
          cf.nodes[i]? = some (some (.ExprBinaryOp .ExprMul hd l r)) ∧
          cf.code[i]? = some (some (mul_table l.dim r.dim)) := by
  obtain ⟨cf, hcf, hc⟩ := compile_compiled e h
  refine ⟨cf, hcf, ?_⟩
  intro i hd l r hn
  have := hc.at_index hn
  refine ⟨this.1, ?_⟩
  rw [this.2.1]
  simp [instr_code, visit_binary, visit_ExprMul_eq_table]

/-- Witness of C4 on an expression with a scalar*vector and a matrix*vector
product. -/
theorem compile_mul_opcode_witness :
    ∃ cf, compile sample_mixed = some cf ∧
      ∀ (i : Nat) (hd : ExprHeader) (l r : ExprNode),
        sample_mixed.preorder[i]? = some (.ExprBinaryOp .ExprMul hd l r) →
          cf.nodes[i]? = some (some (.ExprBinaryOp .ExprMul hd l r)) ∧
          cf.code[i]? = some (some (mul_table l.dim r.dim)) :=
  compile_mul_opcode sample_mixed (by decide)

/-- C5: in every compiled expression, the opcode stored for an add node is
ADD, ADD_V or ADD_M according to the node's own dimension (scalar, vector,
otherwise), whatever the dimensions of its operands, so that an add node of
vector dimension is never compiled to ADD; likewise SUB, SUB_V, SUB_M for a
subtract node. -/
theorem compile_add_sub_opcode (e : ExprNode) (h : e.visits ≤ e.size) :
    ∃ cf, compile e = some cf ∧
      (∀ (i : Nat) (hd : ExprHeader) (l r : ExprNode),
        e.preorder[i]? = some (.ExprBinaryOp .ExprAdd hd l r) →
          cf.nodes[i]? = some (some (.ExprBinaryOp .ExprAdd hd l r)) ∧
          cf.code[i]? = some (some (add_table hd.dim)) ∧
          (hd.dim.is_vector = true → cf.code[i]? = some (some .ADD_V) ∧
            cf.code[i]? ≠ some (some .ADD))) ∧
      (∀ (i : Nat) (hd : ExprHeader) (l r : ExprNode),
        e.preorder[i]? = some (.ExprBinaryOp .ExprSub hd l r) →
          cf.nodes[i]? = some (some (.ExprBinaryOp .ExprSub hd l r)) ∧
          cf.code[i]? = some (some (sub_table hd.dim))) := by
  obtain ⟨cf, hcf, hc⟩ := compile_compiled e h
  refine ⟨cf, hcf, ?_, ?_⟩
  · intro i hd l r hn
    have := hc.at_index hn
    have hcode : cf.code[i]? = some (some (add_table hd.dim)) := by
      rw [this.2.1]
      simp [instr_code, visit_binary, visit_ExprAdd_eq_table]
    refine ⟨this.1, hcode, ?_⟩
    intro hv
    rw [hcode]
    cases hdim : hd.dim <;> simp [hdim, Dim.is_vector] at hv
    simp [add_table]
  · intro i hd l r hn
    have := hc.at_index hn
    refine ⟨this.1, ?_⟩
    rw [this.2.1]
    simp [instr_code, visit_binary, visit_ExprSub_eq_table]

/-- Witness of C5 on an expression with an add and a subtract node of vector
dimension. -/
theorem compile_add_sub_opcode_witness :
    ∃ cf, compile sample_mixed = some cf ∧
      (∀ (i : Nat) (hd : ExprHeader) (l r : ExprNode),
        sample_mixed.preorder[i]? = some (.ExprBinaryOp .ExprAdd hd l r) →
          cf.nodes[i]? = some (some (.ExprBinaryOp .ExprAdd hd l r)) ∧
          cf.code[i]? = some (some (add_table hd.dim)) ∧
          (hd.dim.is_vector = true → cf.code[i]? = some (some .ADD_V) ∧
            cf.code[i]? ≠ some (some .ADD))) ∧
      (∀ (i : Nat) (hd : ExprHeader) (l r : ExprNode),
        sample_mixed.preorder[i]? = some (.ExprBinaryOp .ExprSub hd l r) →
          cf.nodes[i]? = some (some (.ExprBinaryOp .ExprSub hd l r)) ∧
          cf.code[i]? = some (some (sub_table hd.dim))) :=
  compile_add_sub_opcode sample_mixed (by decide)

/-- C6: in every compiled expression, the instruction emitted for a symbol,
constant, index, unary or binary node holds in `args` the node's own
decoration followed by those of its operands left to right (`[own]`,
`[own, child]`, `[own, left, right]`), every slot written, and in `nb_args`
the arity 0, 1 or 2. -/
theorem compile_slot_bundle (e : ExprNode) (h : e.visits ≤ e.size) :
    ∃ cf, compile e = some cf ∧
      ∀ (i : Nat) (n : ExprNode) (slots : List Slot) (k : Nat),
        e.preorder[i]? = some n → bundle_table n = some (slots, k) →
          cf.nodes[i]? = some (some n) ∧
          cf.args[i]? = some (some (slots.map some)) ∧
          cf.nb_args[i]? = some (some k) := by
  obtain ⟨cf, hcf, hc⟩ := compile_compiled e h
  refine ⟨cf, hcf, ?_⟩
  intro i n slots k hn hb
  have := hc.at_index hn
  obtain ⟨h1, h2⟩ := bundle_table_instr n slots k hb
  refine ⟨this.1, ?_, ?_⟩
  · rw [this.2.2.2, h1]
  · rw [this.2.2.1, h2]

/-- Witness of C6 on an expression with symbol, constant and binary nodes. -/
theorem compile_slot_bundle_witness :
    ∃ cf, compile sample_mixed = some cf ∧
      ∀ (i : Nat) (n : ExprNode) (slots : List Slot) (k : Nat),
        sample_mixed.preorder[i]? = some n → bundle_table n = some (slots, k) →
          cf.nodes[i]? = some (some n) ∧
          cf.args[i]? = some (some (slots.map some)) ∧
          cf.nb_args[i]? = some (some k) :=
  compile_slot_bundle sample_mixed (by decide)

/-- What one `emit` does to the object: it stores the instruction at index
`ptr` of each of the four arrays, leaves every other element of the arrays as
it was, advances `ptr` by one and records the index in the history. -/
theorem emit_stores (cf cf1 : CompiledFunction) (op : operation) (node : ExprNode) (k : Nat)
    (slots : List (Option Slot)) (h : cf.emit op node k slots = some cf1) :
    cf1.ptr = cf.ptr + 1 ∧ cf1.written = cf.written ++ [cf.ptr] ∧
    cf1.code[cf.ptr]? = some (some op) ∧ cf1.nodes[cf.ptr]? = some (some node) ∧
    cf1.nb_args[cf.ptr]? = some (some k) ∧ cf1.args[cf.ptr]? = some (some slots) ∧
    ∀ j, j ≠ cf.ptr →
      cf1.code[j]? = cf.code[j]? ∧ cf1.nodes[j]? = cf.nodes[j]? ∧
      cf1.nb_args[j]? = cf.nb_args[j]? ∧ cf1.args[j]? = cf.args[j]? := by
  by_cases l1 : cf.ptr < cf.code.length
  · by_cases l2 : cf.ptr < cf.nodes.length
    · by_cases l3 : cf.ptr < cf.nb_args.length
      · by_cases l4 : cf.ptr < cf.args.length
        · have h1 : cf.emit op node k slots = some { cf with
              code := cf.code.set cf.ptr (some op),
              nodes := cf.nodes.set cf.ptr (some node),
              nb_args := cf.nb_args.set cf.ptr (some k),
              args := cf.args.set cf.ptr (some slots),
              ptr := cf.ptr + 1, written := cf.written ++ [cf.ptr] } := by
            simp only [CompiledFunction.emit, store, l1, l2, l3, l4, if_true]
            rfl
          rw [h1] at h
          have h2 := Option.some.inj h
          subst h2
          refine ⟨rfl, rfl, ?_, ?_, ?_, ?_, ?_⟩
          · simp [l1]
          · simp [l2]
          · simp [l3]
          · simp [l4]
          · intro j hj
            have hj1 : ¬ cf.ptr = j := fun h => hj h.symm
            simp [List.getElem?_set, hj1]
        · have h1 : cf.emit op node k slots = none := by
            simp only [CompiledFunction.emit, store, l1, l2, l3, l4, if_true, if_false]
            rfl
          rw [h1] at h; cases h
      · have h1 : cf.emit op node k slots = none := by
          simp only [CompiledFunction.emit, store, l1, l2, l3, if_true, if_false]
          rfl
        rw [h1] at h; cases h
    · have h1 : cf.emit op node k slots = none := by
        simp only [CompiledFunction.emit, store, l1, l2, if_true, if_false]
        rfl
      rw [h1] at h; cases h
  · have h1 : cf.emit op node k slots = none := by
      simp only [CompiledFunction.emit, store, l1, if_false]
      rfl
    rw [h1] at h; cases h

theorem Compiled.lengths {e : ExprNode} {cf : CompiledFunction} (hc : Compiled e cf)
    (h : e.visits ≤ e.size) :
    cf.code.length = e.size ∧ cf.nodes.length = e.size ∧
    cf.nb_args.length = e.size ∧ cf.args.length = e.size := by
  have hl := preorder_length e
  refine ⟨?_, ?_, ?_, ?_⟩
  · rw [hc.code]; simp [hl]; omega
  · rw [hc.nodes]; simp [hl]; omega
  · rw [hc.nb_args]; simp [hl]; omega
  · rw [hc.args]; simp [hl]; omega

/-- The elements of the four arrays from `ptr` on are never written. -/
theorem Compiled.beyond {e : ExprNode} {cf : CompiledFunction} (hc : Compiled e cf)
    (i : Nat) (h1 : cf.ptr ≤ i) (h2 : i < e.size) :
    cf.nodes[i]? = some none ∧ cf.code[i]? = some none ∧
    cf.nb_args[i]? = some none ∧ cf.args[i]? = some none := by
  have hl := preorder_length e
  rw [hc.ptr] at h1
  refine ⟨?_, ?_, ?_, ?_⟩
  · rw [hc.nodes, List.getElem?_append_right (by simpa [hl] using h1),
      List.getElem?_replicate]
    simp [hl]; omega
  · rw [hc.code, List.getElem?_append_right (by simpa [hl] using h1),
      List.getElem?_replicate]
    simp [hl]; omega
  · rw [hc.nb_args, List.getElem?_append_right (by simpa [hl] using h1),
      List.getElem?_replicate]
    simp [hl]; omega
  · rw [hc.args, List.getElem?_append_right (by simpa [hl] using h1),
      List.getElem?_replicate]
    simp [hl]; omega

/-- C10: on every expression whose `size` leaves room for its visits, the
final value of `ptr` is the number of node-visits of the depth-first
traversal; when no node is reached twice this is the number of distinct
nodes.  The tape has `size` elements in each of its four arrays; every index
below `ptr` holds, in all four arrays, the instruction of the visit of that
rank, and every index from `ptr` on is unwritten.  Each `emit` stores at the
index `ptr` alone, leaves the other elements as they were, advances `ptr` and
records the index; the indices so recorded are 0, 1, ..., `ptr - 1`, each
exactly once, and they are exactly the indices at which the tape holds an
instruction. -/
theorem compile_ptr_visits (e : ExprNode) (h : e.visits ≤ e.size) :
    ∃ cf, compile e = some cf ∧
      cf.ptr = e.visits ∧
      ((e.preorder.map ExprNode.id).Nodup →
        cf.ptr = (e.preorder.map ExprNode.id).toFinset.card) ∧
      cf.written = List.range cf.ptr ∧
      (∀ i, cf.written.count i = if i < cf.ptr then 1 else 0) ∧
      (cf.code.length = e.size ∧ cf.nodes.length = e.size ∧
        cf.nb_args.length = e.size ∧ cf.args.length = e.size) ∧
      (∀ i, i < cf.ptr → ∃ n, e.preorder[i]? = some n ∧
        cf.nodes[i]? = some (some n) ∧ cf.code[i]? = some (some (instr_code n)) ∧
        cf.nb_args[i]? = some (some (instr_nb_args n)) ∧
        cf.args[i]? = some (some (instr_args n))) ∧
      (∀ i, cf.ptr ≤ i → i < e.size →
        cf.nodes[i]? = some none ∧ cf.code[i]? = some none ∧
        cf.nb_args[i]? = some none ∧ cf.args[i]? = some none) ∧
      (∀ i, i ∈ cf.written ↔
        (∃ op, cf.code[i]? = some (some op)) ∧ (∃ n, cf.nodes[i]? = some (some n)) ∧
        (∃ k, cf.nb_args[i]? = some (some k)) ∧ (∃ a, cf.args[i]? = some (some a))) ∧
      (∀ (c c1 : CompiledFunction) (op : operation) (node : ExprNode) (k : Nat)
        (slots : List (Option Slot)), c.emit op node k slots = some c1 →
          c1.ptr = c.ptr + 1 ∧ c1.written = c.written ++ [c.ptr] ∧
          c1.code[c.ptr]? = some (some op) ∧ c1.nodes[c.ptr]? = some (some node) ∧
          c1.nb_args[c.ptr]? = some (some k) ∧ c1.args[c.ptr]? = some (some slots) ∧
          ∀ j, j ≠ c.ptr →
            c1.code[j]? = c.code[j]? ∧ c1.nodes[j]? = c.nodes[j]? ∧
            c1.nb_args[j]? = c.nb_args[j]? ∧ c1.args[j]? = c.args[j]?) := by
  obtain ⟨cf, hcf, hc⟩ := compile_compiled e h
  have hbelow : ∀ i, i < cf.ptr → ∃ n, e.preorder[i]? = some n ∧
      cf.nodes[i]? = some (some n) ∧ cf.code[i]? = some (some (instr_code n)) ∧
      cf.nb_args[i]? = some (some (instr_nb_args n)) ∧
      cf.args[i]? = some (some (instr_args n)) := by
    intro i hi
    rw [hc.ptr, ← preorder_length] at hi
    have hn : e.preorder[i]? = some (e.preorder[i]) := List.getElem?_eq_getElem hi
    exact ⟨_, hn, hc.at_index hn⟩
  refine ⟨cf, hcf, hc.ptr, ?_, ?_, ?_, hc.lengths h, hbelow, ?_, ?_, emit_stores⟩
  · intro hnd
    rw [List.toFinset_card_of_nodup hnd, List.length_map, preorder_length, hc.ptr]
  · rw [hc.written, hc.ptr]
  · intro i
    rw [hc.written, hc.ptr]
    exact count_range _ _
  · intro i h1 h2
    exact hc.beyond i h1 h2
  · intro i
    constructor
    · intro hi
      rw [hc.written, List.mem_range, ← hc.ptr] at hi
      obtain ⟨n, _, g1, g2, g3, g4⟩ := hbelow i hi
      exact ⟨⟨_, g2⟩, ⟨_, g1⟩, ⟨_, g3⟩, ⟨_, g4⟩⟩
    · rintro ⟨⟨op, hop⟩, _⟩
      rw [hc.written, List.mem_range, ← hc.ptr]
      rcases Nat.lt_or_ge i cf.ptr with hlt | hge
      · exact hlt
      · rcases Nat.lt_or_ge i e.size with hlt2 | hge2
        · rw [(hc.beyond i hge hlt2).2.1] at hop; cases hop
        · rw [List.getElem?_eq_none (by rw [(hc.lengths h).1]; exact hge2)] at hop
          cases hop

/-- Witness of C10 on the vector `(a, b, c)`. -/
theorem compile_ptr_visits_witness :
    ∃ cf, compile sample_vec = some cf ∧
      cf.ptr = sample_vec.visits ∧
      ((sample_vec.preorder.map ExprNode.id).Nodup →
        cf.ptr = (sample_vec.preorder.map ExprNode.id).toFinset.card) ∧
      cf.written = List.range cf.ptr ∧
      (∀ i, cf.written.count i = if i < cf.ptr then 1 else 0) ∧
      (cf.code.length = sample_vec.size ∧ cf.nodes.length = sample_vec.size ∧
        cf.nb_args.length = sample_vec.size ∧ cf.args.length = sample_vec.size) ∧
      (∀ i, i < cf.ptr → ∃ n, sample_vec.preorder[i]? = some n ∧
        cf.nodes[i]? = some (some n) ∧ cf.code[i]? = some (some (instr_code n)) ∧
        cf.nb_args[i]? = some (some (instr_nb_args n)) ∧
        cf.args[i]? = some (some (instr_args n))) ∧
      (∀ i, cf.ptr ≤ i → i < sample_vec.size →
        cf.nodes[i]? = some none ∧ cf.code[i]? = some none ∧
        cf.nb_args[i]? = some none ∧ cf.args[i]? = some none) ∧
      (∀ i, i ∈ cf.written ↔
        (∃ op, cf.code[i]? = some (some op)) ∧ (∃ n, cf.nodes[i]? = some (some n)) ∧
        (∃ k, cf.nb_args[i]? = some (some k)) ∧ (∃ a, cf.args[i]? = some (some a))) ∧
      (∀ (c c1 : CompiledFunction) (op : operation) (node : ExprNode) (k : Nat)
        (slots : List (Option Slot)), c.emit op node k slots = some c1 →
          c1.ptr = c.ptr + 1 ∧ c1.written = c.written ++ [c.ptr] ∧
          c1.code[c.ptr]? = some (some op) ∧ c1.nodes[c.ptr]? = some (some node) ∧
          c1.nb_args[c.ptr]? = some (some k) ∧ c1.args[c.ptr]? = some (some slots) ∧
          ∀ j, j ≠ c.ptr →
            c1.code[j]? = c.code[j]? ∧ c1.nodes[j]? = c.nodes[j]? ∧
            c1.nb_args[j]? = c.nb_args[j]? ∧ c1.args[j]? = c.args[j]?) :=
  compile_ptr_visits sample_vec (by decide)

/-- C1: for every expression compiled into a tape of `N = size` instructions
and every algorithm, `forward` runs to its end and invokes exactly one forward
callback per tape index, in the order `N-1`, `N-2`, ..., `0`: the log of the
instrumented algorithm grows by the calls of these indices in that order, and
the instrumentation does not change the result.  Hence for `i < j` (as when
`j` is a child of `i`) the callback of `j` is logged at an earlier position
than the callback of `i`. -/
theorem forward_order {σ : Type} (algo : FwdAlgorithm σ) (e : ExprNode)
    (hsize : e.size = e.visits) (s : σ) (log : List Call) :
    ∃ cf, compile e = some cf ∧ ∃ s1 calls,
      forward algo cf s = some (e.deco, s1) ∧
      forward algo.instrument cf (s, log) = some (e.deco, (s1, log ++ calls)) ∧
      calls.map some = (List.range e.size).reverse.map cf.call ∧
      ∀ i j, i < j → j < e.size →
        e.size - 1 - j < e.size - 1 - i ∧
        (∃ c, cf.call j = some c ∧ calls[e.size - 1 - j]? = some c) ∧
        (∃ c, cf.call i = some c ∧ calls[e.size - 1 - i]? = some c) := by
  obtain ⟨cf, hcf, hc⟩ := compile_compiled e (Nat.le_of_eq hsize.symm)
  obtain ⟨s1, calls, h1, h2, h3⟩ :=
    forward_loop_calls algo cf cf.expr.size (hc.call_defined hsize) s log
  rw [hc.expr] at h1 h2 h3
  refine ⟨cf, hcf, s1, calls, ?_, ?_, h3, ?_⟩
  · simp [forward, hc.expr, h1]
  · simp [forward, hc.expr, h2]
  · intro i j hij hj
    exact ⟨by omega, forward_calls_get calls cf e.size h3 j hj,
      forward_calls_get calls cf e.size h3 i (by omega)⟩

/-- Witness of C1: the evaluation of `f(x,y) = x + y*y` at `x = 2`, `y = 3`. -/
theorem forward_order_witness :
    ∃ cf, compile (sample_f 100 101 102 103) = some cf ∧ ∃ s1 calls,
      forward (eval_fwd argv_2_3) cf (fun _ => 0)
        = some ((sample_f 100 101 102 103).deco, s1) ∧
      forward (eval_fwd argv_2_3).instrument cf ((fun _ => 0), [])
        = some ((sample_f 100 101 102 103).deco, (s1, [] ++ calls)) ∧
      calls.map some = (List.range (sample_f 100 101 102 103).size).reverse.map cf.call ∧
      ∀ i j, i < j → j < (sample_f 100 101 102 103).size →
        (sample_f 100 101 102 103).size - 1 - j < (sample_f 100 101 102 103).size - 1 - i ∧
        (∃ c, cf.call j = some c ∧ calls[(sample_f 100 101 102 103).size - 1 - j]? = some c) ∧
        (∃ c, cf.call i = some c ∧ calls[(sample_f 100 101 102 103).size - 1 - i]? = some c) :=
  forward_order (eval_fwd argv_2_3) (sample_f 100 101 102 103) (by decide) (fun _ => 0) []

/-- C2: for every expression compiled into a tape of `N = size` instructions
and every algorithm, `backward` runs to its end and invokes exactly one
backward callback per tape index, in the order `0`, `1`, ..., `N-1`: the log of
the instrumented algorithm grows by the calls of these indices in that order.
Hence for `i < j` (as when `j` is a child of `i`) the callback of `i` is logged
at an earlier position than the callback of `j`. -/
theorem backward_order {σ : Type} (algo : BwdAlgorithm σ) (e : ExprNode)
    (hsize : e.size = e.visits) (s : σ) (log : List Call) :
    ∃ cf, compile e = some cf ∧ ∃ s1 calls,
      backward algo cf s = some s1 ∧
      backward algo.instrument cf (s, log) = some (s1, log ++ calls) ∧
      calls.map some = (List.range e.size).map cf.call ∧
      ∀ i j, i < j → j < e.size →
        (∃ c, cf.call i = some c ∧ calls[i]? = some c) ∧
        (∃ c, cf.call j = some c ∧ calls[j]? = some c) := by
  obtain ⟨cf, hcf, hc⟩ := compile_compiled e (Nat.le_of_eq hsize.symm)
  obtain ⟨s1, calls, h1, h2, h3⟩ :=
    backward_loop_calls algo cf cf.expr.size 0
      (fun m _ hm => hc.call_defined hsize m (by simpa using hm)) s log
  rw [hc.expr] at h1 h2 h3
  rw [← List.range_eq_range'] at h3
  refine ⟨cf, hcf, s1, calls, ?_, ?_, h3, ?_⟩
  · simp [backward, hc.expr, h1]
  · simp [backward, hc.expr, h2]
  · intro i j hij hj
    exact ⟨backward_calls_get calls cf e.size h3 i (by omega),
      backward_calls_get calls cf e.size h3 j hj⟩

/-- Witness of C2: a backward pass over `f(x,y) = x + y*y`. -/
theorem backward_order_witness :
    ∃ cf, compile (sample_f 100 101 102 103) = some cf ∧ ∃ s1 calls,
      backward (BwdAlgorithm.skip : BwdAlgorithm Unit) cf () = some s1 ∧
      backward (BwdAlgorithm.skip : BwdAlgorithm Unit).instrument cf ((), [])
        = some (s1, [] ++ calls) ∧
      calls.map some = (List.range (sample_f 100 101 102 103).size).map cf.call ∧
      ∀ i j, i < j → j < (sample_f 100 101 102 103).size →
        (∃ c, cf.call i = some c ∧ calls[i]? = some c) ∧
        (∃ c, cf.call j = some c ∧ calls[j]? = some c) :=
  backward_order BwdAlgorithm.skip (sample_f 100 101 102 103) (by decide) () []

/-- C8: for every compiled expression and every algorithm, `forward` returns
the label of the root node; that label is the one referenced by slot 0 of the
instruction at tape index 0, whose node is the root; and it is returned with
the state reached after all `N` callbacks have run. -/
theorem forward_returns_root {σ : Type} (algo : FwdAlgorithm σ) (e : ExprNode)
    (hsize : e.size = e.visits) (s : σ) :
    ∃ cf, compile e = some cf ∧ ∃ s1 calls a,
      forward algo cf s = some (e.deco, s1) ∧
      cf.nodes[0]? = some (some e) ∧
      cf.args[0]? = some (some a) ∧ slot a 0 = some e.deco ∧
      forward algo.instrument cf (s, []) = some (e.deco, (s1, calls)) ∧
      calls.length = e.size := by
  obtain ⟨cf, hcf, hc⟩ := compile_compiled e (Nat.le_of_eq hsize.symm)
  obtain ⟨s1, calls, h1, h2, h3⟩ :=
    forward_loop_calls algo cf cf.expr.size (hc.call_defined hsize) s []
  rw [hc.expr] at h1 h2 h3
  have h0 : e.preorder[0]? = some e := by rw [preorder_unfold]; simp
  obtain ⟨g1, _, _, g4⟩ := hc.at_index h0
  refine ⟨cf, hcf, s1, calls, instr_args e, ?_, g1, g4, instr_args_result e, ?_, ?_⟩
  · simp [forward, hc.expr, h1]
  · simpa [forward, hc.expr] using h2
  · have := congrArg List.length h3
    simpa using this

/-- Witness of C8: the evaluation of the vector `(a, b, c)`. -/
theorem forward_returns_root_witness :
    ∃ cf, compile sample_vec = some cf ∧ ∃ s1 calls a,
      forward (eval_fwd argv_1_2_3) cf (fun _ => 0) = some (sample_vec.deco, s1) ∧
      cf.nodes[0]? = some (some sample_vec) ∧
      cf.args[0]? = some (some a) ∧ slot a 0 = some sample_vec.deco ∧
      forward (eval_fwd argv_1_2_3).instrument cf ((fun _ => 0), [])
        = some (sample_vec.deco, (s1, calls)) ∧
      calls.length = sample_vec.size :=
  forward_returns_root (eval_fwd argv_1_2_3) sample_vec (by decide) (fun _ => 0)

/-- C9: `f(x,y) = x + y*y` over scalar symbols, with distinct labels, compiled
and run forward with any algorithm over a label store of numbers whose symbol
callback writes the bound argument and whose add and multiply callbacks write
the sum and the product of their operands, returns a label holding `x + y*y`;
in particular 11 for `x = 2`, `y = 3` and -1 for `x = -1`, `y = 0`. -/
theorem forward_sample_f {R : Type} [Ring R] (algo : FwdAlgorithm (Slot → R)) (argv : Nat → R)
    (dx dy dm da : Slot) (hd : [dx, dy, dm, da].Nodup)
    (hsym : ∀ h name key y s,
      algo.symbol_fwd (.ExprSymbol h name key) (some y) s = Function.update s y (argv key))
    (hadd : ∀ n x1 x2 y s,
      algo.add_fwd n (some x1) (some x2) (some y) s = Function.update s y (s x1 + s x2))
    (hmul : ∀ n x1 x2 y s,
      algo.mul_fwd n (some x1) (some x2) (some y) s = Function.update s y (s x1 * s x2))
    (s : Slot → R) :
    ∃ cf, compile (sample_f dx dy dm da) = some cf ∧ ∃ r s1,
      forward algo cf s = some (r, s1) ∧
      s1 r = argv 0 + argv 1 * argv 1 ∧
      (argv 0 = 2 → argv 1 = 3 → s1 r = 11) ∧
      (argv 0 = -1 → argv 1 = 0 → s1 r = -1) := by
  refine ⟨tape_f dx dy dm da, rfl, da, ?_⟩
  have hxm : dx ≠ dm := by
    intro h; subst h; simp at hd
  have key : ∃ s1, forward algo (tape_f dx dy dm da) s = some (da, s1) ∧
      s1 da = argv 0 + argv 1 * argv 1 := by
    refine ⟨_, rfl, ?_⟩
    simp [forward_dispatch, slot, tape_f, sample_f, sample_x, sample_y, sample_yy,
      hsym, hadd, hmul, Function.update, hxm]
    intro h; exact absurd h.symm hxm
  obtain ⟨s1, h1, h2⟩ := key
  refine ⟨s1, h1, h2, ?_, ?_⟩
  · intro h0 h1; rw [h2, h0, h1]; norm_num
  · intro h0 h1; rw [h2, h0, h1]; norm_num

theorem compile_sample_f (dx dy dm da : Slot) :
    compile (sample_f dx dy dm da) = some (tape_f dx dy dm da) := rfl

/-- Witness of C9: the evaluation algorithm `eval_fwd` over the integers, at
`x = 2`, `y = 3`. -/
theorem forward_sample_f_witness :
    ∃ cf, compile (sample_f 100 101 102 103) = some cf ∧ ∃ r s1,
      forward (eval_fwd argv_2_3) cf (fun _ => 0) = some (r, s1) ∧
      s1 r = argv_2_3 0 + argv_2_3 1 * argv_2_3 1 ∧
      (argv_2_3 0 = 2 → argv_2_3 1 = 3 → s1 r = 11) ∧
      (argv_2_3 0 = -1 → argv_2_3 1 = 0 → s1 r = -1) :=
  forward_sample_f (eval_fwd argv_2_3) argv_2_3 100 101 102 103 (by decide)
    (fun _ _ _ _ _ => rfl) (fun _ _ _ _ _ => rfl) (fun _ _ _ _ _ => rfl) (fun _ => 0)

/-- C7 (divergence): for the vector `(a, b, c)` the compiler leaves in the slot
array of the VEC instruction the vector's own decoration, then the decorations
of `b` and `c` in slots 1 and 2, and never writes slot 3; the decoration of `a`
is in no slot.  Evaluated with `a = 1`, `b = 2`, `c = 3`, the vector callback is
handed the operand labels 2, 3 and an unwritten slot, not 1, 2, 3. -/
theorem vector_slots_shifted :
    compile sample_vec = some tape_vec ∧
    tape_vec.args[0]? = some (some [some 103, some sample_b.deco, some sample_c.deco, none]) ∧
    tape_vec.args[0]? ≠
      some (some [some 103, some sample_a.deco, some sample_b.deco, some sample_c.deco]) ∧
    (forward (eval_vec_fwd argv_1_2_3) tape_vec (fun _ => 0, [])).map (fun r => r.2.2)
      = some [some 2, some 3, none] := by
  refine ⟨rfl, rfl, by decide, by decide⟩

/-! ## Shared nodes, fixed opcodes, dispatch -/

theorem Compiled.emitted_ids_eq {e : ExprNode} {cf : CompiledFunction} (hc : Compiled e cf) :
    cf.emitted_ids = e.preorder.map ExprNode.id := by
  unfold CompiledFunction.emitted_ids
  rw [hc.nodes, List.filterMap_append]
  have h1 : List.filterMap (fun n : Option ExprNode => n.map ExprNode.id)
      (List.replicate (e.size - e.visits) none) = [] := by
    induction (e.size - e.visits) with
    | zero => rfl
    | succ n ih => simp [List.replicate_succ]
  rw [h1, List.append_nil, List.filterMap_map]
  induction e.preorder with
  | nil => rfl
  | cons a l ih => simp [List.filterMap_cons, ih]

theorem length_eq_card_iff_nodup (l : List Nat) : l.length = l.toFinset.card ↔ l.Nodup := by
  constructor
  · intro h
    have h1 : Multiset.card (l : Multiset Nat).toFinset.val = Multiset.card (l : Multiset Nat) := by
      simpa using h.symm
    exact Multiset.toFinset_card_eq_card_iff_nodup.1 h1
  · intro h
    rw [List.toFinset_card_of_nodup h]

/-- C11 (as amended): on every expression whose `size` leaves room for its
visits, the tape holds one instruction per visit of the depth-first traversal:
a node is emitted as many times as the traversal reaches it (once per path
from the root), and the tape has exactly one instruction per distinct node if
and only if no node is reached twice. -/
theorem compile_emits_per_visit (e : ExprNode) (h : e.visits ≤ e.size) :
    ∃ cf, compile e = some cf ∧
      cf.emitted_ids = e.preorder.map ExprNode.id ∧
      (∀ k, cf.emitted_ids.count k = (e.preorder.map ExprNode.id).count k) ∧
      (cf.emitted_ids.length = cf.emitted_ids.toFinset.card ↔
        (e.preorder.map ExprNode.id).Nodup) := by
  obtain ⟨cf, hcf, hc⟩ := compile_compiled e h
  refine ⟨cf, hcf, hc.emitted_ids_eq, ?_, ?_⟩
  · intro k; rw [hc.emitted_ids_eq]
  · rw [hc.emitted_ids_eq]; exact length_eq_card_iff_nodup _

/-- Witness of C11 (as amended) on the vector `(a, b, c)`. -/
theorem compile_emits_per_visit_witness :
    ∃ cf, compile sample_vec = some cf ∧
      cf.emitted_ids = sample_vec.preorder.map ExprNode.id ∧
      (∀ k, cf.emitted_ids.count k = (sample_vec.preorder.map ExprNode.id).count k) ∧
      (cf.emitted_ids.length = cf.emitted_ids.toFinset.card ↔
        (sample_vec.preorder.map ExprNode.id).Nodup) :=
  compile_emits_per_visit sample_vec (by decide)

/-- C11 (counterexample): in `f(x,y) = x + y*y` the node `y` (id 1) is the left
and the right operand of the product; the compiler emits it at index 3 and
again at index 4, so the tape holds 5 instructions for 4 distinct nodes. -/
theorem shared_node_emitted_twice :
    compile (sample_f 100 101 102 103) = some (tape_f 100 101 102 103) ∧
    (tape_f 100 101 102 103).nodes[3]? = some (some (sample_y 101)) ∧
    (tape_f 100 101 102 103).nodes[4]? = some (some (sample_y 101)) ∧
    (tape_f 100 101 102 103).emitted_ids = [3, 0, 2, 1, 1] ∧
    (tape_f 100 101 102 103).emitted_ids.count 1 = 2 ∧
    (tape_f 100 101 102 103).emitted_ids.length = 5 ∧
    (tape_f 100 101 102 103).emitted_ids.toFinset.card = 4 ∧
    ¬ (tape_f 100 101 102 103).emitted_ids.Nodup := by
  refine ⟨rfl, rfl, rfl, ?_, ?_, ?_, ?_, ?_⟩ <;> decide

/-- C16: each operator other than add, subtract and multiply has one opcode,
the same at all dimensions; no two of these 24 operators share an opcode; and
in every compiled expression the instruction of a node with such an operator
carries that opcode. -/
theorem compile_fixed_opcode (e : ExprNode) (h : e.visits ≤ e.size) :
    (Finset.univ.filter (fun o : Operator => o.dimension_free = true)).card = 24 ∧
    (∀ o : Operator, o.dimension_free = true →
      ∀ d l r d1 l1 r1 : Dim, o.opcode d l r = o.opcode d1 l1 r1) ∧
    (∀ o1 o2 : Operator, o1.dimension_free = true → o2.dimension_free = true →
      ∀ d l r d1 l1 r1 : Dim, o1.opcode d l r = o2.opcode d1 l1 r1 → o1 = o2) ∧
    ∃ cf, compile e = some cf ∧
      ∀ (i : Nat) (n : ExprNode) (o : Operator), e.preorder[i]? = some n →
        n.operator = some o → o.dimension_free = true →
          cf.nodes[i]? = some (some n) ∧
          ∀ d l r : Dim, cf.code[i]? = some (some (o.opcode d l r)) := by
  have hfix : ∀ o : Operator, o.dimension_free = true →
      ∀ d l r d1 l1 r1 : Dim, o.opcode d l r = o.opcode d1 l1 r1 := by
    intro o ho d l r d1 l1 r1
    rcases o with t | t
    · cases t <;> simp [Operator.dimension_free] at ho <;> rfl
    · rfl
  refine ⟨by decide, hfix, ?_, ?_⟩
  · intro o1 o2 h1 h2 d l r d1 l1 r1 heq
    rw [hfix o1 h1 d l r .scalar .scalar .scalar, hfix o2 h2 d1 l1 r1 .scalar .scalar .scalar]
      at heq
    revert heq h1 h2
    revert o1 o2
    decide
  · obtain ⟨cf, hcf, hc⟩ := compile_compiled e h
    refine ⟨cf, hcf, ?_⟩
    intro i n o hn ho hfree
    obtain ⟨g1, g2, _, _⟩ := hc.at_index hn
    refine ⟨g1, ?_⟩
    intro d l r
    rw [g2]
    cases n <;> simp [ExprNode.operator] at ho <;> subst ho
    · simp only [instr_code, Operator.opcode]
      exact congrArg (fun x => some (some x)) (hfix _ hfree _ _ _ d l r)
    · rfl

/-- Witness of C16 on `sqrt(max(x / y, -x))`. -/
theorem compile_fixed_opcode_witness :
    (Finset.univ.filter (fun o : Operator => o.dimension_free = true)).card = 24 ∧
    (∀ o : Operator, o.dimension_free = true →
      ∀ d l r d1 l1 r1 : Dim, o.opcode d l r = o.opcode d1 l1 r1) ∧
    (∀ o1 o2 : Operator, o1.dimension_free = true → o2.dimension_free = true →
      ∀ d l r d1 l1 r1 : Dim, o1.opcode d l r = o2.opcode d1 l1 r1 → o1 = o2) ∧
    ∃ cf, compile sample_ops = some cf ∧
      ∀ (i : Nat) (n : ExprNode) (o : Operator), sample_ops.preorder[i]? = some n →
        n.operator = some o → o.dimension_free = true →
          cf.nodes[i]? = some (some n) ∧
          ∀ d l r : Dim, cf.code[i]? = some (some (o.opcode d l r)) :=
  compile_fixed_opcode sample_ops (by decide)

theorem backward_dispatch_preserves {σ L : Type} (algo : BwdAlgorithm σ) (obs : σ → L)
    (hp : algo.Preserves obs) (op : operation) (node : ExprNode) (a : List (Option Slot))
    (s : σ) : obs (backward_dispatch algo op node a s) = obs s := by
  cases op <;> simp only [backward_dispatch]
  all_goals first
    | exact hp.index_bwd _ _ _ _ | exact hp.vector_bwd _ _ _ _ | exact hp.symbol_bwd _ _ _
    | exact hp.cst_bwd _ _ _ | exact hp.apply_bwd _ _ _ _
    | exact hp.add_bwd _ _ _ _ _ | exact hp.add_V_bwd _ _ _ _ _ | exact hp.add_M_bwd _ _ _ _ _
    | exact hp.mul_bwd _ _ _ _ _ | exact hp.mul_SV_bwd _ _ _ _ _ | exact hp.mul_SM_bwd _ _ _ _ _
    | exact hp.mul_VV_bwd _ _ _ _ _ | exact hp.mul_MV_bwd _ _ _ _ _ | exact hp.mul_MM_bwd _ _ _ _ _
    | exact hp.sub_bwd _ _ _ _ _ | exact hp.sub_V_bwd _ _ _ _ _ | exact hp.sub_M_bwd _ _ _ _ _
    | exact hp.div_bwd _ _ _ _ _ | exact hp.max_bwd _ _ _ _ _ | exact hp.min_bwd _ _ _ _ _
    | exact hp.atan2_bwd _ _ _ _ _
    | exact hp.minus_bwd _ _ _ _ | exact hp.sign_bwd _ _ _ _ | exact hp.abs_bwd _ _ _ _
    | exact hp.power_bwd _ _ _ _ | exact hp.sqr_bwd _ _ _ _ | exact hp.sqrt_bwd _ _ _ _
    | exact hp.exp_bwd _ _ _ _ | exact hp.log_bwd _ _ _ _ | exact hp.cos_bwd _ _ _ _
    | exact hp.sin_bwd _ _ _ _ | exact hp.tan_bwd _ _ _ _ | exact hp.cosh_bwd _ _ _ _
    | exact hp.sinh_bwd _ _ _ _ | exact hp.tanh_bwd _ _ _ _ | exact hp.acos_bwd _ _ _ _
    | exact hp.asin_bwd _ _ _ _ | exact hp.atan_bwd _ _ _ _ | exact hp.acosh_bwd _ _ _ _
    | exact hp.asinh_bwd _ _ _ _ | exact hp.atanh_bwd _ _ _ _

theorem backward_step_preserves {σ L : Type} (algo : BwdAlgorithm σ) (obs : σ → L)
    (hp : algo.Preserves obs) (cf : CompiledFunction) (i : Nat) (s s1 : σ)
    (h : backward_step algo cf i s = some s1) : obs s1 = obs s := by
  unfold backward_step at h
  generalize cf.code[i]?.join = x1 at h
  generalize cf.nodes[i]?.join = x2 at h
  generalize cf.args[i]?.join = x3 at h
  cases x1 <;> cases x2 <;> cases x3 <;> simp at h
  subst h
  exact backward_dispatch_preserves algo obs hp _ _ _ s

/-- The loop of `backward` writes nothing of its own: what every callback
preserves, the loop preserves. -/
theorem backward_loop_preserves {σ L : Type} (algo : BwdAlgorithm σ) (obs : σ → L)
    (hp : algo.Preserves obs) (cf : CompiledFunction) :
    ∀ (n i : Nat) (s s1 : σ), backward_loop algo cf i n s = some s1 → obs s1 = obs s := by
  intro n
  induction n with
  | zero => intro i s s1 h; simp [backward_loop] at h; rw [h]
  | succ n ih =>
    intro i s s1 h
    simp only [backward_loop] at h
    cases h1 : backward_step algo cf i s with
    | none => rw [h1] at h; simp at h
    | some s2 =>
      rw [h1] at h
      simp only [Option.some_bind] at h
      rw [ih (i + 1) s2 s1 h, backward_step_preserves algo obs hp cf i s s2 h1]

/-- C17: for every compiled expression, every state and every backward
algorithm whose callbacks all leave the label store (any observation `obs` of
the state) as they found it, `backward` runs to its end and leaves the label
store as it found it; in particular right after a `forward` pass. -/
theorem backward_frame {σ L : Type} (algo : BwdAlgorithm σ) (obs : σ → L)
    (hp : algo.Preserves obs) (e : ExprNode) (hsize : e.size = e.visits) (s : σ) :
    ∃ cf, compile e = some cf ∧
      (∃ s1, backward algo cf s = some s1 ∧ obs s1 = obs s) ∧
      ∀ (falgo : FwdAlgorithm σ), ∃ r s1 s2, forward falgo cf s = some (r, s1) ∧
        backward algo cf s1 = some s2 ∧ obs s2 = obs s1 := by
  obtain ⟨cf, hcf, hc⟩ := compile_compiled e (Nat.le_of_eq hsize.symm)
  have hb : ∀ s : σ, ∃ s1, backward algo cf s = some s1 ∧ obs s1 = obs s := by
    intro s
    obtain ⟨s1, _, h1, _, _⟩ :=
      backward_loop_calls algo cf cf.expr.size 0
        (fun m _ hm => hc.call_defined hsize m (by simpa using hm)) s []
    exact ⟨s1, h1, backward_loop_preserves algo obs hp cf _ _ s s1 h1⟩
  refine ⟨cf, hcf, hb s, ?_⟩
  intro falgo
  obtain ⟨s1, _, h1, _, _⟩ :=
    forward_loop_calls falgo cf cf.expr.size (hc.call_defined hsize) s []
  obtain ⟨s2, h2, h3⟩ := hb s1
  exact ⟨cf.expr.deco, s1, s2, by simp [forward, h1], h2, h3⟩

theorem skip_preserves {σ : Type} :
    (BwdAlgorithm.skip : BwdAlgorithm σ).Preserves (fun s => s) := by
  constructor <;> intros <;> rfl

/-- Witness of C17: the backward algorithm that does nothing, over a store of
integer labels, on `f(x,y) = x + y*y`. -/
theorem backward_frame_witness :
    ∃ cf, compile (sample_f 100 101 102 103) = some cf ∧
      (∃ s1, backward (BwdAlgorithm.skip : BwdAlgorithm (Slot → Int)) cf (fun _ => 7) = some s1 ∧
        (fun s => s) s1 = (fun s => s) (fun _ => 7)) ∧
      ∀ (falgo : FwdAlgorithm (Slot → Int)), ∃ r s1 s2,
        forward falgo cf (fun _ => 7) = some (r, s1) ∧
        backward (BwdAlgorithm.skip : BwdAlgorithm (Slot → Int)) cf s1 = some s2 ∧
        (fun s => s) s2 = (fun s => s) s1 :=
  backward_frame BwdAlgorithm.skip (fun s => s) skip_preserves (sample_f 100 101 102 103)
    (by decide) (fun _ => 7)

/-- C19 (divergence): for every opcode other than VEC and APPLY the backward
switch hands its callback the same node, operand labels and result label as
the forward switch.  For VEC and APPLY it does not: on the tape of the vector
`(a, b, c)` the forward callback is handed the slot array from position 1 on,
the backward callback the single label pointer found in slot 1. -/
theorem backward_nary_operands :
    (∀ (op : operation) (node : ExprNode) (a : List (Option Slot)),
      op = .VEC ∨ op = .APPLY ∨
        backward_dispatch BwdAlgorithm.record op node a []
          = forward_dispatch FwdAlgorithm.record op node a []) ∧
    compile sample_vec = some tape_vec ∧
    (forward_step FwdAlgorithm.record tape_vec 0 []).map
        (fun l => l.map (fun h => (h.callback, h.operands, h.result)))
      = some [(.VEC, .slots_from [some 101, some 102, none], some 103)] ∧
    (backward_step BwdAlgorithm.record tape_vec 0 []).map
        (fun l => l.map (fun h => (h.callback, h.operands, h.result)))
      = some [(.VEC, .slot_value (some 101), some 103)] ∧
    (forward_step FwdAlgorithm.record tape_vec 0 []).map
        (fun l => l.map (fun h => h.operands))
      ≠ (backward_step BwdAlgorithm.record tape_vec 0 []).map
        (fun l => l.map (fun h => h.operands)) := by
  refine ⟨?_, rfl, by decide, by decide, by decide⟩
  intro op node a
  cases op <;> simp [backward_dispatch, forward_dispatch, BwdAlgorithm.record,
    FwdAlgorithm.record]

/-- C20: the enumeration has 41 opcodes; for each of them the forward switch
invokes exactly one forward callback and the backward switch exactly one
backward callback, both those of the family of that opcode, on the node of the
instruction; this holds for the opcode of every node the compiler can emit,
and for every algorithm. -/
theorem dispatch_paired :
    Fintype.card operation = 41 ∧
    (∀ (op : operation) (node : ExprNode) (a : List (Option Slot)),
      (∃ h, forward_dispatch FwdAlgorithm.record op node a [] = [h] ∧
        h.callback = op ∧ h.node = node ∧ h.result = slot a 0) ∧
      (∃ h, backward_dispatch BwdAlgorithm.record op node a [] = [h] ∧
        h.callback = op ∧ h.node = node ∧ h.result = slot a 0)) ∧
    (∀ (n : ExprNode),
      (∃ h, forward_dispatch FwdAlgorithm.record (instr_code n) n (instr_args n) [] = [h] ∧
        h.callback = instr_code n) ∧
      (∃ h, backward_dispatch BwdAlgorithm.record (instr_code n) n (instr_args n) [] = [h] ∧
        h.callback = instr_code n)) ∧
    (∀ (σ : Type) (falgo : FwdAlgorithm σ) (balgo : BwdAlgorithm σ) (op : operation)
      (node : ExprNode) (a : List (Option Slot)) (s : σ) (log : List Call),
      forward_dispatch falgo.instrument op node a (s, log)
        = (forward_dispatch falgo op node a s, log ++ [⟨op, node, slot a 0⟩]) ∧
      backward_dispatch balgo.instrument op node a (s, log)
        = (backward_dispatch balgo op node a s, log ++ [⟨op, node, slot a 0⟩])) := by
  have key : ∀ (op : operation) (node : ExprNode) (a : List (Option Slot)),
      (∃ h, forward_dispatch FwdAlgorithm.record op node a [] = [h] ∧
        h.callback = op ∧ h.node = node ∧ h.result = slot a 0) ∧
      (∃ h, backward_dispatch BwdAlgorithm.record op node a [] = [h] ∧
        h.callback = op ∧ h.node = node ∧ h.result = slot a 0) := by
    intro op node a
    cases op <;> exact ⟨⟨_, rfl, rfl, rfl, rfl⟩, ⟨_, rfl, rfl, rfl, rfl⟩⟩
  refine ⟨by decide, key, ?_, ?_⟩
  · intro n
    obtain ⟨⟨h1, e1, c1, _⟩, ⟨h2, e2, c2, _⟩⟩ := key (instr_code n) n (instr_args n)
    exact ⟨⟨h1, e1, c1⟩, ⟨h2, e2, c2⟩⟩
  · intro σ falgo balgo op node a s log
    exact ⟨forward_dispatch_instrument falgo op node a s log,
      backward_dispatch_instrument balgo op node a s log⟩

/-! ## Functions -/

theorem SymbolMap.used_iff (m : SymbolMap) (id : String) :
    m.used id = true ↔ id ∈ m.map Prod.fst := by
  simp [SymbolMap.used, List.any_eq_true]

theorem Function.symbol_name_iff (f : Function) (id : String) :
    (∃ k, f.symbol_name k = some id) ↔ id ∈ f.order2info.map (fun s => s.name) := by
  simp only [Function.symbol_name, List.mem_map]
  constructor
  · rintro ⟨k, hk⟩
    cases h : f.order2info[k]? with
    | none => rw [h] at hk; cases hk
    | some sbl =>
      rw [h] at hk
      exact ⟨sbl, List.getElem?_mem h, by simpa using hk⟩
  · rintro ⟨sbl, hmem, hname⟩
    obtain ⟨k, hk⟩ := List.getElem?_of_mem hmem
    exact ⟨k, by rw [hk]; simp [hname]⟩

theorem Function.add_symbol_used (f : Function) (id : String) (dim : Dim)
    (h : f.id2info.used id = true) :
    f.add_symbol id dim
      = (f, .error (.NonRecoverableException ("Redeclared symbol \"" ++ id ++ "\""))) := by
  simp [Function.add_symbol, h]

theorem Function.add_symbol_new (f : Function) (id : String) (dim : Dim)
    (h : f.id2info.used id = false) :
    f.add_symbol id dim
      = ({ f with
            exprnodes := f.exprnodes ++ [.ExprSymbol ⟨f.nb_nodes, dim, NULL, 1⟩ id f.key_count],
            id2info := f.id2info ++ [(id, ⟨⟨f.nb_nodes, dim, NULL, 1⟩, id, f.key_count⟩)],
            key_count := f.key_count + 1,
            order2info := f.order2info ++ [⟨⟨f.nb_nodes, dim, NULL, 1⟩, id, f.key_count⟩],
            is_used := f.is_used ++ [false] },
          .ok ⟨⟨f.nb_nodes, dim, NULL, 1⟩, id, f.key_count⟩) := by
  simp [Function.add_symbol, h, ExprSymbol.new_, Function.add_node, SymbolMap.insert_new,
    ExprSymbol.node]

theorem Function.inv_new (name : String) : (Function.new_ name).Inv := by
  constructor <;> simp [Function.new_]

theorem Function.add_symbol_inv (f : Function) (id : String) (dim : Dim) (hi : f.Inv) :
    (f.add_symbol id dim).1.Inv := by
  cases h : f.id2info.used id with
  | true => rw [Function.add_symbol_used f id dim h]; exact hi
  | false =>
    rw [Function.add_symbol_new f id dim h]
    constructor
    · simp [hi.names]
    · simp [hi.count]
    · simp [hi.flags]
    · intro k sbl hk
      simp only at hk
      rcases Nat.lt_or_ge k f.order2info.length with hlt | hge
      · rw [List.getElem?_append_left hlt] at hk
        exact hi.keys k sbl hk
      · rw [List.getElem?_append_right hge] at hk
        cases hd : k - f.order2info.length with
        | zero =>
          rw [hd] at hk
          simp at hk
          subst hk
          simp only
          rw [hi.count]; omega
        | succ m => rw [hd] at hk; simp at hk
    · intro hroot b hb
      simp only [List.mem_append, List.mem_singleton] at hb
      rcases hb with hb | hb
      · exact hi.unused hroot b hb
      · exact hb

theorem Function.mark_used_length :
    ∀ (ks : List Nat) (l : List Bool), (Function.mark_used l ks).1.length = l.length := by
  intro ks
  induction ks with
  | nil => intro l; rfl
  | cons k ks ih =>
    intro l
    simp only [Function.mark_used]
    split
    · rw [ih]; simp
    · rfl

theorem Function.mark_used_ok :
    ∀ (ks : List Nat) (l : List Bool), (∀ k, k ∈ ks → k < l.length) →
      (Function.mark_used l ks).2 = .ok () ∧
      ∀ k, k < l.length →
        (Function.mark_used l ks).1[k]? = if k ∈ ks then some true else l[k]? := by
  intro ks
  induction ks with
  | nil => intro l _; simp [Function.mark_used]
  | cons j ks ih =>
    intro l hall
    have hj : j < l.length := hall j (by simp)
    simp only [Function.mark_used, hj, if_true]
    obtain ⟨h1, h2⟩ := ih (l.set j true) (fun k hk => by simpa using hall k (by simp [hk]))
    refine ⟨h1, ?_⟩
    intro k hk
    rw [h2 k (by simpa using hk)]
    by_cases hks : k ∈ ks
    · simp [hks]
    · by_cases hkj : k = j
      · subst hkj; simp [hks, hk]
      · have hjk : ¬ j = k := fun h => hkj h.symm
        simp [hks, hkj, List.getElem?_set, hjk]

theorem FindSymbolsUsed.visit_children_keys (e : ExprNode) (keys : List Nat) :
    FindSymbolsUsed.visit e keys
      = FindSymbolsUsed.visit_args e.children (keys ++ (own_key e).toList) := by
  cases e <;> simp [FindSymbolsUsed.visit, FindSymbolsUsed.visit_args, ExprNode.children, own_key]

theorem FindSymbolsUsed.visit_args_eq (as : List ExprNode)
    (ih : ∀ c, c ∈ as → ∀ keys : List Nat,
      FindSymbolsUsed.visit c keys = keys ++ c.preorder.filterMap own_key) :
    ∀ keys : List Nat,
      FindSymbolsUsed.visit_args as keys = keys ++ (preorder_list as).filterMap own_key := by
  induction as with
  | nil => intro keys; simp [FindSymbolsUsed.visit_args, preorder_list]
  | cons a as ih2 =>
    intro keys
    simp only [FindSymbolsUsed.visit_args, preorder_list, List.filterMap_append]
    rw [ih a (by simp), ih2 (fun c hc => ih c (by simp [hc])), List.append_assoc]

/-- The visitor collects the keys of the symbols of the pre-order listing, in
that order. -/
theorem FindSymbolsUsed.visit_eq (e : ExprNode) :
    ∀ keys : List Nat,
      FindSymbolsUsed.visit e keys = keys ++ e.preorder.filterMap own_key := by
  induction e using ExprNode.induction_children with
  | step e ih =>
    intro keys
    rw [FindSymbolsUsed.visit_children_keys, FindSymbolsUsed.visit_args_eq e.children ih,
      preorder_unfold, List.filterMap_cons]
    cases own_key e <;> simp

theorem FindSymbolsUsed.mem_keys (e : ExprNode) (k : Nat) :
    k ∈ FindSymbolsUsed.keys e ↔ ∃ h name, ExprNode.ExprSymbol h name k ∈ e.preorder := by
  unfold FindSymbolsUsed.keys
  rw [FindSymbolsUsed.visit_eq, List.nil_append, List.mem_filterMap]
  constructor
  · rintro ⟨n, hn, hk⟩
    cases n <;> simp [own_key] at hk
    subst hk
    exact ⟨_, _, hn⟩
  · rintro ⟨h, name, hn⟩
    exact ⟨_, hn, rfl⟩

theorem Function.set_expr_inv (f : Function) (expr : ExprNode) (hi : f.Inv) :
    (f.set_expr expr).1.Inv := by
  unfold Function.set_expr
  cases hroot : f.root with
  | some r => simpa using hi
  | none =>
    constructor
    · exact hi.names
    · exact hi.count
    · simp only [Function.mark_used_length]; exact hi.flags
    · exact hi.keys
    · intro h; simp at h

theorem Function.call_inv (f : Function) (c : FunctionCall) (hi : f.Inv) : (f.call c).1.Inv := by
  cases c with
  | add_symbol id dim => exact Function.add_symbol_inv f id dim hi
  | set_expr expr => exact Function.set_expr_inv f expr hi

theorem Function.run_cons (f : Function) (c : FunctionCall) (cs : List FunctionCall)
    (g : Function) (h : f.run (c :: cs) = some g) : (f.call c).1.run cs = some g := by
  simp only [Function.run] at h
  split at h
  · rename_i f1 _ heq; rw [heq]; exact h
  · rename_i f1 _ heq; rw [heq]; exact h
  · cases h

theorem Function.run_inv :
    ∀ (calls : List FunctionCall) (f g : Function), f.Inv → f.run calls = some g → g.Inv := by
  intro calls
  induction calls with
  | nil => intro f g hi h; simp [Function.run] at h; exact h ▸ hi
  | cons c cs ih =>
    intro f g hi h
    exact ih _ g (Function.call_inv f c hi) (Function.run_cons f c cs g h)

theorem Function.call_names (f : Function) (c : FunctionCall) (hi : f.Inv) (id : String) :
    id ∈ (f.call c).1.order2info.map (fun s => s.name) ↔
      id ∈ f.order2info.map (fun s => s.name) ∨ ∃ d, c = .add_symbol id d := by
  cases c with
  | add_symbol id1 dim =>
    simp only [Function.call]
    cases h : f.id2info.used id1 with
    | true =>
      rw [Function.add_symbol_used f id1 dim h]
      have h1 : id1 ∈ f.order2info.map (fun s => s.name) := by
        rw [← hi.names]; exact (SymbolMap.used_iff _ _).1 h
      constructor
      · intro hm; exact Or.inl hm
      · rintro (hm | ⟨d, hd⟩)
        · exact hm
        · cases hd; exact h1
    | false =>
      rw [Function.add_symbol_new f id1 dim h]
      simp only [List.map_append, List.mem_append, List.map_cons, List.map_nil,
        List.mem_singleton]
      constructor
      · rintro (hm | hm)
        · exact Or.inl hm
        · exact Or.inr ⟨dim, by rw [hm]⟩
      · rintro (hm | ⟨d, hd⟩)
        · exact Or.inl hm
        · cases hd; exact Or.inr rfl
  | set_expr expr =>
    have h1 : (f.call (.set_expr expr)).1.order2info = f.order2info := by
      simp only [Function.call, Function.set_expr]
      cases f.root <;> rfl
    rw [h1]
    constructor
    · intro hm; exact Or.inl hm
    · rintro (hm | ⟨d, hd⟩)
      · exact hm
      · cases hd

theorem Function.run_names :
    ∀ (calls : List FunctionCall) (f g : Function), f.Inv → f.run calls = some g →
      ∀ id : String, id ∈ g.order2info.map (fun s => s.name) ↔
        id ∈ f.order2info.map (fun s => s.name) ∨ ∃ d, FunctionCall.add_symbol id d ∈ calls := by
  intro calls
  induction calls with
  | nil =>
    intro f g _ h id
    simp [Function.run] at h
    subst h
    simp
  | cons c cs ih =>
    intro f g hi h id
    rw [ih _ g (Function.call_inv f c hi) (Function.run_cons f c cs g h) id,
      Function.call_names f c hi id]
    constructor
    · rintro ((hm | ⟨d, hd⟩) | ⟨d, hd⟩)
      · exact Or.inl hm
      · exact Or.inr ⟨d, by rw [hd]; simp⟩
      · exact Or.inr ⟨d, by simp [hd]⟩
    · rintro (hm | ⟨d, hd⟩)
      · exact Or.inl (Or.inl hm)
      · rcases List.mem_cons.1 hd with h1 | h1
        · exact Or.inl (Or.inr ⟨d, h1.symm⟩)
        · exact Or.inr ⟨d, h1⟩

/-- C12: on a function reached from a fresh one by any sequence of calls,
`add_symbol` ends with the redeclaration exception if and only if the name is
already declared (some `symbol_name(k)` returns it), which is the case if and
only if an earlier call of `add_symbol` gave that name; a name not yet declared
is accepted, becomes the name of the next position and leaves the earlier
positions as they were; so after declaring "x" then "y", `symbol_name(0)` is
"x" and `symbol_name(1)` is "y", and a second "x" is refused. -/
theorem add_symbol_redeclaration (name : String) (calls : List FunctionCall) (f : Function)
    (hrun : (Function.new_ name).run calls = some f) (id : String) (dim : Dim) :
    ((f.add_symbol id dim).2
        = .error (.NonRecoverableException ("Redeclared symbol \"" ++ id ++ "\""))
      ↔ ∃ k, f.symbol_name k = some id) ∧
    ((∃ k, f.symbol_name k = some id) ↔ ∃ d, FunctionCall.add_symbol id d ∈ calls) ∧
    ((¬ ∃ k, f.symbol_name k = some id) →
      (∃ sbl, (f.add_symbol id dim).2 = .ok sbl ∧ sbl.name = id) ∧
      (f.add_symbol id dim).1.symbol_name f.key_count = some id ∧
      ∀ k, k < f.key_count → (f.add_symbol id dim).1.symbol_name k = f.symbol_name k) ∧
    (∀ d1 d2 : Dim,
      ((Function.new_ name).run [.add_symbol "x" d1, .add_symbol "y" d2]).map
        (fun g => (g.symbol_name 0, g.symbol_name 1)) = some (some "x", some "y")) ∧
    (∀ d1 d2 : Dim,
      (((Function.new_ name).add_symbol "x" d1).1.add_symbol "x" d2).2
        = .error (.NonRecoverableException "Redeclared symbol \"x\"")) := by
  have hi : f.Inv := Function.run_inv calls _ f (Function.inv_new name) hrun
  have hused : f.id2info.used id = true ↔ ∃ k, f.symbol_name k = some id := by
    rw [SymbolMap.used_iff, hi.names, Function.symbol_name_iff]
  refine ⟨?_, ?_, ?_, ?_, ?_⟩
  · rw [← hused]
    cases h : f.id2info.used id with
    | true => simp [Function.add_symbol_used f id dim h]
    | false => simp [Function.add_symbol_new f id dim h]
  · rw [Function.symbol_name_iff,
      Function.run_names calls _ f (Function.inv_new name) hrun id]
    simp [Function.new_]
  · intro hnot
    have h : f.id2info.used id = false := by
      cases h : f.id2info.used id with
      | true => exact absurd (hused.1 h) hnot
      | false => rfl
    rw [Function.add_symbol_new f id dim h]
    refine ⟨⟨_, rfl, rfl⟩, ?_, ?_⟩
    · simp [Function.symbol_name, hi.count]
    · intro k hk
      rw [hi.count] at hk
      simp [Function.symbol_name, List.getElem?_append_left hk]
  · intro d1 d2; rfl
  · intro d1 d2; rfl

/-- Witness of C12: declaring "x" again after "x", "y" and "z". -/
theorem add_symbol_redeclaration_witness :
    ((sample_declared.add_symbol "x" .scalar).2
        = .error (.NonRecoverableException ("Redeclared symbol \"" ++ "x" ++ "\""))
      ↔ ∃ k, sample_declared.symbol_name k = some "x") ∧
    ((∃ k, sample_declared.symbol_name k = some "x")
      ↔ ∃ d, FunctionCall.add_symbol "x" d ∈ sample_calls) ∧
    ((¬ ∃ k, sample_declared.symbol_name k = some "x") →
      (∃ sbl, (sample_declared.add_symbol "x" .scalar).2 = .ok sbl ∧ sbl.name = "x") ∧
      (sample_declared.add_symbol "x" .scalar).1.symbol_name sample_declared.key_count
        = some "x" ∧
      ∀ k, k < sample_declared.key_count →
        (sample_declared.add_symbol "x" .scalar).1.symbol_name k
          = sample_declared.symbol_name k) ∧
    (∀ d1 d2 : Dim,
      ((Function.new_ "f").run [.add_symbol "x" d1, .add_symbol "y" d2]).map
        (fun g => (g.symbol_name 0, g.symbol_name 1)) = some (some "x", some "y")) ∧
    (∀ d1 d2 : Dim,
      (((Function.new_ "f").add_symbol "x" d1).1.add_symbol "x" d2).2
        = .error (.NonRecoverableException "Redeclared symbol \"x\"")) :=
  add_symbol_redeclaration "f" sample_calls sample_declared rfl "x" .scalar

/-- C14: `set_expr` returns normally only on a function whose root is unset,
and then the given node is the root; on a function whose root is set the
assertion fails and the function object, its root included, is left as it
was, so a second `set_expr` after a successful one always fails; on a
function whose root is unset and whose flag list covers the keys of the
symbols of the expression it does return normally, as on the function with
the declared symbols `x`, `y`, `z` and the expression `x + y*y`. -/
theorem set_expr_once (f : Function) (expr : ExprNode) :
    ((f.set_expr expr).2 = .ok () →
      f.root = none ∧ (f.set_expr expr).1.root = some expr) ∧
    (∀ r, f.root = some r → f.set_expr expr = (f, .error (.assertion "root==NULL"))) ∧
    (f.root = none → (∀ k, k ∈ FindSymbolsUsed.keys expr → k < f.is_used.length) →
      (f.set_expr expr).2 = .ok () ∧ (f.set_expr expr).1.root = some expr) ∧
    (∀ expr2, (f.set_expr expr).2 = .ok () →
      (f.set_expr expr).1.set_expr expr2
        = ((f.set_expr expr).1, .error (.assertion "root==NULL")) ∧
      ((f.set_expr expr).1.set_expr expr2).1.root = some expr) ∧
    ((sample_declared.set_expr (sample_f NULL NULL NULL NULL)).2 = .ok () ∧
      ((sample_declared.set_expr (sample_f NULL NULL NULL NULL)).1.set_expr sample_vec).2
        = .error (.assertion "root==NULL") ∧
      ((sample_declared.set_expr (sample_f NULL NULL NULL NULL)).1.set_expr sample_vec).1.root
        = some (sample_f NULL NULL NULL NULL)) := by
  have h1 : (f.set_expr expr).2 = .ok () →
      f.root = none ∧ (f.set_expr expr).1.root = some expr := by
    intro h
    unfold Function.set_expr at h ⊢
    cases hroot : f.root with
    | some r => rw [hroot] at h; simp at h
    | none => simp
  have h2 : ∀ (g : Function) (e2 : ExprNode) (r : ExprNode), g.root = some r →
      g.set_expr e2 = (g, .error (.assertion "root==NULL")) := by
    intro g e2 r hr
    simp [Function.set_expr, hr]
  refine ⟨h1, fun r hr => h2 f expr r hr, ?_, ?_, ⟨rfl, rfl, rfl⟩⟩
  · intro hroot hk
    refine ⟨?_, ?_⟩
    · simp only [Function.set_expr, hroot]
      exact (Function.mark_used_ok _ _ hk).1
    · simp [Function.set_expr, hroot]
  · intro expr2 hok
    have := h2 (f.set_expr expr).1 expr2 expr (h1 hok).2
    refine ⟨this, ?_⟩
    rw [this]
    exact (h1 hok).2

/-- C15: on a function reached from a fresh one by calls that left the root
unset (so that its symbols are declared and none is flagged), and for an
expression whose symbols all belong to the function, `set_expr` returns
normally, makes the expression the root, and leaves `is_used[k]` true exactly
for the declared symbols that occur in the expression, false for the others. -/
theorem set_expr_marks_used (name : String) (calls : List FunctionCall) (f : Function)
    (expr : ExprNode) (hrun : (Function.new_ name).run calls = some f)
    (hroot : f.root = none)
    (hbelongs : ∀ h nm k, ExprNode.ExprSymbol h nm k ∈ expr.preorder →
      (⟨h, nm, k⟩ : ExprSymbol) ∈ f.order2info) :
    (f.set_expr expr).2 = .ok () ∧
    (f.set_expr expr).1.root = some expr ∧
    (f.set_expr expr).1.order2info = f.order2info ∧
    (f.set_expr expr).1.is_used.length = f.key_count ∧
    ∀ (k : Nat) (sbl : ExprSymbol), f.order2info[k]? = some sbl →
      sbl.key = k ∧
      ((f.set_expr expr).1.is_used[k]? = some true ↔ sbl.node ∈ expr.preorder) ∧
      ((f.set_expr expr).1.is_used[k]? = some false ↔ sbl.node ∉ expr.preorder) := by
  have hi : f.Inv := Function.run_inv calls _ f (Function.inv_new name) hrun
  have hkeys : ∀ k, k ∈ FindSymbolsUsed.keys expr → k < f.is_used.length := by
    intro k hk
    obtain ⟨h, nm, hmem⟩ := (FindSymbolsUsed.mem_keys expr k).1 hk
    obtain ⟨j, hj⟩ := List.getElem?_of_mem (hbelongs h nm k hmem)
    have hjk : k = j := hi.keys j _ hj
    have hlt : j < f.order2info.length := by
      rcases Nat.lt_or_ge j f.order2info.length with h1 | h1
      · exact h1
      · rw [List.getElem?_eq_none h1] at hj; cases hj
    rw [hi.flags, hjk]; exact hlt
  obtain ⟨hok, hget⟩ := Function.mark_used_ok (FindSymbolsUsed.keys expr) f.is_used hkeys
  have hstate : (f.set_expr expr).1
      = { f with root := some expr,
                 is_used := (Function.mark_used f.is_used (FindSymbolsUsed.keys expr)).1 } := by
    simp [Function.set_expr, hroot]
  refine ⟨?_, ?_, ?_, ?_, ?_⟩
  · simp only [Function.set_expr, hroot]; exact hok
  · rw [hstate]
  · rw [hstate]
  · rw [hstate]; simp only [Function.mark_used_length]; rw [hi.flags, hi.count]
  · intro k sbl hk
    have hkey : sbl.key = k := hi.keys k sbl hk
    have hlt : k < f.is_used.length := by
      rw [hi.flags]
      rcases Nat.lt_or_ge k f.order2info.length with h1 | h1
      · exact h1
      · rw [List.getElem?_eq_none h1] at hk; cases hk
    have hfalse : f.is_used[k]? = some false := by
      rw [List.getElem?_eq_getElem hlt]
      exact congrArg some (hi.unused hroot _ (List.getElem_mem hlt))
    have hocc : k ∈ FindSymbolsUsed.keys expr ↔ sbl.node ∈ expr.preorder := by
      rw [FindSymbolsUsed.mem_keys]
      constructor
      · rintro ⟨h, nm, hmem⟩
        obtain ⟨j, hj⟩ := List.getElem?_of_mem (hbelongs h nm k hmem)
        have hjk : k = j := hi.keys j _ hj
        subst hjk
        rw [hk] at hj
        have : sbl = ⟨h, nm, k⟩ := Option.some.inj hj
        rw [this]; exact hmem
      · intro hmem
        refine ⟨sbl.h, sbl.name, ?_⟩
        rw [← hkey]; exact hmem
    have hval : (f.set_expr expr).1.is_used[k]?
        = if k ∈ FindSymbolsUsed.keys expr then some true else some false := by
      rw [hstate]; simp only; rw [hget k hlt, hfalse]
    refine ⟨hkey, ?_, ?_⟩
    · rw [hval, ← hocc]
      by_cases hin : k ∈ FindSymbolsUsed.keys expr <;> simp [hin]
    · rw [hval, ← hocc]
      by_cases hin : k ∈ FindSymbolsUsed.keys expr <;> simp [hin]

/-- Witness of C15: `set_expr(x + y*y)` on the function with the declared symbols
`x`, `y` and `z`. -/
theorem set_expr_marks_used_witness :
    (sample_declared.set_expr (sample_f NULL NULL NULL NULL)).2 = .ok () ∧
    (sample_declared.set_expr (sample_f NULL NULL NULL NULL)).1.root
      = some (sample_f NULL NULL NULL NULL) ∧
    (sample_declared.set_expr (sample_f NULL NULL NULL NULL)).1.order2info
      = sample_declared.order2info ∧
    (sample_declared.set_expr (sample_f NULL NULL NULL NULL)).1.is_used.length
      = sample_declared.key_count ∧
    ∀ (k : Nat) (sbl : ExprSymbol), sample_declared.order2info[k]? = some sbl →
      sbl.key = k ∧
      ((sample_declared.set_expr (sample_f NULL NULL NULL NULL)).1.is_used[k]? = some true
        ↔ sbl.node ∈ (sample_f NULL NULL NULL NULL).preorder) ∧
      ((sample_declared.set_expr (sample_f NULL NULL NULL NULL)).1.is_used[k]? = some false
        ↔ sbl.node ∉ (sample_f NULL NULL NULL NULL).preorder) :=
  set_expr_marks_used "f" sample_calls sample_declared (sample_f NULL NULL NULL NULL) rfl rfl
    (by
      intro h nm k hmem
      simp [sample_f, sample_x, sample_y, sample_yy, ExprNode.preorder] at hmem
      rcases hmem with ⟨h1, h2, h3⟩ | ⟨h1, h2, h3⟩ <;> subst h1 h2 h3 <;>
        simp [sample_declared, NULL])

/-- C13: on a function whose root is already decorated, `decorate` returns
at once: whatever the decorator and the compile step would do, the function
and the rest of the state (the labels) are left exactly as they were, and the
log of the steps that ran stays as it was; hence decorating twice has the
effect of decorating once, also from a state in which the first call did the
work. -/
theorem decorate_idempotent {σ : Type} (d cf_compile : Function × σ → Function × σ)
    (f : Function) (s : σ) (log : List DecorateStep) (root : ExprNode)
    (hroot : f.root = some root) (hdeco : root.deco ≠ NULL) :
    Function.decorate d cf_compile f s = ((f, s), .ok ()) ∧
    Function.decorate (logged .decorator d) (logged .compile cf_compile) f (s, log)
      = ((f, (s, log)), .ok ()) ∧
    Function.decorate d cf_compile (Function.decorate d cf_compile f s).1.1
        (Function.decorate d cf_compile f s).1.2
      = Function.decorate d cf_compile f s ∧
    ∀ (f0 : Function) (s0 : σ),
      (∃ r, (Function.decorate d cf_compile f0 s0).1.1.root = some r ∧ r.deco ≠ NULL) →
      Function.decorate d cf_compile (Function.decorate d cf_compile f0 s0).1.1
          (Function.decorate d cf_compile f0 s0).1.2
        = ((Function.decorate d cf_compile f0 s0).1, .ok ()) := by
  have key : ∀ (τ : Type) (d1 c1 : Function × τ → Function × τ) (g : Function) (t : τ)
      (r : ExprNode), g.root = some r → r.deco ≠ NULL →
      Function.decorate d1 c1 g t = ((g, t), .ok ()) := by
    intro τ d1 c1 g t r hr hd
    simp [Function.decorate, hr, hd]
  refine ⟨key σ d cf_compile f s root hroot hdeco, key _ _ _ f (s, log) root hroot hdeco, ?_, ?_⟩
  · rw [key σ d cf_compile f s root hroot hdeco]
    exact key σ d cf_compile f s root hroot hdeco
  · rintro f0 s0 ⟨r, hr, hd⟩
    exact key σ d cf_compile _ _ r hr hd

/-- Witness of C13: the decorated function `f(x,y,z) = x + y*y`, with a
decorator and a compile step that would unset the root if they ran. -/
theorem decorate_idempotent_witness :
    Function.decorate (fun p => ({ p.1 with root := none }, p.2))
        (fun p => ({ p.1 with root := none }, p.2)) sample_decorated ()
      = ((sample_decorated, ()), .ok ()) ∧
    Function.decorate
        (logged .decorator (fun p : Function × Unit => ({ p.1 with root := none }, p.2)))
        (logged .compile (fun p : Function × Unit => ({ p.1 with root := none }, p.2)))
        sample_decorated ((), [])
      = ((sample_decorated, ((), [])), .ok ()) ∧
    Function.decorate (fun p => ({ p.1 with root := none }, p.2))
        (fun p => ({ p.1 with root := none }, p.2))
        (Function.decorate (fun p => ({ p.1 with root := none }, p.2))
          (fun p => ({ p.1 with root := none }, p.2)) sample_decorated ()).1.1
        (Function.decorate (fun p => ({ p.1 with root := none }, p.2))
          (fun p => ({ p.1 with root := none }, p.2)) sample_decorated ()).1.2
      = Function.decorate (fun p => ({ p.1 with root := none }, p.2))
          (fun p => ({ p.1 with root := none }, p.2)) sample_decorated () ∧
    ∀ (f0 : Function) (s0 : Unit),
      (∃ r, (Function.decorate (fun p => ({ p.1 with root := none }, p.2))
          (fun p => ({ p.1 with root := none }, p.2)) f0 s0).1.1.root = some r ∧
        r.deco ≠ NULL) →
      Function.decorate (fun p => ({ p.1 with root := none }, p.2))
          (fun p => ({ p.1 with root := none }, p.2))
          (Function.decorate (fun p => ({ p.1 with root := none }, p.2))
            (fun p => ({ p.1 with root := none }, p.2)) f0 s0).1.1
          (Function.decorate (fun p => ({ p.1 with root := none }, p.2))
            (fun p => ({ p.1 with root := none }, p.2)) f0 s0).1.2
        = ((Function.decorate (fun p => ({ p.1 with root := none }, p.2))
            (fun p => ({ p.1 with root := none }, p.2)) f0 s0).1, .ok ()) :=
  decorate_idempotent (fun p => ({ p.1 with root := none }, p.2))
    (fun p => ({ p.1 with root := none }, p.2)) sample_decorated () []
    (sample_f 100 101 102 103) rfl (by decide)

/-- C18: on a function whose root has not been set, `decorate` fails its
assertion: whatever the decorator and the compile step would do, the function
and the rest of the state are left as they were and the log of the steps that
ran stays as it was. -/
theorem decorate_without_root {σ : Type} (d cf_compile : Function × σ → Function × σ)
    (f : Function) (s : σ) (log : List DecorateStep) (hroot : f.root = none) :
    Function.decorate d cf_compile f s = ((f, s), .error (.assertion "root!=NULL")) ∧
    Function.decorate (logged .decorator d) (logged .compile cf_compile) f (s, log)
      = ((f, (s, log)), .error (.assertion "root!=NULL")) := by
  constructor <;> simp [Function.decorate, hroot]

/-- Witness of C18: the function with the declared symbols `x`, `y`, `z` and no
expression yet, with a decorator and a compile step that would set a root if
they ran. -/
theorem decorate_without_root_witness :
    Function.decorate (fun p => ({ p.1 with root := some sample_vec }, p.2))
        (fun p => ({ p.1 with root := some sample_vec }, p.2)) sample_declared ()
      = ((sample_declared, ()), .error (.assertion "root!=NULL")) ∧
    Function.decorate
        (logged .decorator
          (fun p : Function × Unit => ({ p.1 with root := some sample_vec }, p.2)))
        (logged .compile
          (fun p : Function × Unit => ({ p.1 with root := some sample_vec }, p.2)))
        sample_declared ((), [])
      = ((sample_declared, ((), [])), .error (.assertion "root!=NULL")) :=
  decorate_without_root (fun p => ({ p.1 with root := some sample_vec }, p.2))
    (fun p => ({ p.1 with root := some sample_vec }, p.2)) sample_declared () [] rfl

/-! ## Multiply shapes -/

/-- C21 (as amended): in every compiled expression, for a multiply node
emitted at any tape index, MUL_MV is stored only (and whenever) the left
operand is a matrix and the right a vector; MUL_VV is stored exactly when the
left operand is a vector, whatever the right operand; MUL_MM exactly when the
left operand is a matrix and the right is not a vector.  So MUL_VV names the
shapes when the right operand of a vector is a vector, and MUL_MM when the
right operand of a matrix is a matrix. -/
theorem compile_mul_shapes (e : ExprNode) (h : e.visits ≤ e.size) :
    ∃ cf, compile e = some cf ∧
      ∀ (i : Nat) (hd : ExprHeader) (l r : ExprNode),
        e.preorder[i]? = some (.ExprBinaryOp .ExprMul hd l r) →
          (cf.code[i]? = some (some .MUL_MV) ↔
            l.dim.is_matrix = true ∧ r.dim.is_vector = true) ∧
          (cf.code[i]? = some (some .MUL_VV) ↔ l.dim.is_vector = true) ∧
          (cf.code[i]? = some (some .MUL_MM) ↔
            l.dim.is_matrix = true ∧ r.dim.is_vector = false) ∧
          (cf.code[i]? = some (some .MUL_VV) → r.dim.is_vector = true →
            l.dim.is_vector = true ∧ r.dim.is_vector = true) ∧
          (cf.code[i]? = some (some .MUL_MM) → r.dim.is_matrix = true →
            l.dim.is_matrix = true ∧ r.dim.is_matrix = true) := by
  obtain ⟨cf, hcf, hc⟩ := compile_compiled e h
  refine ⟨cf, hcf, ?_⟩
  intro i hd l r hn
  have hcode : cf.code[i]? = some (some (mul_table l.dim r.dim)) := by
    rw [(hc.at_index hn).2.1]
    simp [instr_code, visit_binary, visit_ExprMul_eq_table]
  rw [hcode]
  cases l.dim <;> cases r.dim <;>
    simp [mul_table, Dim.is_matrix, Dim.is_vector]

/-- Witness of C21 (as amended) on an expression with a scalar*vector and a
matrix*vector product. -/
theorem compile_mul_shapes_witness :
    ∃ cf, compile sample_mixed = some cf ∧
      ∀ (i : Nat) (hd : ExprHeader) (l r : ExprNode),
        sample_mixed.preorder[i]? = some (.ExprBinaryOp .ExprMul hd l r) →
          (cf.code[i]? = some (some .MUL_MV) ↔
            l.dim.is_matrix = true ∧ r.dim.is_vector = true) ∧
          (cf.code[i]? = some (some .MUL_VV) ↔ l.dim.is_vector = true) ∧
          (cf.code[i]? = some (some .MUL_MM) ↔
            l.dim.is_matrix = true ∧ r.dim.is_vector = false) ∧
          (cf.code[i]? = some (some .MUL_VV) → r.dim.is_vector = true →
            l.dim.is_vector = true ∧ r.dim.is_vector = true) ∧
          (cf.code[i]? = some (some .MUL_MM) → r.dim.is_matrix = true →
            l.dim.is_matrix = true ∧ r.dim.is_matrix = true) :=
  compile_mul_shapes sample_mixed (by decide)

/-- C21 (counterexample): the product `v * m` of a vector by a matrix is
compiled to MUL_VV although its right operand is not a vector, and the product
`m * s` of a matrix by a scalar to MUL_MM although its right operand is not a
matrix. -/
theorem mul_opcode_misnames_shapes :
    (compile sample_vm).map (fun cf => cf.code[0]?) = some (some (some .MUL_VV)) ∧
    (compile sample_vm).map (fun cf => cf.nodes[0]?) = some (some (some sample_vm)) ∧
    (sample_vm.children.map (fun c => c.dim.is_vector)) = [true, false] ∧
    (compile sample_ms).map (fun cf => cf.code[0]?) = some (some (some .MUL_MM)) ∧
    (compile sample_ms).map (fun cf => cf.nodes[0]?) = some (some (some sample_ms)) ∧
    (sample_ms.children.map (fun c => c.dim.is_matrix)) = [true, false] := by
  refine ⟨rfl, rfl, rfl, rfl, rfl, rfl⟩

/-! ## Declarations -/

theorem Function.call_returned (f : Function) (c : FunctionCall) (cs : List FunctionCall) :
    ∃ new : List ExprSymbol,
      f.returned (c :: cs) = new ++ (f.call c).1.returned cs ∧
      (f.call c).1.order2info = f.order2info ++ new := by
  cases c with
  | add_symbol id dim =>
    cases h : f.id2info.used id with
    | true =>
      refine ⟨[], ?_, ?_⟩
      · simp [Function.returned, Function.call, Function.add_symbol_used f id dim h]
      · simp [Function.call, Function.add_symbol_used f id dim h]
    | false =>
      refine ⟨[⟨⟨f.nb_nodes, dim, NULL, 1⟩, id, f.key_count⟩], ?_, ?_⟩
      · simp [Function.returned, Function.call, Function.add_symbol_new f id dim h]
      · simp [Function.call, Function.add_symbol_new f id dim h]
  | set_expr expr =>
    refine ⟨[], ?_, ?_⟩
    · simp [Function.returned, Function.call]
    · simp only [Function.call, Function.set_expr]
      cases f.root <;> simp

/-- The declaration-order list grows by exactly the symbols that the
successful declarations returned, in call order. -/
theorem Function.run_returned :
    ∀ (calls : List FunctionCall) (f g : Function), f.run calls = some g →
      g.order2info = f.order2info ++ f.returned calls := by
  intro calls
  induction calls with
  | nil =>
    intro f g h
    simp [Function.run] at h
    subst h
    simp [Function.returned]
  | cons c cs ih =>
    intro f g h
    obtain ⟨new, h1, h2⟩ := Function.call_returned f c cs
    rw [ih _ g (Function.run_cons f c cs g h), h1, h2, List.append_assoc]

/-- C22: after any sequence of `add_symbol` and `set_expr` calls on a fresh
function, `key_count` is the number of declarations that succeeded and the
length of both the declaration-order list and the used-flag list; that list
holds the symbols the successful declarations returned, in order, so the
symbol of the n-th successful declaration sits at position n, and it carries
key n. -/
theorem key_count_counts_declarations (name : String) (calls : List FunctionCall)
    (g : Function) (hrun : (Function.new_ name).run calls = some g) :
    g.key_count = ((Function.new_ name).returned calls).length ∧
    g.key_count = g.order2info.length ∧
    g.key_count = g.is_used.length ∧
    g.order2info = (Function.new_ name).returned calls ∧
    ∀ (n : Nat) (sbl : ExprSymbol), ((Function.new_ name).returned calls)[n]? = some sbl →
      sbl.key = n ∧ g.order2info[n]? = some sbl := by
  have hi : g.Inv := Function.run_inv calls _ g (Function.inv_new name) hrun
  have ho : g.order2info = (Function.new_ name).returned calls := by
    rw [Function.run_returned calls _ g hrun]
    simp [Function.new_]
  refine ⟨?_, hi.count, ?_, ho, ?_⟩
  · rw [hi.count, ho]
  · rw [hi.count, hi.flags]
  · intro n sbl hn
    rw [← ho] at hn
    exact ⟨hi.keys n sbl hn, hn⟩

/-- Witness of C22: declarations of "x", "y", "x" again (refused), then
`set_expr`, then a declaration of "z". -/
theorem key_count_counts_declarations_witness :
    sample_after_mixed.key_count = ((Function.new_ "f").returned sample_calls_mixed).length ∧
    sample_after_mixed.key_count = sample_after_mixed.order2info.length ∧
    sample_after_mixed.key_count = sample_after_mixed.is_used.length ∧
    sample_after_mixed.order2info = (Function.new_ "f").returned sample_calls_mixed ∧
    ∀ (n : Nat) (sbl : ExprSymbol),
      ((Function.new_ "f").returned sample_calls_mixed)[n]? = some sbl →
        sbl.key = n ∧ sample_after_mixed.order2info[n]? = some sbl :=
  key_count_counts_declarations "f" sample_calls_mixed sample_after_mixed rfl

/-- C23: on a function reached from a fresh one by any sequence of calls,
`add_symbol` with a name that is already declared throws before it changes
anything: the function object is the one it was, so `key_count`, the name
table, the declaration-order list, the used-flag list and the list of nodes
are what they were.  In general, whenever `add_symbol` ends with an error the
function object is unchanged. -/
theorem add_symbol_atomic (name : String) (calls : List FunctionCall) (f : Function)
    (hrun : (Function.new_ name).run calls = some f) (id : String) (dim : Dim)
    (hdecl : ∃ k, f.symbol_name k = some id) :
    f.add_symbol id dim
      = (f, .error (.NonRecoverableException ("Redeclared symbol \"" ++ id ++ "\""))) ∧
    (f.add_symbol id dim).1.key_count = f.key_count ∧
    (f.add_symbol id dim).1.id2info = f.id2info ∧
    (f.add_symbol id dim).1.order2info = f.order2info ∧
    (f.add_symbol id dim).1.is_used = f.is_used ∧
    (f.add_symbol id dim).1.exprnodes = f.exprnodes ∧
    (f.add_symbol id dim).1.nb_nodes = f.nb_nodes ∧
    ∀ (g : Function) (id1 : String) (d1 : Dim) (err : Failure),
      (g.add_symbol id1 d1).2 = .error err → (g.add_symbol id1 d1).1 = g := by
  have hi : f.Inv := Function.run_inv calls _ f (Function.inv_new name) hrun
  have hused : f.id2info.used id = true := by
    rw [SymbolMap.used_iff, hi.names, ← Function.symbol_name_iff]; exact hdecl
  have heq := Function.add_symbol_used f id dim hused
  refine ⟨heq, ?_, ?_, ?_, ?_, ?_, ?_, ?_⟩
  · rw [heq]
  · rw [heq]
  · rw [heq]
  · rw [heq]
  · rw [heq]
  · rw [heq]
  · intro g id1 d1 err herr
    cases h : g.id2info.used id1 with
    | true => rw [Function.add_symbol_used g id1 d1 h]
    | false => rw [Function.add_symbol_new g id1 d1 h] at herr; cases herr

/-- Witness of C23: declaring "y" again after "x", "y" and "z". -/
theorem add_symbol_atomic_witness :
    sample_declared.add_symbol "y" (.vector 2)
      = (sample_declared,
          .error (.NonRecoverableException ("Redeclared symbol \"" ++ "y" ++ "\""))) ∧
    (sample_declared.add_symbol "y" (.vector 2)).1.key_count = sample_declared.key_count ∧
    (sample_declared.add_symbol "y" (.vector 2)).1.id2info = sample_declared.id2info ∧
    (sample_declared.add_symbol "y" (.vector 2)).1.order2info = sample_declared.order2info ∧
    (sample_declared.add_symbol "y" (.vector 2)).1.is_used = sample_declared.is_used ∧
    (sample_declared.add_symbol "y" (.vector 2)).1.exprnodes = sample_declared.exprnodes ∧
    (sample_declared.add_symbol "y" (.vector 2)).1.nb_nodes = sample_declared.nb_nodes ∧
    ∀ (g : Function) (id1 : String) (d1 : Dim) (err : Failure),
      (g.add_symbol id1 d1).2 = .error err → (g.add_symbol id1 d1).1 = g :=
  add_symbol_atomic "f" sample_calls sample_declared rfl "y" (.vector 2) ⟨1, rfl⟩

/-! ## Combined linear relaxation -/

theorem combo_inlinearization_compo {Sys D B σ : Type} (sub : SubRelaxations Sys D B σ)
    (sys : Sys) (box : B) (lp : σ) :
    (LinearRelaxCombo.new_ sub sys .COMPO).inlinearization box lp
      = .ok (if ((sub.xnewton sys .COMPO).inlinearization box lp).1 < 0
          then (sub.art sys).inlinearization box
            ((sub.xnewton sys .COMPO).inlinearization box lp).2
          else (sub.xnewton sys .COMPO).inlinearization box lp) := by
  simp only [LinearRelaxCombo.inlinearization, LinearRelaxCombo.new_, deref, bind, Except.bind,
    pure, Except.pure, SubRelaxations.xnewton, SubRelaxations.art, xtaylor_mode_for,
    List.nil_append, List.cons_append]
  split <;> rfl

theorem combo_goal_linearization_compo {Sys D B σ : Type} (sub : SubRelaxations Sys D B σ)
    (sys : Sys) (box : B) (lp : σ) :
    (LinearRelaxCombo.new_ sub sys .COMPO).goal_linearization box lp
      = .ok (if ((sub.xnewton sys .COMPO).goal_linearization box lp).1 = true
          then (sub.xnewton sys .COMPO).goal_linearization box lp
          else (sub.art sys).goal_linearization box
            ((sub.xnewton sys .COMPO).goal_linearization box lp).2) := by
  simp only [LinearRelaxCombo.goal_linearization, LinearRelaxCombo.new_, deref, bind,
    Except.bind, pure, Except.pure, SubRelaxations.xnewton, SubRelaxations.art,
    xtaylor_mode_for, List.nil_append, List.cons_append]
  cases h : ((sub.LinearRelaxXTaylor sys [corner_point.RANDOM, corner_point.RANDOM_INV]
    xtaylor_mode.HANSEN sub.default_max_diam_deriv).goal_linearization box lp).1 <;> simp

theorem combo_linearization_compo {Sys D B σ : Type} (sub : SubRelaxations Sys D B σ)
    (sys : Sys) (box : B) (lp : σ) :
    (LinearRelaxCombo.new_ sub sys .COMPO).linearization box lp
      = (int_add ((sub.xnewton sys .COMPO).linearization box lp).1
          ((sub.art sys).linearization box
            ((sub.xnewton sys .COMPO).linearization box lp).2).1).map
        (fun sum => (sum, ((sub.art sys).linearization box
            ((sub.xnewton sys .COMPO).linearization box lp).2).2)) := by
  simp only [LinearRelaxCombo.linearization, LinearRelaxCombo.new_, deref, bind, Except.bind,
    pure, Except.pure, SubRelaxations.xnewton, SubRelaxations.art, xtaylor_mode_for,
    List.nil_append, List.cons_append]
  cases int_add _ _ <;> rfl

theorem instrument_xnewton {Sys D B σ : Type} (sub : SubRelaxations Sys D B σ) (sys : Sys)
    (mode : linear_mode) :
    sub.instrument.xnewton sys mode = (sub.xnewton sys mode).logged .XTaylor := rfl

theorem instrument_art {Sys D B σ : Type} (sub : SubRelaxations Sys D B σ) (sys : Sys) :
    sub.instrument.art sys = (sub.art sys).logged .Affine2 := rfl

/-- C24: for every mode, the constructor leaves `myart` non-null exactly in the
modes ART, AFFINE2 and COMPO and `myxnewton` non-null exactly in the modes
XNEWTON, TAYLOR, HANSEN and COMPO; none of the three methods ever calls
through a null pointer; the sub-relaxations that `inlinearization` and
`goal_linearization` call are among those created for the mode, and those
that `linearization` calls are exactly those created for the mode. -/
theorem combo_no_null {Sys D B σ : Type} (sub : SubRelaxations Sys D B σ) (sys : Sys)
    (mode : linear_mode) (box : B) (lp : σ) (log : List SubRelax) :
    (LinearRelaxCombo.new_ sub sys mode).lmode = mode ∧
    (LinearRelaxCombo.new_ sub sys mode).myart
      = (if SubRelax.Affine2 ∈ created_for mode then some (sub.art sys) else none) ∧
    (LinearRelaxCombo.new_ sub sys mode).myxnewton
      = (if SubRelax.XTaylor ∈ created_for mode then some (sub.xnewton sys mode) else none) ∧
    (∃ r, (LinearRelaxCombo.new_ sub sys mode).inlinearization box lp = .ok r) ∧
    (∃ r, (LinearRelaxCombo.new_ sub sys mode).goal_linearization box lp = .ok r) ∧
    (LinearRelaxCombo.new_ sub sys mode).linearization box lp ≠ .error .null_pointer ∧
    (∃ v lp1 used,
      (LinearRelaxCombo.new_ sub.instrument sys mode).inlinearization box (lp, log)
        = .ok (v, (lp1, log ++ used)) ∧
      used ≠ [] ∧ ∀ t, t ∈ used → t ∈ created_for mode) ∧
    (∃ v lp1 used,
      (LinearRelaxCombo.new_ sub.instrument sys mode).goal_linearization box (lp, log)
        = .ok (v, (lp1, log ++ used)) ∧
      used ≠ [] ∧ ∀ t, t ∈ used → t ∈ created_for mode) ∧
    (∀ r, (LinearRelaxCombo.new_ sub.instrument sys mode).linearization box (lp, log) = .ok r →
      ∃ used, r.2.2 = log ++ used ∧ ∀ t, t ∈ used ↔ t ∈ created_for mode) := by
  refine ⟨?_, ?_, ?_, ?_, ?_, ?_, ?_, ?_, ?_⟩
  · cases mode <;> rfl
  · cases mode <;> rfl
  · cases mode <;> rfl
  · cases mode
    case COMPO => exact ⟨_, combo_inlinearization_compo sub sys box lp⟩
    all_goals exact ⟨_, rfl⟩
  · cases mode
    case COMPO => exact ⟨_, combo_goal_linearization_compo sub sys box lp⟩
    all_goals exact ⟨_, rfl⟩
  · cases mode
    case COMPO =>
      rw [combo_linearization_compo]
      simp only [int_add]
      split <;> (intro h; cases h)
    all_goals (intro h; cases h)
  · cases mode
    case COMPO =>
      rw [combo_inlinearization_compo, instrument_xnewton, instrument_art]
      by_cases hneg : ((sub.xnewton sys .COMPO).inlinearization box lp).1 < 0
      · exact ⟨((sub.art sys).inlinearization box
            ((sub.xnewton sys .COMPO).inlinearization box lp).2).1,
          ((sub.art sys).inlinearization box
            ((sub.xnewton sys .COMPO).inlinearization box lp).2).2,
          [.XTaylor, .Affine2], by simp [LinearRelax.logged, hneg],
          by simp, by simp [created_for]⟩
      · exact ⟨((sub.xnewton sys .COMPO).inlinearization box lp).1,
          ((sub.xnewton sys .COMPO).inlinearization box lp).2,
          [.XTaylor], by simp [LinearRelax.logged, hneg],
          by simp, by simp [created_for]⟩
    case ART => exact ⟨_, _, [.Affine2], rfl, by simp, by simp [created_for]⟩
    case AFFINE2 => exact ⟨_, _, [.Affine2], rfl, by simp, by simp [created_for]⟩
    case XNEWTON => exact ⟨_, _, [.XTaylor], rfl, by simp, by simp [created_for]⟩
    case TAYLOR => exact ⟨_, _, [.XTaylor], rfl, by simp, by simp [created_for]⟩
    case HANSEN => exact ⟨_, _, [.XTaylor], rfl, by simp, by simp [created_for]⟩
  · cases mode
    case COMPO =>
      rw [combo_goal_linearization_compo, instrument_xnewton, instrument_art]
      by_cases hok : ((sub.xnewton sys .COMPO).goal_linearization box lp).1 = true
      · exact ⟨((sub.xnewton sys .COMPO).goal_linearization box lp).1,
          ((sub.xnewton sys .COMPO).goal_linearization box lp).2,
          [.XTaylor], by simp [LinearRelax.logged, hok],
          by simp, by simp [created_for]⟩
      · exact ⟨((sub.art sys).goal_linearization box
            ((sub.xnewton sys .COMPO).goal_linearization box lp).2).1,
          ((sub.art sys).goal_linearization box
            ((sub.xnewton sys .COMPO).goal_linearization box lp).2).2,
          [.XTaylor, .Affine2], by simp [LinearRelax.logged, hok],
          by simp, by simp [created_for]⟩
    case ART => exact ⟨_, _, [.Affine2], rfl, by simp, by simp [created_for]⟩
    case AFFINE2 => exact ⟨_, _, [.Affine2], rfl, by simp, by simp [created_for]⟩
    case XNEWTON => exact ⟨_, _, [.XTaylor], rfl, by simp, by simp [created_for]⟩
    case TAYLOR => exact ⟨_, _, [.XTaylor], rfl, by simp, by simp [created_for]⟩
    case HANSEN => exact ⟨_, _, [.XTaylor], rfl, by simp, by simp [created_for]⟩
  · intro r hr
    cases mode
    case COMPO =>
      rw [combo_linearization_compo, instrument_xnewton, instrument_art] at hr
      simp only [int_add, LinearRelax.logged] at hr
      split at hr
      · simp only [Except.map] at hr
        cases hr
        exact ⟨[.XTaylor, .Affine2], by simp, by intro t; cases t <;> simp [created_for]⟩
      · simp [Except.map] at hr
    case ART =>
      cases hr; exact ⟨[.Affine2], rfl, by intro t; cases t <;> simp [created_for]⟩
    case AFFINE2 =>
      cases hr; exact ⟨[.Affine2], rfl, by intro t; cases t <;> simp [created_for]⟩
    case XNEWTON =>
      cases hr; exact ⟨[.XTaylor], rfl, by intro t; cases t <;> simp [created_for]⟩
    case TAYLOR =>
      cases hr; exact ⟨[.XTaylor], rfl, by intro t; cases t <;> simp [created_for]⟩
    case HANSEN =>
      cases hr; exact ⟨[.XTaylor], rfl, by intro t; cases t <;> simp [created_for]⟩

/-- C25: `linearization` returns, in the modes ART and AFFINE2, the result of
the Affine2 relaxation, and in the modes XNEWTON, TAYLOR and HANSEN the result
of the XTaylor relaxation, unchanged; in the mode COMPO it calls the XTaylor
relaxation first, then the Affine2 relaxation on the LP solver as XTaylor left
it, always both, and returns the sum of the two results (when that sum is an
`int`).  On the sample relaxations with a box of 5: 2 + 5 = 7 in COMPO. -/
theorem combo_linearization_result {Sys D B σ : Type} (sub : SubRelaxations Sys D B σ)
    (sys : Sys) (mode : linear_mode) (box : B) (lp : σ) (log : List SubRelax) :
    ((mode = .ART ∨ mode = .AFFINE2) →
      (LinearRelaxCombo.new_ sub sys mode).linearization box lp
        = .ok ((sub.art sys).linearization box lp) ∧
      (LinearRelaxCombo.new_ sub.instrument sys mode).linearization box (lp, log)
        = .ok (((sub.art sys).linearization box lp).1,
            (((sub.art sys).linearization box lp).2, log ++ [.Affine2]))) ∧
    ((mode = .XNEWTON ∨ mode = .TAYLOR ∨ mode = .HANSEN) →
      (LinearRelaxCombo.new_ sub sys mode).linearization box lp
        = .ok ((sub.xnewton sys mode).linearization box lp) ∧
      (LinearRelaxCombo.new_ sub.instrument sys mode).linearization box (lp, log)
        = .ok (((sub.xnewton sys mode).linearization box lp).1,
            (((sub.xnewton sys mode).linearization box lp).2, log ++ [.XTaylor]))) ∧
    (mode = .COMPO →
      INT_MIN ≤ ((sub.xnewton sys .COMPO).linearization box lp).1
        + ((sub.art sys).linearization box
            ((sub.xnewton sys .COMPO).linearization box lp).2).1 →
      ((sub.xnewton sys .COMPO).linearization box lp).1
        + ((sub.art sys).linearization box
            ((sub.xnewton sys .COMPO).linearization box lp).2).1 ≤ INT_MAX →
      (LinearRelaxCombo.new_ sub sys mode).linearization box lp
        = .ok (((sub.xnewton sys .COMPO).linearization box lp).1
            + ((sub.art sys).linearization box
                ((sub.xnewton sys .COMPO).linearization box lp).2).1,
          ((sub.art sys).linearization box
            ((sub.xnewton sys .COMPO).linearization box lp).2).2) ∧
      (LinearRelaxCombo.new_ sub.instrument sys mode).linearization box (lp, log)
        = .ok (((sub.xnewton sys .COMPO).linearization box lp).1
            + ((sub.art sys).linearization box
                ((sub.xnewton sys .COMPO).linearization box lp).2).1,
          (((sub.art sys).linearization box
            ((sub.xnewton sys .COMPO).linearization box lp).2).2,
           log ++ [.XTaylor, .Affine2]))) ∧
    ((LinearRelaxCombo.new_ sample_sub () .COMPO).linearization 5 [] = .ok (7, [2, 5]) ∧
      (LinearRelaxCombo.new_ sample_sub.instrument () .COMPO).linearization 5 ([], [])
        = .ok (7, ([2, 5], [.XTaylor, .Affine2])) ∧
      (LinearRelaxCombo.new_ sample_sub () .ART).linearization 5 [] = .ok (5, [5]) ∧
      (LinearRelaxCombo.new_ sample_sub () .TAYLOR).linearization 5 [] = .ok (2, [2])) := by
  refine ⟨?_, ?_, ?_, ⟨rfl, rfl, rfl, rfl⟩⟩
  · rintro (h | h) <;> subst h <;> exact ⟨rfl, rfl⟩
  · rintro (h | h | h) <;> subst h <;> exact ⟨rfl, rfl⟩
  · intro h h1 h2
    subst h
    constructor
    · rw [combo_linearization_compo]
      simp [int_add, h1, h2, Except.map]
    · rw [combo_linearization_compo, instrument_xnewton, instrument_art]
      simp only [LinearRelax.logged, int_add]
      simp [h1, h2, Except.map]

/-- C26: in the mode COMPO, `inlinearization` returns the result of the XTaylor
relaxation when it is not negative, without calling the Affine2 relaxation,
and otherwise the result of the Affine2 relaxation, called on the LP solver as
XTaylor left it; `goal_linearization` returns the result of the XTaylor
relaxation (true) when it is true, without calling the Affine2 relaxation,
and otherwise the result of the Affine2 relaxation. -/
theorem combo_fallback {Sys D B σ : Type} (sub : SubRelaxations Sys D B σ)
    (sys : Sys) (box : B) (lp : σ) (log : List SubRelax) :
    (0 ≤ ((sub.xnewton sys .COMPO).inlinearization box lp).1 →
      (LinearRelaxCombo.new_ sub sys .COMPO).inlinearization box lp
        = .ok ((sub.xnewton sys .COMPO).inlinearization box lp) ∧
      (LinearRelaxCombo.new_ sub.instrument sys .COMPO).inlinearization box (lp, log)
        = .ok (((sub.xnewton sys .COMPO).inlinearization box lp).1,
            (((sub.xnewton sys .COMPO).inlinearization box lp).2, log ++ [.XTaylor]))) ∧
    (((sub.xnewton sys .COMPO).inlinearization box lp).1 < 0 →
      (LinearRelaxCombo.new_ sub sys .COMPO).inlinearization box lp
        = .ok ((sub.art sys).inlinearization box
            ((sub.xnewton sys .COMPO).inlinearization box lp).2) ∧
      (LinearRelaxCombo.new_ sub.instrument sys .COMPO).inlinearization box (lp, log)
        = .ok (((sub.art sys).inlinearization box
              ((sub.xnewton sys .COMPO).inlinearization box lp).2).1,
            (((sub.art sys).inlinearization box
              ((sub.xnewton sys .COMPO).inlinearization box lp).2).2,
             log ++ [.XTaylor, .Affine2]))) ∧
    (((sub.xnewton sys .COMPO).goal_linearization box lp).1 = true →
      (LinearRelaxCombo.new_ sub sys .COMPO).goal_linearization box lp
        = .ok (true, ((sub.xnewton sys .COMPO).goal_linearization box lp).2) ∧
      (LinearRelaxCombo.new_ sub.instrument sys .COMPO).goal_linearization box (lp, log)
        = .ok (true,
            (((sub.xnewton sys .COMPO).goal_linearization box lp).2, log ++ [.XTaylor]))) ∧
    (((sub.xnewton sys .COMPO).goal_linearization box lp).1 = false →
      (LinearRelaxCombo.new_ sub sys .COMPO).goal_linearization box lp
        = .ok ((sub.art sys).goal_linearization box
            ((sub.xnewton sys .COMPO).goal_linearization box lp).2) ∧
      (LinearRelaxCombo.new_ sub.instrument sys .COMPO).goal_linearization box (lp, log)
        = .ok (((sub.art sys).goal_linearization box
              ((sub.xnewton sys .COMPO).goal_linearization box lp).2).1,
            (((sub.art sys).goal_linearization box
              ((sub.xnewton sys .COMPO).goal_linearization box lp).2).2,
             log ++ [.XTaylor, .Affine2]))) ∧
    ((LinearRelaxCombo.new_ sample_sub.instrument () .COMPO).inlinearization 5 ([], [])
        = .ok (2, ([2], [.XTaylor])) ∧
      (LinearRelaxCombo.new_ sample_sub.instrument () .COMPO).inlinearization 1 ([], [])
        = .ok (1, ([-2, 1], [.XTaylor, .Affine2])) ∧
      (LinearRelaxCombo.new_ sample_sub.instrument () .COMPO).goal_linearization 5 ([], [])
        = .ok (true, ([2], [.XTaylor])) ∧
      (LinearRelaxCombo.new_ sample_sub.instrument () .COMPO).goal_linearization 1 ([], [])
        = .ok (true, ([-2, 1], [.XTaylor, .Affine2]))) := by
  refine ⟨?_, ?_, ?_, ?_, ⟨rfl, rfl, rfl, rfl⟩⟩
  · intro h
    have hneg : ¬ ((sub.xnewton sys .COMPO).inlinearization box lp).1 < 0 := by omega
    constructor
    · rw [combo_inlinearization_compo]; simp [hneg]
    · rw [combo_inlinearization_compo, instrument_xnewton, instrument_art]
      simp [LinearRelax.logged, hneg]
  · intro hneg
    constructor
    · rw [combo_inlinearization_compo]; simp [hneg]
    · rw [combo_inlinearization_compo, instrument_xnewton, instrument_art]
      simp [LinearRelax.logged, hneg]
  · intro hok
    constructor
    · rw [combo_goal_linearization_compo]
      simp only [hok, if_true]
      rw [← hok]
    · rw [combo_goal_linearization_compo, instrument_xnewton, instrument_art]
      simp [LinearRelax.logged, hok]
  · intro hno
    constructor
    · rw [combo_goal_linearization_compo]; simp [hno]
    · rw [combo_goal_linearization_compo, instrument_xnewton, instrument_art]
      simp [LinearRelax.logged, hno]

end ibex
